import Mathlib

/-
Verification of the sliding-tile puzzle solvers of this repository.

Shallow embedding of:
  - 8puzzleproblem.py      : 3x3 board, best-first (A*) engine `PuzzleSolver`
  - Fifteen_Puzzle_Solver.py : 4x4 board, iterative deepening engine `IDSSolver`

Modelling conventions, stated once here:
  - Python nested lists / tuples of ints become `List (List Nat)`.  Cell access
    `board[i][j]` is modelled with a default value 0 for out-of-range indices;
    every access performed by the embedded code is in range for the board
    shapes the code is run on, so the default is never observed.
  - Python `heapq` is modelled by its documented contract: `heappush` appends,
    `heappop` removes an element of minimal priority (`PuzzleState.__lt__`
    compares `cost` only).  Tie order among equal-cost nodes is internal to the
    heap; the model resolves ties to the leftmost (oldest) element.
  - Python `set` of states (`closed_set`, keyed by board equality) is a
    duplicate-free list of boards; `set.add` inserts only when absent.
    The sets `current_path` / `visited_states` of `IDSSolver` store the Python
    hash of the state; the model identifies a hash with the board itself
    (i.e. assumes tuple hashing is collision-free on the boards encountered).
  - A Python crash (unpacking `None` returned by a blank-position scan that
    found no blank) is the `crash` outcome; returning `None` is `retNone`.
  - Wall-clock fields (`time_taken`) are not modelled.
-/

inductive Move where
  | UP
  | DOWN
  | LEFT
  | RIGHT
deriving DecidableEq, Repr

abbrev Board := List (List Nat)

/-- Read cell `board[i][j]`; out-of-range reads (never performed by the
embedded code on the shapes it runs on) default to 0. -/
def cell (b : Board) (i j : Nat) : Nat := (b.getD i []).getD j 0

/-- Write cell `board[i][j] = v` (functionally). -/
def setCell (b : Board) (i j v : Nat) : Board := b.set i ((b.getD i []).set j v)

/-- Simultaneous swap
`board[x][y], board[nx][ny] = board[nx][ny], board[x][y]` on a fresh copy. -/
def swapCells (b : Board) (x y nx ny : Nat) : Board :=
  setCell (setCell b x y (cell b nx ny)) nx ny (cell b x y)

/-- Result of a Python call: an uncaught exception, the value `None`, or a
proper return value. -/
inductive PyRes (α : Type) where
  | crash
  | retNone
  | found (a : α)
deriving DecidableEq, Repr

/-- Inversion count of a flattened tile list: pairs `(i, j)` with `i < j` and
`flat[i] > flat[j]` (both solvers use this double loop). -/
def invCount : List Nat → Nat
  | [] => 0
  | x :: xs => xs.countP (fun y => decide (y < x)) + invCount xs

/-- `[num for row in board for num in row if num != 0]`. -/
def flatNonzero (b : Board) : List Nat := b.flatten.filter (fun v => decide (v ≠ 0))

/- ===================== 8puzzleproblem.py (3x3, A*) ===================== -/

/-- Goal board of `PuzzleState.is_goal`. -/
def goal3 : Board := [[1, 2, 3], [4, 5, 6], [7, 8, 0]]

/-- `PuzzleState.get_blank_pos`: first `(i, j)` in row-major order over the
3x3 index range holding 0; `none` when there is none (Python returns `None`). -/
def getBlankPos3 (b : Board) : Option (Nat × Nat) :=
  (List.range 3).findSome? fun i =>
    (List.range 3).findSome? fun j =>
      if cell b i j = 0 then some (i, j) else none

/-- One summand of `PuzzleState.manhattan_distance`:
`x_goal, y_goal = divmod(board[i][j] - 1, 3)` and
`abs(x_goal - i) + abs(y_goal - j)` for a non-blank tile. -/
def mTerm3 (v i j : Nat) : Nat :=
  if v = 0 then 0
  else (((v : Int) - 1) / 3 - (i : Int)).natAbs + (((v : Int) - 1) % 3 - (j : Int)).natAbs

/-- `PuzzleState.manhattan_distance`. -/
def manhattan3 (b : Board) : Nat :=
  ((List.range 3).map fun i => ((List.range 3).map fun j => mTerm3 (cell b i j) i j).sum).sum

/-- `SearchNode`: `PuzzleState` with its ancestry chain (`board`, `parent`,
`move`, `depth`). -/
inductive PNode where
  | mk (board : Board) (parent : Option PNode) (move : Option Move) (depth : Nat)

def PNode.board : PNode → Board
  | .mk b _ _ _ => b

def PNode.parent : PNode → Option PNode
  | .mk _ p _ _ => p

def PNode.move : PNode → Option Move
  | .mk _ _ m _ => m

def PNode.depth : PNode → Nat
  | .mk _ _ _ d => d

/-- `self.cost = self.depth + self.manhattan_distance()`. -/
def PNode.cost (n : PNode) : Nat := n.depth + manhattan3 n.board

theorem PNode.board_mk (b : Board) (p : Option PNode) (m : Option Move) (d : Nat) :
    (PNode.mk b p m d).board = b := rfl

theorem PNode.parent_mk (b : Board) (p : Option PNode) (m : Option Move) (d : Nat) :
    (PNode.mk b p m d).parent = p := rfl

theorem PNode.move_mk (b : Board) (p : Option PNode) (m : Option Move) (d : Nat) :
    (PNode.mk b p m d).move = m := rfl

theorem PNode.depth_mk (b : Board) (p : Option PNode) (m : Option Move) (d : Nat) :
    (PNode.mk b p m d).depth = d := rfl

/-- The move table of `PuzzleState.get_neighbors` (3x3 engine):
label, row offset, column offset of the cell the blank swaps with. -/
def moves3 : List (Move × Int × Int) :=
  [(.UP, -1, 0), (.DOWN, 1, 0), (.LEFT, 0, -1), (.RIGHT, 0, 1)]

/-- `PuzzleState.get_neighbors` (3x3): `none` models the crash of
`x, y = self.get_blank_pos()` when the scan found no blank. -/
def getNeighbors3 (n : PNode) : Option (List PNode) :=
  match getBlankPos3 n.board with
  | none => none
  | some (x, y) =>
    some (moves3.filterMap fun md =>
      let nx : Int := (x : Int) + md.2.1
      let ny : Int := (y : Int) + md.2.2
      if 0 ≤ nx ∧ nx < 3 ∧ 0 ≤ ny ∧ ny < 3 then
        some (PNode.mk (swapCells n.board x y nx.toNat ny.toNat) (some n) (some md.1)
          (n.depth + 1))
      else none)

/-- `PuzzleSolver.is_solvable` (3x3 rule: inversion count even). -/
def is_solvable3 (b : Board) : Bool := decide (invCount (flatNonzero b) % 2 = 0)

/-- `PuzzleSolver.get_solution_path` restricted to the fresh part: the chain of
moves from the root to this node, in order (`insert(0, ...)` while walking
parents). -/
def chainMoves : PNode → List Move
  | .mk _ none _ _ => []
  | .mk _ (some p) m _ => chainMoves p ++ m.toList

/-- Pop a minimal-cost element (leftmost among ties), returning it and the
remaining collection: the `heapq.heappop` contract. -/
def popMin : List PNode → Option (PNode × List PNode)
  | [] => none
  | x :: xs =>
    match popMin xs with
    | none => some (x, [])
    | some (m, rest) => if x.cost ≤ m.cost then some (x, xs) else some (m, x :: rest)

/-- `set.add` on the closed set of boards. -/
def insertClosed (b : Board) (closed : List Board) : List Board :=
  if b ∈ closed then closed else b :: closed

/-- Result dictionary of `PuzzleSolver.solve` (without `time_taken`). -/
structure PResult where
  moves : List Move
  nodes_explored : Nat
  solution_depth : Nat
deriving DecidableEq, Repr

/-- The `while open_set:` loop of `PuzzleSolver.solve`, fuel-indexed.
`none` means the fuel ran out (the Python loop is still running). -/
def pzLoop : Nat → List PNode → List Board → Option (PyRes PResult)
  | 0, _, _ => none
  | fuel + 1, opn, closed =>
    match popMin opn with
    | none => some .retNone
    | some (cur, rest) =>
      if cur.board = goal3 then
        some (.found ⟨chainMoves cur, closed.length, cur.depth⟩)
      else
        let closed2 := insertClosed cur.board closed
        match getNeighbors3 cur with
        | none => some .crash
        | some ns =>
          pzLoop fuel (rest ++ ns.filter (fun n => decide (¬ n.board ∈ closed2))) closed2

/-- `PuzzleSolver.solve` on a solver whose `moves_made` currently holds
`moves0` (`get_solution_path` prepends the fresh chain in front of it). -/
def pzSolveWith (moves0 : List Move) (b : Board) (fuel : Nat) : Option (PyRes PResult) :=
  if is_solvable3 b then
    match pzLoop fuel [PNode.mk b none none 0] [] with
    | some (.found r) => some (.found ⟨r.moves ++ moves0, r.nodes_explored, r.solution_depth⟩)
    | other => other
  else some .retNone

/-- `PuzzleSolver(board).solve()` on a fresh solver. -/
def pzSolve (b : Board) (fuel : Nat) : Option (PyRes PResult) := pzSolveWith [] b fuel

/- ================ Fifteen_Puzzle_Solver.py (4x4, IDS) ================ -/

/-- `PuzzleState.GOAL_STATE`, by its generating comprehension. -/
def goal4 : Board :=
  (List.range 4).map fun i => (List.range 4).map fun j =>
    if i * 4 + j < 15 then i * 4 + j + 1 else 0

/-- `PuzzleState.get_blank_position` (4x4): first 0 found in row-major order
(the per-instance caching is pure memoisation). -/
def getBlankPos4 (b : Board) : Option (Nat × Nat) :=
  (List.range 4).findSome? fun i =>
    (List.range 4).findSome? fun j =>
      if cell b i j = 0 then some (i, j) else none

/-- One summand of the 4x4 `manhattan_distance`:
`goal_row, goal_col = (tile - 1) // 4, (tile - 1) % 4`. -/
def mTerm4 (v i j : Nat) : Nat :=
  if v = 0 then 0
  else (((v : Int) - 1) / 4 - (i : Int)).natAbs + (((v : Int) - 1) % 4 - (j : Int)).natAbs

/-- 4x4 `PuzzleState.manhattan_distance`. -/
def manhattan4 (b : Board) : Nat :=
  ((List.range 4).map fun i => ((List.range 4).map fun j => mTerm4 (cell b i j) i j).sum).sum

/-- The move table of the 4x4 `PuzzleState.get_neighbors`: row offset, column
offset of the cell the blank swaps with, and the label attached to it.  Note
the labels are opposite to the 3x3 table: `(1, 0)` (blank moves down) is
labelled `UP`, the direction the swapped tile moves. -/
def moves4 : List (Int × Int × Move) :=
  [(0, 1, .LEFT), (0, -1, .RIGHT), (1, 0, .UP), (-1, 0, .DOWN)]

/-- 4x4 `PuzzleState.get_neighbors`: list of `(new board, move label)`. -/
def getNeighbors4 (b : Board) : Option (List (Board × Move)) :=
  match getBlankPos4 b with
  | none => none
  | some (i, j) =>
    some (moves4.filterMap fun md =>
      let ni : Int := (i : Int) + md.1
      let nj : Int := (j : Int) + md.2.1
      if 0 ≤ ni ∧ ni < 4 ∧ 0 ≤ nj ∧ nj < 4 then
        some (swapCells b i j ni.toNat nj.toNat, md.2.2)
      else none)

/-- Row of the last 0 encountered while flattening (the 4x4 `is_solvable`
updates `blank_row` on every 0 it meets); 0 when there is no blank. -/
def blankRowLast (b : Board) : Nat :=
  b.enum.foldl (fun acc ir => if 0 ∈ ir.2 then ir.1 else acc) 0

/-- `IDSSolver.is_solvable` (4x4 rule):
`(blank_row_from_bottom % 2 == 0) == (inversions % 2 == 0)` with
`blank_row_from_bottom = 3 - blank_row`. -/
def is_solvable4 (b : Board) : Bool :=
  decide ((((3 : Int) - (blankRowLast b : Int)) % 2 = 0) ↔ (invCount (flatNonzero b) % 2 = 0))

/-- Result of one `IDSSolver.dls` call: crash, `False`, or `True` together
with the `self.solution` it recorded. -/
inductive DRes where
  | crash
  | fail
  | success (sol : List Move)
deriving DecidableEq, Repr

/-- Sequence the neighbour loop of `dls`: the first non-`False` result ends
the loop (a `True` returns, a crash propagates); all-`False` means `False`. -/
def firstNonFail : List DRes → DRes
  | [] => .fail
  | r :: rs =>
    match r with
    | .fail => firstNonFail rs
    | other => other

/-- `IDSSolver.dls`, fuel-indexed.  The recursion of the source decreases
`depth` by one on every call and gives up below zero, so any fuel larger than
`depth + 1` yields the same result (proved below); `crash` at fuel 0 marks the
unreachable out-of-fuel case.  `cp` is `self.current_path` and `visited` is
`self.visited_states` (which nothing ever adds to); both restored on a
`False` return, so they are threaded by value. -/
def dlsF : Nat → Board → Int → List Move → List Board → List Board → DRes
  | 0, _, _, _, _, _ => .crash
  | fuel + 1, s, depth, path, cp, visited =>
    if depth < 0 then .fail
    else if s = goal4 then .success path
    else if (manhattan4 s : Int) > depth then .fail
    else if s ∈ cp then .fail
    else
      match getNeighbors4 s with
      | none => .crash
      | some ns =>
        firstNonFail (ns.map fun tm =>
          if tm.1 ∈ visited then .fail
          else dlsF fuel tm.1 (depth - 1) (path ++ [tm.2]) (s :: cp) visited)

/-- `IDSSolver.dls` with enough fuel for its depth budget. -/
def dls (s : Board) (depth : Int) (path : List Move) (cp visited : List Board) : DRes :=
  dlsF ((depth + 1).toNat + 1) s depth path cp visited

/-- The `for depth in range(max_depth)` loop of `IDSSolver.solve`; each
iteration clears `visited_states` and `current_path` before calling `dls`. -/
def idsLoop (b : Board) : List Nat → PyRes (List Move)
  | [] => .retNone
  | d :: ds =>
    match dls b d [] ([] : List Board) ([] : List Board) with
    | .success sol => .found sol
    | .crash => .crash
    | .fail => idsLoop b ds

/-- `IDSSolver.solve(max_depth)` on a solver whose mutable state currently
holds `visited`, `cp`, `sol0`; the loop clears the two sets before every
`dls` call and only a fresh `dls` success is ever returned, so the incoming
state does not influence the result (the definition ignores it). -/
def idsSolveFrom (_visited _cp : List Board) (_sol0 : List Move) (b : Board) (cap : Nat) :
    PyRes (List Move) :=
  if is_solvable4 b then idsLoop b (List.range cap) else .retNone

/-- `IDSSolver(state).solve(max_depth)` on a fresh solver. -/
def idsSolve (b : Board) (cap : Nat) : PyRes (List Move) :=
  idsSolveFrom [] [] [] b cap

/- ===================== ground-truth move distances ===================== -/

/-- Boards one legal 3x3 move away (the board components of
`get_neighbors`). -/
def nbBoards3 (b : Board) : List Board :=
  match getNeighbors3 (PNode.mk b none none 0) with
  | none => []
  | some ns => ns.map PNode.board

/-- Boards one legal 4x4 move away. -/
def nbBoards4 (b : Board) : List Board :=
  match getNeighbors4 b with
  | none => []
  | some ns => ns.map Prod.fst

/-- There is a chain of exactly `n` legal 3x3 moves from `b` to the goal. -/
def reachIn3 : Nat → Board → Prop
  | 0, b => b = goal3
  | n + 1, b => ∃ c ∈ nbBoards3 b, reachIn3 n c

instance reachIn3.dec : (n : Nat) → (b : Board) → Decidable (reachIn3 n b)
  | 0, b => inferInstanceAs (Decidable (b = goal3))
  | n + 1, b =>
    have : ∀ c, Decidable (reachIn3 n c) := fun c => reachIn3.dec n c
    inferInstanceAs (Decidable (∃ c ∈ nbBoards3 b, reachIn3 n c))

/-- There is a chain of exactly `n` legal 4x4 moves from `b` to the goal. -/
def reachIn4 : Nat → Board → Prop
  | 0, b => b = goal4
  | n + 1, b => ∃ c ∈ nbBoards4 b, reachIn4 n c

instance reachIn4.dec : (n : Nat) → (b : Board) → Decidable (reachIn4 n b)
  | 0, b => inferInstanceAs (Decidable (b = goal4))
  | n + 1, b =>
    have : ∀ c, Decidable (reachIn4 n c) := fun c => reachIn4.dec n c
    inferInstanceAs (Decidable (∃ c ∈ nbBoards4 b, reachIn4 n c))

/-- True (ground-truth) solvability of a 3x3 board: the goal is reachable. -/
def Solvable3 (b : Board) : Prop := ∃ n, reachIn3 n b

/-- True (ground-truth) solvability of a 4x4 board. -/
def Solvable4 (b : Board) : Prop := ∃ n, reachIn4 n b

/-- True minimal move count of a solvable 3x3 board. -/
def dist3 (b : Board) (h : Solvable3 b) : Nat := Nat.find h

/-- True minimal move count of a solvable 4x4 board. -/
def dist4 (b : Board) (h : Solvable4 b) : Nat := Nat.find h

/- ===================== generic board lemmas ===================== -/

/-- The board is an `n` by `w` grid. -/
def ShapeN (n w : Nat) (b : Board) : Prop := b.map List.length = List.replicate n w

theorem shape_length {n w : Nat} {b : Board} (h : ShapeN n w b) : b.length = n := by
  have := congrArg List.length h
  simpa using this

theorem shape_row {n w : Nat} {b : Board} (h : ShapeN n w b) {i : Nat} (hi : i < n) :
    (b.getD i []).length = w := by
  have hb : b.length = n := shape_length h
  have h2 : (b.map List.length)[i]? = (List.replicate n w)[i]? := by rw [h]
  rw [List.getElem?_map, List.getElem?_replicate, if_pos hi] at h2
  rw [List.getD_eq_getElem?_getD]
  cases hge : b[i]? with
  | none => simp [List.getElem?_eq_none_iff] at hge; omega
  | some r => rw [hge] at h2; simpa using h2

theorem cell_setCell {n w : Nat} {b : Board} (h : ShapeN n w b) {x y : Nat} (hx : x < n)
    (hy : y < w) (v : Nat) (i j : Nat) :
    cell (setCell b x y v) i j = if i = x ∧ j = y then v else cell b i j := by
  have hb : b.length = n := shape_length h
  have hrl : (b.getD x []).length = w := shape_row h hx
  simp only [cell, setCell, List.getD_eq_getElem?_getD, List.getElem?_set]
  by_cases hix : x = i
  · subst hix
    rw [if_pos rfl, if_pos (by omega)]
    simp only [Option.getD_some]
    rw [List.getElem?_set]
    by_cases hjy : y = j
    · subst hjy
      rw [if_pos rfl, if_pos (by rw [← List.getD_eq_getElem?_getD]; omega)]
      simp
    · rw [if_neg hjy, if_neg (by intro hc; exact hjy hc.2.symm)]
  · rw [if_neg hix, if_neg (by intro hc; exact hix hc.1.symm)]

theorem shape_setCell {n w : Nat} {b : Board} (h : ShapeN n w b) {x y : Nat} (hx : x < n)
    (v : Nat) : ShapeN n w (setCell b x y v) := by
  unfold ShapeN setCell
  rw [List.map_set, h, List.length_set, shape_row h hx]
  apply List.ext_getElem
  · simp
  · intro i h1 h2
    simp only [List.getElem_set, List.getElem_replicate]
    split <;> rfl

theorem shape_swapCells {n w : Nat} {b : Board} (h : ShapeN n w b) {x y nx ny : Nat}
    (hx : x < n) (hnx : nx < n) : ShapeN n w (swapCells b x y nx ny) :=
  shape_setCell (shape_setCell h hx _) hnx _

theorem cell_swapCells {n w : Nat} {b : Board} (h : ShapeN n w b) {x y nx ny : Nat}
    (hx : x < n) (hy : y < w) (hnx : nx < n) (hny : ny < w) (i j : Nat) :
    cell (swapCells b x y nx ny) i j =
      if i = nx ∧ j = ny then cell b x y
      else if i = x ∧ j = y then cell b nx ny
      else cell b i j := by
  unfold swapCells
  rw [cell_setCell (shape_setCell h hx _) hnx hny]
  by_cases h1 : i = nx ∧ j = ny
  · rw [if_pos h1, if_pos h1]
  · rw [if_neg h1, if_neg h1, cell_setCell h hx hy]

theorem getBlankPos3_spec {b : Board} {x y : Nat} (h : getBlankPos3 b = some (x, y)) :
    x < 3 ∧ y < 3 ∧ cell b x y = 0 := by
  unfold getBlankPos3 at h
  obtain ⟨i, hi, h2⟩ := List.exists_of_findSome?_eq_some h
  obtain ⟨j, hj, h3⟩ := List.exists_of_findSome?_eq_some h2
  simp only [List.mem_range] at hi hj
  by_cases hc : cell b i j = 0
  · rw [if_pos hc] at h3
    obtain ⟨rfl, rfl⟩ : i = x ∧ j = y := by
      constructor <;> [exact congrArg Prod.fst (Option.some.inj h3);
        exact congrArg Prod.snd (Option.some.inj h3)]
    exact ⟨hi, hj, hc⟩
  · rw [if_neg hc] at h3
    exact absurd h3 (by simp)

theorem getBlankPos4_spec {b : Board} {x y : Nat} (h : getBlankPos4 b = some (x, y)) :
    x < 4 ∧ y < 4 ∧ cell b x y = 0 := by
  unfold getBlankPos4 at h
  obtain ⟨i, hi, h2⟩ := List.exists_of_findSome?_eq_some h
  obtain ⟨j, hj, h3⟩ := List.exists_of_findSome?_eq_some h2
  simp only [List.mem_range] at hi hj
  by_cases hc : cell b i j = 0
  · rw [if_pos hc] at h3
    obtain ⟨rfl, rfl⟩ : i = x ∧ j = y := by
      constructor <;> [exact congrArg Prod.fst (Option.some.inj h3);
        exact congrArg Prod.snd (Option.some.inj h3)]
    exact ⟨hi, hj, hc⟩
  · rw [if_neg hc] at h3
    exact absurd h3 (by simp)

/-- Claim C9: the two engines use opposite move-label conventions for the
same physical swap.  In the 3x3 engine a neighbour labelled `UP` has the blank
moved to row `x - 1` (the label names the direction the blank moves); in the
4x4 engine a neighbour labelled `UP` has the blank moved to row `x + 1` (the
label names the direction the swapped tile moves). -/
theorem c9_move_conventions :
    (∀ (n : PNode) (x y : Nat) (ns : List PNode) (nb : PNode),
        getBlankPos3 n.board = some (x, y) → getNeighbors3 n = some ns → nb ∈ ns →
        nb.move = some Move.UP → 1 ≤ x ∧ nb.board = swapCells n.board x y (x - 1) y) ∧
    (∀ (b : Board) (x y : Nat) (ns : List (Board × Move)) (p : Board × Move),
        getBlankPos4 b = some (x, y) → getNeighbors4 b = some ns → p ∈ ns →
        p.2 = Move.UP → x + 1 < 4 ∧ p.1 = swapCells b x y (x + 1) y) := by
  constructor
  · intro n x y ns nb hpos hns hmem hup
    unfold getNeighbors3 at hns
    rw [hpos] at hns
    obtain rfl : _ = ns := Option.some.inj hns
    obtain ⟨md, hmd, hf⟩ := List.mem_filterMap.mp hmem
    simp only [moves3, List.mem_cons, List.not_mem_nil, or_false] at hmd
    rcases hmd with rfl | rfl | rfl | rfl
    · -- UP entry: blank swaps with the cell at row x - 1
      dsimp only at hf
      split at hf
      · obtain rfl : _ = nb := Option.some.inj hf
        rename_i hcond
        refine ⟨by omega, ?_⟩
        show swapCells n.board x y ((x : Int) + -1).toNat ((y : Int) + 0).toNat = _
        have h1 : ((x : Int) + -1).toNat = x - 1 := by omega
        have h2 : ((y : Int) + 0).toNat = y := by omega
        rw [h1, h2]
      · cases hf
    · -- DOWN entry: its label is not UP
      dsimp only at hf
      split at hf
      · obtain rfl : _ = nb := Option.some.inj hf
        exact absurd hup (by simp [PNode.move])
      · cases hf
    · -- LEFT entry
      dsimp only at hf
      split at hf
      · obtain rfl : _ = nb := Option.some.inj hf
        exact absurd hup (by simp [PNode.move])
      · cases hf
    · -- RIGHT entry
      dsimp only at hf
      split at hf
      · obtain rfl : _ = nb := Option.some.inj hf
        exact absurd hup (by simp [PNode.move])
      · cases hf
  · intro b x y ns p hpos hns hmem hup
    unfold getNeighbors4 at hns
    rw [hpos] at hns
    obtain rfl : _ = ns := Option.some.inj hns
    obtain ⟨md, hmd, hf⟩ := List.mem_filterMap.mp hmem
    simp only [moves4, List.mem_cons, List.not_mem_nil, or_false] at hmd
    rcases hmd with rfl | rfl | rfl | rfl
    · -- LEFT entry: its label is not UP
      dsimp only at hf
      split at hf
      · obtain rfl : _ = p := Option.some.inj hf
        exact absurd hup (by simp)
      · cases hf
    · -- RIGHT entry
      dsimp only at hf
      split at hf
      · obtain rfl : _ = p := Option.some.inj hf
        exact absurd hup (by simp)
      · cases hf
    · -- UP entry: blank swaps with the cell at row x + 1
      dsimp only at hf
      split at hf
      · obtain rfl : _ = p := Option.some.inj hf
        rename_i hcond
        refine ⟨by omega, ?_⟩
        show swapCells b x y ((x : Int) + 1).toNat ((y : Int) + 0).toNat = _
        have h1 : ((x : Int) + 1).toNat = x + 1 := by omega
        have h2 : ((y : Int) + 0).toNat = y := by omega
        rw [h1, h2]
      · cases hf
    · -- DOWN entry
      dsimp only at hf
      split at hf
      · obtain rfl : _ = p := Option.some.inj hf
        exact absurd hup (by simp)
      · cases hf

/-- Witness for `c9_move_conventions` at a concrete board each. -/
theorem c9_move_conventions_witness :
    (1 ≤ 2 ∧ (PNode.mk [[1,2,3],[4,0,6],[7,5,8]]
        (some (PNode.mk [[1,2,3],[4,5,6],[7,0,8]] none none 0)) (some Move.UP) 1).board
        = swapCells [[1,2,3],[4,5,6],[7,0,8]] 2 1 (2 - 1) 1) ∧
    (2 + 1 < 4 ∧ ([[1,2,3,4],[5,6,7,8],[9,10,11,12],[13,14,0,15]] : Board)
        = swapCells [[1,2,3,4],[5,6,7,8],[9,10,0,12],[13,14,11,15]] 2 2 (2 + 1) 2) := by
  constructor
  · exact c9_move_conventions.1 (PNode.mk [[1,2,3],[4,5,6],[7,0,8]] none none 0) 2 1
      [PNode.mk [[1,2,3],[4,0,6],[7,5,8]]
        (some (PNode.mk [[1,2,3],[4,5,6],[7,0,8]] none none 0)) (some Move.UP) 1,
       PNode.mk [[1,2,3],[4,5,6],[0,7,8]]
        (some (PNode.mk [[1,2,3],[4,5,6],[7,0,8]] none none 0)) (some Move.LEFT) 1,
       PNode.mk [[1,2,3],[4,5,6],[7,8,0]]
        (some (PNode.mk [[1,2,3],[4,5,6],[7,0,8]] none none 0)) (some Move.RIGHT) 1]
      (PNode.mk [[1,2,3],[4,0,6],[7,5,8]]
        (some (PNode.mk [[1,2,3],[4,5,6],[7,0,8]] none none 0)) (some Move.UP) 1)
      rfl rfl (List.mem_cons_self _ _) rfl
  · exact c9_move_conventions.2 [[1,2,3,4],[5,6,7,8],[9,10,0,12],[13,14,11,15]] 2 2
      [([[1,2,3,4],[5,6,7,8],[9,10,12,0],[13,14,11,15]], Move.LEFT),
       ([[1,2,3,4],[5,6,7,8],[9,0,10,12],[13,14,11,15]], Move.RIGHT),
       ([[1,2,3,4],[5,6,7,8],[9,10,11,12],[13,14,0,15]], Move.UP),
       ([[1,2,3,4],[5,6,0,8],[9,10,7,12],[13,14,11,15]], Move.DOWN)]
      ([[1,2,3,4],[5,6,7,8],[9,10,11,12],[13,14,0,15]], Move.UP)
      rfl rfl (by decide) rfl

theorem idsLoop_fail {b : Board} {L : List Nat}
    (h : ∀ d ∈ L, dls b d [] [] [] = DRes.fail) : idsLoop b L = PyRes.retNone := by
  induction L with
  | nil => rfl
  | cons d ds ih =>
    unfold idsLoop
    rw [h d (List.mem_cons_self d ds)]
    exact ih fun e he => h e (List.mem_cons_of_mem d he)

/-- Claim C6, amended: when no solution is returned the two failure kinds are
NOT reported as distinct values.  A parity-rejected board and a board whose
depth cap is exhausted both make `IDSSolver.solve` return `None` (and the 3x3
`PuzzleSolver.solve` also returns `None` on parity rejection); the failure
kinds are distinguishable only by calling `is_solvable` separately, as the
CLI layer does. -/
theorem c6_failure_values_not_distinct (b3 b b2 : Board) (fuel cap cap2 : Nat)
    (h0 : is_solvable3 b3 = false)
    (h1 : is_solvable4 b = false)
    (h2 : is_solvable4 b2 = true)
    (h3 : ∀ d, d < cap2 → dls b2 d [] [] [] = DRes.fail) :
    pzSolve b3 fuel = some PyRes.retNone ∧
    idsSolve b cap = PyRes.retNone ∧ idsSolve b2 cap2 = PyRes.retNone := by
  refine ⟨?_, ?_, ?_⟩
  · simp [pzSolve, pzSolveWith, h0]
  · simp [idsSolve, idsSolveFrom, h1]
  · simp only [idsSolve, idsSolveFrom, h2, if_true]
    exact idsLoop_fail fun d hd => h3 d (List.mem_range.mp hd)

/-- Witness for `c6_failure_values_not_distinct` at concrete boards: an
unsolvable 4x4 board (odd permutation), a solvable one whose cap 1 is too
small, and an unsolvable 3x3 board. -/
theorem c6_failure_values_not_distinct_witness :
    pzSolve [[1,2,3],[4,5,6],[8,7,0]] 5 = some PyRes.retNone ∧
    idsSolve [[1,2,3,4],[5,6,7,8],[9,10,11,12],[13,15,14,0]] 31 = PyRes.retNone ∧
    idsSolve [[1,2,3,4],[5,6,7,8],[9,10,11,12],[13,14,0,15]] 1 = PyRes.retNone :=
  c6_failure_values_not_distinct [[1,2,3],[4,5,6],[8,7,0]]
    [[1,2,3,4],[5,6,7,8],[9,10,11,12],[13,15,14,0]]
    [[1,2,3,4],[5,6,7,8],[9,10,11,12],[13,14,0,15]] 5 31 1
    (by decide) (by decide) (by decide)
    (fun d hd => by interval_cases d; decide)

/-- Claim C6 as stated is false: the parity-unsolvable board and the
cap-exhausted board produce the very same return value `None` from
`IDSSolver.solve`, not two distinct values (the second board is genuinely
solvable: a larger cap finds its one-move solution). -/
theorem c6_counterexample :
    is_solvable4 [[1,2,3,4],[5,6,7,8],[9,10,11,12],[13,15,14,0]] = false ∧
    is_solvable4 [[1,2,3,4],[5,6,7,8],[9,10,11,12],[13,14,0,15]] = true ∧
    idsSolve [[1,2,3,4],[5,6,7,8],[9,10,11,12],[13,15,14,0]] 31 =
      idsSolve [[1,2,3,4],[5,6,7,8],[9,10,11,12],[13,14,0,15]] 1 ∧
    idsSolve [[1,2,3,4],[5,6,7,8],[9,10,11,12],[13,14,0,15]] 2 =
      PyRes.found [Move.LEFT] := by
  refine ⟨by decide, by decide, ?_, by decide⟩
  decide

/-- Claim C7, amended: the solvability checks are pure functions of the board
and `IDSSolver.solve` is insensitive to the solver state left by earlier
calls, so their repeated invocations agree; but `PuzzleSolver.solve` is NOT
idempotent: `moves_made` is never cleared, so a second `solve()` on the same
solver returns the first solution concatenated with itself (the move list
doubles) while the other statistics repeat. -/
theorem c7_repeat_behaviour :
    (∀ (v c : List Board) (s : List Move) (b : Board) (cap : Nat),
        idsSolveFrom v c s b cap = idsSolve b cap) ∧
    (∀ (b : Board) (fuel : Nat) (r : PResult),
        pzSolve b fuel = some (PyRes.found r) →
        pzSolveWith r.moves b fuel =
          some (PyRes.found ⟨r.moves ++ r.moves, r.nodes_explored, r.solution_depth⟩)) := by
  constructor
  · intro v c s b cap
    rfl
  · intro b fuel r h
    unfold pzSolve pzSolveWith at h
    by_cases hs : is_solvable3 b
    · rw [if_pos hs] at h
      unfold pzSolveWith
      rw [if_pos hs]
      cases hL : pzLoop fuel [PNode.mk b none none 0] [] with
      | none => rw [hL] at h; cases h
      | some res =>
        rw [hL] at h
        cases res with
        | crash => cases h
        | retNone => cases h
        | found r0 =>
          obtain rfl : _ = r := PyRes.found.inj (Option.some.inj h)
          simp
    · rw [if_neg hs] at h
      cases h

/-- Witness for `c7_repeat_behaviour` at a concrete board. -/
theorem c7_repeat_behaviour_witness :
    idsSolveFrom [goal4] [goal4] [Move.UP] [[1,2,3,4],[5,6,7,8],[9,10,11,12],[13,14,0,15]] 2 =
      idsSolve [[1,2,3,4],[5,6,7,8],[9,10,11,12],[13,14,0,15]] 2 ∧
    pzSolveWith [Move.RIGHT] [[1,2,3],[4,5,6],[7,0,8]] 3 =
      some (PyRes.found ⟨[Move.RIGHT] ++ [Move.RIGHT], 1, 1⟩) :=
  ⟨c7_repeat_behaviour.1 [goal4] [goal4] [Move.UP]
      [[1,2,3,4],[5,6,7,8],[9,10,11,12],[13,14,0,15]] 2,
    c7_repeat_behaviour.2 [[1,2,3],[4,5,6],[7,0,8]] 3 ⟨[Move.RIGHT], 1, 1⟩ (by decide)⟩

/-- Claim C7 as stated is false for `PuzzleSolver`: on the board one move
from the goal, the first `solve()` returns the move list `[RIGHT]`, but a
second `solve()` on the same solver returns `[RIGHT, RIGHT]` (the accumulated
`moves_made` is prepended again), not the same sequence. -/
theorem c7_counterexample :
    pzSolve [[1,2,3],[4,5,6],[7,0,8]] 3 =
      some (PyRes.found ⟨[Move.RIGHT], 1, 1⟩) ∧
    pzSolveWith [Move.RIGHT] [[1,2,3],[4,5,6],[7,0,8]] 3 =
      some (PyRes.found ⟨[Move.RIGHT, Move.RIGHT], 1, 1⟩) ∧
    ¬ ([Move.RIGHT, Move.RIGHT] = [Move.RIGHT]) := by
  refine ⟨by decide, by decide, by decide⟩

theorem dlsF_fuel_eq : ∀ (f1 : Nat) (s : Board) (depth : Int) (path : List Move)
    (cp visited : List Board) (f2 : Nat), (depth + 1).toNat < f1 → (depth + 1).toNat < f2 →
    dlsF f1 s depth path cp visited = dlsF f2 s depth path cp visited := by
  intro f1
  induction f1 with
  | zero => intro s depth path cp visited f2 h1 h2; omega
  | succ a ih =>
    intro s depth path cp visited f2 h1 h2
    cases f2 with
    | zero => omega
    | succ b =>
      show dlsF (a + 1) s depth path cp visited = dlsF (b + 1) s depth path cp visited
      unfold dlsF
      by_cases hneg : depth < 0
      · rw [if_pos hneg, if_pos hneg]
      · rw [if_neg hneg, if_neg hneg]
        by_cases hgoal : s = goal4
        · rw [if_pos hgoal, if_pos hgoal]
        · rw [if_neg hgoal, if_neg hgoal]
          by_cases hman : (manhattan4 s : Int) > depth
          · rw [if_pos hman, if_pos hman]
          · rw [if_neg hman, if_neg hman]
            by_cases hcp : s ∈ cp
            · rw [if_pos hcp, if_pos hcp]
            · rw [if_neg hcp, if_neg hcp]
              cases hns : getNeighbors4 s with
              | none => rfl
              | some ns =>
                dsimp only
                have hmap : (ns.map fun tm =>
                    if tm.1 ∈ visited then DRes.fail
                    else dlsF a tm.1 (depth - 1) (path ++ [tm.2]) (s :: cp) visited) =
                    (ns.map fun tm =>
                    if tm.1 ∈ visited then DRes.fail
                    else dlsF b tm.1 (depth - 1) (path ++ [tm.2]) (s :: cp) visited) := by
                  apply List.map_congr_left
                  intro tm _
                  by_cases hv : tm.1 ∈ visited
                  · rw [if_pos hv, if_pos hv]
                  · rw [if_neg hv, if_neg hv]
                    exact ih tm.1 (depth - 1) (path ++ [tm.2]) (s :: cp) visited b
                      (by omega) (by omega)
                rw [hmap]

theorem idsLoop_first_success {b : Board} {d : Nat} {sol : List Move} :
    ∀ (L1 L2 : List Nat), (∀ e ∈ L1, dls b e [] [] [] = DRes.fail) →
    dls b d [] [] [] = DRes.success sol →
    idsLoop b (L1 ++ d :: L2) = PyRes.found sol := by
  intro L1
  induction L1 with
  | nil =>
    intro L2 _ hd
    rw [List.nil_append]
    unfold idsLoop
    rw [hd]
  | cons e es ih =>
    intro L2 he hd
    show idsLoop b (e :: (es ++ d :: L2)) = _
    unfold idsLoop
    rw [he e (List.mem_cons_self e es)]
    exact ih L2 (fun x hx => he x (List.mem_cons_of_mem e hx)) hd

theorem range_split {d cap : Nat} (h : d < cap) :
    ∃ L2, List.range cap = List.range d ++ d :: L2 ∧ ∀ e ∈ List.range d, e < d := by
  obtain ⟨m, rfl⟩ : ∃ m, cap = d + (m + 1) := ⟨cap - d - 1, by omega⟩
  refine ⟨((List.range m).map (· + 1)).map (d + ·), ?_, fun e he => List.mem_range.mp he⟩
  rw [List.range_add, List.range_succ_eq_map]
  simp

/-- Claim C8: the Iterative-Deepening engine terminates on every input.
First conjunct: the recursion of `dls` consumes the remaining depth budget,
so every fuel above `depth + 1` computes the very same (defined) result: each
depth-limited search terminates.  Second and third conjuncts: the outer loop
inspects exactly the depth bounds `0 .. cap-1`: if the depth-limited search
fails at all of them the engine returns the no-solution value `None`, and at
the first succeeding bound it stops and returns that solution. -/
theorem c8_ids_terminates :
    (∀ (f : Nat) (s : Board) (depth : Int) (path : List Move) (cp visited : List Board),
        (depth + 1).toNat < f → dlsF f s depth path cp visited = dls s depth path cp visited) ∧
    (∀ (b : Board) (cap : Nat), is_solvable4 b = true →
        (∀ d, d < cap → dls b d [] [] [] = DRes.fail) → idsSolve b cap = PyRes.retNone) ∧
    (∀ (b : Board) (cap d : Nat) (sol : List Move), is_solvable4 b = true → d < cap →
        (∀ e, e < d → dls b e [] [] [] = DRes.fail) → dls b d [] [] [] = DRes.success sol →
        idsSolve b cap = PyRes.found sol) := by
  refine ⟨?_, ?_, ?_⟩
  · intro f s depth path cp visited hf
    exact dlsF_fuel_eq f s depth path cp visited ((depth + 1).toNat + 1) hf (by omega)
  · intro b cap hs hfail
    simp only [idsSolve, idsSolveFrom, hs, if_true]
    exact idsLoop_fail fun d hd => hfail d (List.mem_range.mp hd)
  · intro b cap d sol hs hd hfail hsucc
    simp only [idsSolve, idsSolveFrom, hs, if_true]
    obtain ⟨L2, hsplit, hlt⟩ := range_split hd
    rw [hsplit]
    exact idsLoop_first_success (List.range d) L2
      (fun e he => hfail e (hlt e he)) hsucc

/-- Witness for `c8_ids_terminates` at concrete inputs. -/
theorem c8_ids_terminates_witness :
    dlsF 9 goal4 1 [] [] [] = dls goal4 1 [] [] [] ∧
    idsSolve [[1,2,3,4],[5,6,7,8],[9,10,11,12],[13,14,0,15]] 1 = PyRes.retNone ∧
    idsSolve [[1,2,3,4],[5,6,7,8],[9,10,11,12],[13,14,0,15]] 3 = PyRes.found [Move.LEFT] :=
  ⟨c8_ids_terminates.1 9 goal4 1 [] [] [] (by decide),
    c8_ids_terminates.2.1 [[1,2,3,4],[5,6,7,8],[9,10,11,12],[13,14,0,15]] 1 (by decide)
      (fun d hd => by interval_cases d; decide),
    c8_ids_terminates.2.2 [[1,2,3,4],[5,6,7,8],[9,10,11,12],[13,14,0,15]] 3 1 [Move.LEFT]
      (by decide) (by decide) (fun e he => by interval_cases e; decide) (by decide)⟩

theorem popMin_none {l : List PNode} : popMin l = none ↔ l = [] := by
  cases l with
  | nil => simp [popMin]
  | cons x xs =>
    simp only [popMin]
    cases popMin xs with
    | none => simp
    | some p => cases p with | mk m rest => by_cases h : x.cost ≤ m.cost <;> simp [h]

theorem popMin_spec : ∀ {l : List PNode} {m : PNode} {rest : List PNode},
    popMin l = some (m, rest) →
    (∃ l1 l2, l = l1 ++ m :: l2 ∧ rest = l1 ++ l2) ∧ ∀ n ∈ l, m.cost ≤ n.cost := by
  intro l
  induction l with
  | nil => intro m rest h; cases h
  | cons x xs ih =>
    intro m rest h
    simp only [popMin] at h
    cases hxs : popMin xs with
    | none =>
      rw [hxs] at h
      dsimp only at h
      obtain ⟨rfl, rfl⟩ : x = m ∧ [] = rest := by
        constructor
        · exact congrArg Prod.fst (Option.some.inj h)
        · exact congrArg Prod.snd (Option.some.inj h)
      have : xs = [] := popMin_none.mp hxs
      subst this
      exact ⟨⟨[], [], rfl, rfl⟩, by intro n hn; simp at hn; subst hn; exact le_refl _⟩
    | some p =>
      rw [hxs] at h
      cases p with
      | mk m0 r0 =>
        dsimp only at h
        obtain ⟨⟨a, b, hab, hr0⟩, hmin⟩ := ih hxs
        by_cases hc : x.cost ≤ m0.cost
        · rw [if_pos hc] at h
          obtain ⟨rfl, rfl⟩ : x = m ∧ xs = rest := by
            constructor
            · exact congrArg Prod.fst (Option.some.inj h)
            · exact congrArg Prod.snd (Option.some.inj h)
          refine ⟨⟨[], xs, rfl, rfl⟩, ?_⟩
          intro n hn
          rcases List.mem_cons.mp hn with rfl | hn
          · exact le_refl _
          · exact le_trans hc (hmin n hn)
        · rw [if_neg hc] at h
          obtain ⟨rfl, rfl⟩ : m0 = m ∧ x :: r0 = rest := by
            constructor
            · exact congrArg Prod.fst (Option.some.inj h)
            · exact congrArg Prod.snd (Option.some.inj h)
          refine ⟨⟨x :: a, b, by rw [hab]; rfl, by rw [hr0]; rfl⟩, ?_⟩
          intro n hn
          rcases List.mem_cons.mp hn with rfl | hn
          · omega
          · exact hmin n hn

/-- One iteration of the `while open_set:` loop body as the code performs it
(`none`: the loop is about to terminate or crash this iteration). -/
def pzStepCode (cfg : List PNode × List Board) : Option (List PNode × List Board) :=
  match popMin cfg.1 with
  | none => none
  | some (cur, rest) =>
    if cur.board = goal3 then none
    else
      let closed2 := insertClosed cur.board cfg.2
      match getNeighbors3 cur with
      | none => none
      | some ns => some (rest ++ ns.filter (fun n => decide (¬ n.board ∈ closed2)), closed2)

/-- One iteration of the loop as claim C5 describes it: expansion happens
only if the popped board is not already in the closed set (otherwise the node
is discarded). -/
def pzStepClaim (cfg : List PNode × List Board) : Option (List PNode × List Board) :=
  match popMin cfg.1 with
  | none => none
  | some (cur, rest) =>
    if cur.board = goal3 then none
    else if cur.board ∈ cfg.2 then some (rest, cfg.2)
    else
      let closed2 := insertClosed cur.board cfg.2
      match getNeighbors3 cur with
      | none => none
      | some ns => some (rest ++ ns.filter (fun n => decide (¬ n.board ∈ closed2)), closed2)

/-- Iterate a step function `k` times. -/
def pzIterate (f : (List PNode × List Board) → Option (List PNode × List Board)) :
    Nat → (List PNode × List Board) → Option (List PNode × List Board)
  | 0, cfg => some cfg
  | k + 1, cfg =>
    match f cfg with
    | none => none
    | some cfg2 => pzIterate f k cfg2

/-- Observable projection of a search configuration: boards and depths on the
open collection, and the closed set. -/
def pzProjCfg (cfg : List PNode × List Board) : List (Board × Nat) × List Board :=
  (cfg.1.map (fun n => (n.board, n.depth)), cfg.2)

theorem pzLoop_step {fuel : Nat} {opn o2 : List PNode} {closed c2 : List Board}
    (h : pzStepCode (opn, closed) = some (o2, c2)) :
    pzLoop (fuel + 1) opn closed = pzLoop fuel o2 c2 := by
  unfold pzStepCode at h
  cases hpop : popMin opn with
  | none => rw [hpop] at h; cases h
  | some p =>
    rw [hpop] at h
    cases p with
    | mk cur rest =>
      dsimp only at h
      by_cases hg : cur.board = goal3
      · rw [if_pos hg] at h; cases h
      · rw [if_neg hg] at h
        cases hns : getNeighbors3 cur with
        | none => rw [hns] at h; cases h
        | some ns =>
          rw [hns] at h
          dsimp only at h
          obtain ⟨h1, h2⟩ : _ ∧ _ := Prod.mk.injEq .. ▸ Option.some.inj h
          rw [← h1, ← h2]
          simp only [pzLoop]
          rw [hpop]
          dsimp only
          rw [if_neg hg, hns]

/-- Claim C5, amended: the loop of `PuzzleSolver.solve` pushes the root,
repeatedly pops a minimum-f node, stops and reconstructs when the popped
board is the goal; otherwise it adds the board to the closed set and pushes
every neighbour whose board is not in the updated closed set with depth
`parent.depth + 1` UNCONDITIONALLY: the code performs no check that the
popped board was not already in the closed set before re-expanding it. -/
theorem c5_loop_behaviour (fuel : Nat) (opn : List PNode) (closed : List Board)
    (cur : PNode) (rest : List PNode) (hpop : popMin opn = some (cur, rest)) :
    (∀ n ∈ opn, cur.cost ≤ n.cost) ∧
    (cur.board = goal3 →
      pzLoop (fuel + 1) opn closed =
        some (PyRes.found ⟨chainMoves cur, closed.length, cur.depth⟩)) ∧
    (cur.board ≠ goal3 → ∀ ns, getNeighbors3 cur = some ns →
      pzLoop (fuel + 1) opn closed =
        pzLoop fuel
          (rest ++ ns.filter (fun n => decide (¬ n.board ∈ insertClosed cur.board closed)))
          (insertClosed cur.board closed)) := by
  refine ⟨(popMin_spec hpop).2, ?_, ?_⟩
  · intro hg
    simp only [pzLoop]
    rw [hpop]
    dsimp only
    rw [if_pos hg]
  · intro hg ns hns
    apply pzLoop_step
    unfold pzStepCode
    rw [hpop]
    dsimp only
    rw [if_neg hg, hns]

/-- Witness for `c5_loop_behaviour` at a concrete configuration. -/
theorem c5_loop_behaviour_witness :
    (∀ n ∈ [PNode.mk [[1,2,3],[4,5,6],[7,0,8]] none none 0],
      (PNode.mk [[1,2,3],[4,5,6],[7,0,8]] none none 0).cost ≤ n.cost) ∧
    ((PNode.mk [[1,2,3],[4,5,6],[7,0,8]] none none 0).board = goal3 →
      pzLoop 2 [PNode.mk [[1,2,3],[4,5,6],[7,0,8]] none none 0] [] =
        some (PyRes.found ⟨chainMoves (PNode.mk [[1,2,3],[4,5,6],[7,0,8]] none none 0), ([] : List Board).length,
          (PNode.mk [[1,2,3],[4,5,6],[7,0,8]] none none 0).depth⟩)) ∧
    ((PNode.mk [[1,2,3],[4,5,6],[7,0,8]] none none 0).board ≠ goal3 →
      ∀ ns, getNeighbors3 (PNode.mk [[1,2,3],[4,5,6],[7,0,8]] none none 0) = some ns →
      pzLoop 2 [PNode.mk [[1,2,3],[4,5,6],[7,0,8]] none none 0] [] =
        pzLoop 1
          ([] ++ ns.filter (fun n => decide (¬ n.board ∈
            insertClosed (PNode.mk [[1,2,3],[4,5,6],[7,0,8]] none none 0).board [])))
          (insertClosed (PNode.mk [[1,2,3],[4,5,6],[7,0,8]] none none 0).board [])) :=
  c5_loop_behaviour 1 [PNode.mk [[1,2,3],[4,5,6],[7,0,8]] none none 0] []
    (PNode.mk [[1,2,3],[4,5,6],[7,0,8]] none none 0) [] rfl

/-- Claim C5 as stated is false: on the concrete board
`[[1,0,5],[4,3,2],[7,8,6]]` the loop that skips expansion of boards already
in the closed set (as the claim describes) diverges from the code after 15
iterations, because the code re-expands a popped node whose board is already
closed. -/
theorem c5_counterexample :
    (pzIterate pzStepCode 15 ([PNode.mk [[1,0,5],[4,3,2],[7,8,6]] none none 0], [])).map
        pzProjCfg ≠
    (pzIterate pzStepClaim 15 ([PNode.mk [[1,0,5],[4,3,2],[7,8,6]] none none 0], [])).map
        pzProjCfg := by
  decide

theorem getD_set_same {b : Board} {x : Nat} (hx : x < b.length) (r : List Nat) :
    (b.set x r).getD x [] = r := by
  rw [List.getD_eq_getElem?_getD, List.getElem?_set_eq_of_lt _ (by simpa using hx)]
  rfl

theorem getD_set_other {b : Board} {x i : Nat} (hne : x ≠ i) (r : List Nat) :
    (b.set x r).getD i [] = b.getD i [] := by
  rw [List.getD_eq_getElem?_getD, List.getElem?_set_ne hne, ← List.getD_eq_getElem?_getD]

theorem setCell_same_row {b : Board} {x : Nat} (hx : x < b.length) (y1 v1 y2 v2 : Nat) :
    setCell (setCell b x y1 v1) x y2 v2 =
      b.set x (((b.getD x []).set y1 v1).set y2 v2) := by
  unfold setCell
  rw [getD_set_same hx, List.set_set]

theorem setCell_other_row {b : Board} {x nx : Nat} (hne : x ≠ nx) (y1 v1 y2 v2 : Nat) :
    setCell (setCell b x y1 v1) nx y2 v2 =
      (b.set x ((b.getD x []).set y1 v1)).set nx ((b.getD nx []).set y2 v2) := by
  unfold setCell
  rw [getD_set_other hne]

theorem swapCells_symm {b : Board} {x y nx ny : Nat} (hb : x < b.length)
    (hnb : nx < b.length) (hne : ¬(x = nx ∧ y = ny)) :
    swapCells b x y nx ny = swapCells b nx ny x y := by
  unfold swapCells
  by_cases hr : x = nx
  · subst hr
    have hy : y ≠ ny := fun hc => hne ⟨rfl, hc⟩
    rw [setCell_same_row hb, setCell_same_row hb,
      List.set_comm _ _ _ hy]
  · rw [setCell_other_row hr, setCell_other_row (Ne.symm hr),
      List.set_comm _ _ _ hr]

theorem shape_getD_self {b : Board} {i : Nat} (h : i < b.length) :
    b.getD i [] = b[i] := by
  rw [List.getD_eq_getElem?_getD, List.getElem?_eq_getElem h]
  rfl

/-- Decompose a board around two consecutive rows. -/
theorem board_decomp_two {b : Board} {x : Nat} (h : x + 1 < b.length) :
    b = b.take x ++ (b.getD x []) :: (b.getD (x+1) []) :: b.drop (x+2) := by
  have hx : x < b.length := by omega
  have h1 : b = b.take x ++ b[x] :: b.drop (x+1) := by
    rw [List.getElem_cons_drop, List.take_append_drop]
  have h2 : b.drop (x+1) = b[x+1] :: b.drop (x+2) := List.drop_eq_getElem_cons h
  rw [shape_getD_self hx, shape_getD_self h]
  rw [h2] at h1
  exact h1

/-- Decompose a board around a single row. -/
theorem board_decomp_one {b : Board} {x : Nat} (h : x < b.length) :
    b = b.take x ++ (b.getD x []) :: b.drop (x+1) := by
  rw [shape_getD_self h]
  rw [List.getElem_cons_drop, List.take_append_drop]

/-- Decompose a row around one cell. -/
theorem row_decomp {r : List Nat} {y : Nat} (h : y < r.length) :
    r = r.take y ++ r.getD y 0 :: r.drop (y+1) := by
  rw [List.getD_eq_getElem?_getD, List.getElem?_eq_getElem h]
  show r = r.take y ++ r[y] :: r.drop (y+1)
  rw [List.getElem_cons_drop, List.take_append_drop]

/-- Flatten surgery for swapping the cell `(x, y)` with the cell `(x+1, y)`
below it. -/
theorem flatten_swap_vert {n w : Nat} {b : Board} (h : ShapeN n w b) {x y : Nat}
    (hx1 : x + 1 < n) (hy : y < w) :
    ∃ P rt rd st sd Q,
      b.flatten = P ++ rt ++ cell b x y :: (rd ++ st ++ cell b (x+1) y :: (sd ++ Q)) ∧
      (swapCells b x y (x+1) y).flatten =
        P ++ rt ++ cell b (x+1) y :: (rd ++ st ++ cell b x y :: (sd ++ Q)) ∧
      rd.length + st.length = w - 1 := by
  have hblen : b.length = n := shape_length h
  have hx : x < n := by omega
  have hxb : x < b.length := by omega
  have hx1b : x + 1 < b.length := by omega
  have hrx : (b.getD x []).length = w := shape_row h hx
  have hrx1 : (b.getD (x+1) []).length = w := shape_row h hx1
  have hyr : y < (b.getD x []).length := by omega
  have hyr1 : y < (b.getD (x+1) []).length := by omega
  have hyt : (b.getD x []).take y = List.take y (b.getD x []) := rfl
  have hTlen : (b.take x).length = x := by
    rw [List.length_take]; omega
  have hdecomp := board_decomp_two hx1b
  have hrd : b.getD x [] = (b.getD x []).take y ++ cell b x y :: (b.getD x []).drop (y+1) :=
    row_decomp hyr
  have hsd : b.getD (x+1) [] =
      (b.getD (x+1) []).take y ++ cell b (x+1) y :: (b.getD (x+1) []).drop (y+1) :=
    row_decomp hyr1
  refine ⟨(b.take x).flatten, (b.getD x []).take y, (b.getD x []).drop (y+1),
    (b.getD (x+1) []).take y, (b.getD (x+1) []).drop (y+1), (b.drop (x+2)).flatten,
    ?_, ?_, ?_⟩
  · conv_lhs => rw [hdecomp]
    rw [List.flatten_append, List.flatten_cons, List.flatten_cons]
    conv_lhs => rw [hrd, hsd]
    simp [List.append_assoc]
  · have hdrop1 : b.drop (x+1) = b.getD (x+1) [] :: b.drop (x+2) := by
      rw [shape_getD_self hx1b]
      exact List.drop_eq_getElem_cons hx1b
    have hswap : swapCells b x y (x+1) y =
        b.take x ++ ((b.getD x []).set y (cell b (x+1) y)) ::
          ((b.getD (x+1) []).set y (cell b x y)) :: b.drop (x+2) := by
      unfold swapCells
      rw [setCell_other_row (by omega : x ≠ x + 1)]
      rw [List.set_eq_take_cons_drop _ hxb]
      rw [List.set_append, if_neg (by rw [hTlen]; omega), hTlen]
      have h2 : x + 1 - x = 1 := by omega
      rw [h2, hdrop1]
      rfl
    rw [hswap]
    rw [List.flatten_append, List.flatten_cons, List.flatten_cons]
    have hr2 : (b.getD x []).set y (cell b (x+1) y) =
        (b.getD x []).take y ++ cell b (x+1) y :: (b.getD x []).drop (y+1) :=
      List.set_eq_take_cons_drop _ hyr
    have hs2 : (b.getD (x+1) []).set y (cell b x y) =
        (b.getD (x+1) []).take y ++ cell b x y :: (b.getD (x+1) []).drop (y+1) :=
      List.set_eq_take_cons_drop _ hyr1
    rw [hr2, hs2]
    simp [List.append_assoc]
  · rw [List.length_drop, List.length_take]
    omega

theorem rowD_self {r : List Nat} {k : Nat} (h : k < r.length) : r.getD k 0 = r[k] := by
  rw [List.getD_eq_getElem?_getD, List.getElem?_eq_getElem h]
  rfl

/-- Flatten surgery for swapping the cell `(x, y)` with the cell `(x, y+1)`
to its right. -/
theorem flatten_swap_horiz {n w : Nat} {b : Board} (h : ShapeN n w b) {x y : Nat}
    (hx : x < n) (hy1 : y + 1 < w) :
    ∃ P rt rd Q,
      b.flatten = P ++ rt ++ cell b x y :: cell b x (y+1) :: (rd ++ Q) ∧
      (swapCells b x y x (y+1)).flatten =
        P ++ rt ++ cell b x (y+1) :: cell b x y :: (rd ++ Q) := by
  have hblen : b.length = n := shape_length h
  have hxb : x < b.length := by omega
  have hrx : (b.getD x []).length = w := shape_row h hx
  have hy : y < (b.getD x []).length := by omega
  have hy1r : y + 1 < (b.getD x []).length := by omega
  have htl : ((b.getD x []).take y).length = y := by
    rw [List.length_take]; omega
  have hdropr : (b.getD x []).drop (y+1) = cell b x (y+1) :: (b.getD x []).drop (y+2) := by
    have := List.drop_eq_getElem_cons hy1r
    rw [this]
    congr 1
    exact (rowD_self hy1r).symm
  have hrowdec : b.getD x [] =
      (b.getD x []).take y ++ cell b x y :: cell b x (y+1) :: (b.getD x []).drop (y+2) := by
    conv_lhs => rw [row_decomp hy]
    rw [hdropr]
    rfl
  have hrow2 : ((b.getD x []).set y (cell b x (y+1))).set (y+1) (cell b x y) =
      (b.getD x []).take y ++ cell b x (y+1) :: cell b x y :: (b.getD x []).drop (y+2) := by
    rw [List.set_eq_take_cons_drop _ hy]
    rw [List.set_append, if_neg (by rw [htl]; omega), htl]
    have h2 : y + 1 - y = 1 := by omega
    rw [h2, hdropr]
    rfl
  refine ⟨(b.take x).flatten, (b.getD x []).take y, (b.getD x []).drop (y+2),
    (b.drop (x+1)).flatten, ?_, ?_⟩
  · conv_lhs => rw [board_decomp_one hxb]
    rw [List.flatten_append, List.flatten_cons]
    conv_lhs => rw [hrowdec]
    simp [List.append_assoc]
  · have hswap : swapCells b x y x (y+1) =
        b.take x ++ (((b.getD x []).set y (cell b x (y+1))).set (y+1) (cell b x y)) ::
          b.drop (x+1) := by
      unfold swapCells
      rw [setCell_same_row hxb]
      exact List.set_eq_take_cons_drop _ hxb
    rw [hswap, List.flatten_append, List.flatten_cons, hrow2]
    simp [List.append_assoc]

theorem perm_swap_mid (A B C : List Nat) (u v : Nat) :
    (A ++ u :: (B ++ v :: C)).Perm (A ++ v :: (B ++ u :: C)) := by
  apply List.Perm.append_left
  have h1 : (u :: (B ++ v :: C)).Perm (u :: v :: (B ++ C)) := List.Perm.cons u List.perm_middle
  have h2 : (u :: v :: (B ++ C)).Perm (v :: u :: (B ++ C)) := List.Perm.swap v u (B ++ C)
  have h3 : (v :: u :: (B ++ C)).Perm (v :: (B ++ u :: C)) :=
    List.Perm.cons v List.perm_middle.symm
  exact (h1.trans h2).trans h3

theorem swap_vert_perm {n w : Nat} {b : Board} (h : ShapeN n w b) {x y : Nat}
    (hx1 : x + 1 < n) (hy : y < w) :
    ((swapCells b x y (x+1) y).flatten).Perm b.flatten := by
  obtain ⟨P, rt, rd, st, sd, Q, h1, h2, _⟩ := flatten_swap_vert h hx1 hy
  rw [h1, h2]
  have := perm_swap_mid (P ++ rt) (rd ++ st) (sd ++ Q) (cell b (x+1) y) (cell b x y)
  simpa [List.append_assoc] using this

theorem swap_horiz_perm {n w : Nat} {b : Board} (h : ShapeN n w b) {x y : Nat}
    (hx : x < n) (hy1 : y + 1 < w) :
    ((swapCells b x y x (y+1)).flatten).Perm b.flatten := by
  obtain ⟨P, rt, rd, Q, h1, h2⟩ := flatten_swap_horiz h hx hy1
  rw [h1, h2]
  have := perm_swap_mid (P ++ rt) ([] : List Nat) (rd ++ Q) (cell b x (y+1)) (cell b x y)
  simpa [List.append_assoc] using this

theorem swap_adj_perm {n w : Nat} {b : Board} (h : ShapeN n w b) {x y nx ny : Nat}
    (hx : x < n) (hy : y < w) (hnx : nx < n) (hny : ny < w)
    (hadj : (nx = x ∧ ny = y + 1) ∨ (nx = x ∧ y = ny + 1) ∨ (ny = y ∧ nx = x + 1) ∨
      (ny = y ∧ x = nx + 1)) :
    ((swapCells b x y nx ny).flatten).Perm b.flatten := by
  have hblen : b.length = n := shape_length h
  rcases hadj with ⟨rfl, rfl⟩ | ⟨rfl, hyy⟩ | ⟨rfl, rfl⟩ | ⟨rfl, hxx⟩
  · exact swap_horiz_perm h hx (by omega)
  · rw [swapCells_symm (by omega) (by omega) (by omega)]
    subst hyy
    exact swap_horiz_perm h hx (by omega)
  · exact swap_vert_perm h (by omega) hy
  · rw [swapCells_symm (by omega) (by omega) (by omega)]
    subst hxx
    exact swap_vert_perm h (by omega) hy

theorem mem_getNeighbors3_spec {nd : PNode} {ns : List PNode} {nb : PNode}
    (hns : getNeighbors3 nd = some ns) (hmem : nb ∈ ns) :
    ∃ x y nx ny, getBlankPos3 nd.board = some (x, y) ∧ x < 3 ∧ y < 3 ∧ nx < 3 ∧ ny < 3 ∧
      cell nd.board x y = 0 ∧
      ((nx = x ∧ ny = y + 1) ∨ (nx = x ∧ y = ny + 1) ∨ (ny = y ∧ nx = x + 1) ∨
        (ny = y ∧ x = nx + 1)) ∧
      nb.board = swapCells nd.board x y nx ny ∧ nb.parent = some nd ∧
      nb.depth = nd.depth + 1 ∧ (∃ mv, nb.move = some mv) := by
  unfold getNeighbors3 at hns
  cases hpos : getBlankPos3 nd.board with
  | none => rw [hpos] at hns; cases hns
  | some p =>
    rw [hpos] at hns
    cases p with
    | mk x y =>
      obtain ⟨hx3, hy3, hc0⟩ := getBlankPos3_spec hpos
      obtain rfl : _ = ns := Option.some.inj hns
      obtain ⟨md, hmd, hf⟩ := List.mem_filterMap.mp hmem
      simp only [moves3, List.mem_cons, List.not_mem_nil, or_false] at hmd
      rcases hmd with rfl | rfl | rfl | rfl <;>
        (dsimp only at hf
         split at hf
         rotate_right
         · cases hf)
      · -- UP : blank to (x-1, y)
        obtain rfl : _ = nb := Option.some.inj hf
        rename_i hcond
        refine ⟨x, y, x - 1, y, rfl, hx3, hy3, by omega, hy3, hc0, ?_, ?_, rfl, rfl, _, rfl⟩
        · right; right; right; exact ⟨rfl, by omega⟩
        · show swapCells nd.board x y ((x : Int) + -1).toNat ((y : Int) + 0).toNat = _
          congr 1 <;> omega
      · -- DOWN : blank to (x+1, y)
        obtain rfl : _ = nb := Option.some.inj hf
        rename_i hcond
        refine ⟨x, y, x + 1, y, rfl, hx3, hy3, by omega, hy3, hc0, ?_, ?_, rfl, rfl, _, rfl⟩
        · right; right; left; exact ⟨rfl, rfl⟩
        · show swapCells nd.board x y ((x : Int) + 1).toNat ((y : Int) + 0).toNat = _
          congr 1 <;> omega
      · -- LEFT : blank to (x, y-1)
        obtain rfl : _ = nb := Option.some.inj hf
        rename_i hcond
        refine ⟨x, y, x, y - 1, rfl, hx3, hy3, hx3, by omega, hc0, ?_, ?_, rfl, rfl, _, rfl⟩
        · right; left; exact ⟨rfl, by omega⟩
        · show swapCells nd.board x y ((x : Int) + 0).toNat ((y : Int) + -1).toNat = _
          congr 1 <;> omega
      · -- RIGHT : blank to (x, y+1)
        obtain rfl : _ = nb := Option.some.inj hf
        rename_i hcond
        refine ⟨x, y, x, y + 1, rfl, hx3, hy3, hx3, by omega, hc0, ?_, ?_, rfl, rfl, _, rfl⟩
        · left; exact ⟨rfl, rfl⟩
        · show swapCells nd.board x y ((x : Int) + 0).toNat ((y : Int) + 1).toNat = _
          congr 1 <;> omega

theorem mem_getNeighbors4_spec {b : Board} {ns : List (Board × Move)} {p : Board × Move}
    (hns : getNeighbors4 b = some ns) (hmem : p ∈ ns) :
    ∃ x y nx ny, getBlankPos4 b = some (x, y) ∧ x < 4 ∧ y < 4 ∧ nx < 4 ∧ ny < 4 ∧
      cell b x y = 0 ∧
      ((nx = x ∧ ny = y + 1) ∨ (nx = x ∧ y = ny + 1) ∨ (ny = y ∧ nx = x + 1) ∨
        (ny = y ∧ x = nx + 1)) ∧
      p.1 = swapCells b x y nx ny := by
  unfold getNeighbors4 at hns
  cases hpos : getBlankPos4 b with
  | none => rw [hpos] at hns; cases hns
  | some q =>
    rw [hpos] at hns
    cases q with
    | mk x y =>
      obtain ⟨hx4, hy4, hc0⟩ := getBlankPos4_spec hpos
      obtain rfl : _ = ns := Option.some.inj hns
      obtain ⟨md, hmd, hf⟩ := List.mem_filterMap.mp hmem
      simp only [moves4, List.mem_cons, List.not_mem_nil, or_false] at hmd
      rcases hmd with rfl | rfl | rfl | rfl <;>
        (dsimp only at hf
         split at hf
         rotate_right
         · cases hf)
      · -- table entry (0, 1, LEFT) : blank to (x, y+1)
        obtain rfl : _ = p := Option.some.inj hf
        rename_i hcond
        refine ⟨x, y, x, y + 1, rfl, hx4, hy4, hx4, by omega, hc0, ?_, ?_⟩
        · left; exact ⟨rfl, rfl⟩
        · show swapCells b x y ((x : Int) + 0).toNat ((y : Int) + 1).toNat = _
          congr 1 <;> omega
      · -- table entry (0, -1, RIGHT) : blank to (x, y-1)
        obtain rfl : _ = p := Option.some.inj hf
        rename_i hcond
        refine ⟨x, y, x, y - 1, rfl, hx4, hy4, hx4, by omega, hc0, ?_, ?_⟩
        · right; left; exact ⟨rfl, by omega⟩
        · show swapCells b x y ((x : Int) + 0).toNat ((y : Int) + -1).toNat = _
          congr 1 <;> omega
      · -- table entry (1, 0, UP) : blank to (x+1, y)
        obtain rfl : _ = p := Option.some.inj hf
        rename_i hcond
        refine ⟨x, y, x + 1, y, rfl, hx4, hy4, by omega, hy4, hc0, ?_, ?_⟩
        · right; right; left; exact ⟨rfl, rfl⟩
        · show swapCells b x y ((x : Int) + 1).toNat ((y : Int) + 0).toNat = _
          congr 1 <;> omega
      · -- table entry (-1, 0, DOWN) : blank to (x-1, y)
        obtain rfl : _ = p := Option.some.inj hf
        rename_i hcond
        refine ⟨x, y, x - 1, y, rfl, hx4, hy4, by omega, hy4, hc0, ?_, ?_⟩
        · right; right; right; exact ⟨rfl, by omega⟩
        · show swapCells b x y ((x : Int) + -1).toNat ((y : Int) + 0).toNat = _
          congr 1 <;> omega

/-- Claim C10: on a permutation board, every neighbour produced by
`get_neighbors` is again a permutation board of the same shape, differs from
its parent exactly at the blank cell and one orthogonally adjacent in-bounds
cell (contents swapped, the blank moving to the adjacent cell), and the
parent is carried unchanged (boards are immutable values in this model, and
the 3x3 engine links the produced node back to the untouched parent node). -/
theorem c10_neighbor_invariants :
    (∀ (nd : PNode) (ns : List PNode) (nb : PNode),
        ShapeN 3 3 nd.board → (nd.board.flatten).Perm (List.range 9) →
        getNeighbors3 nd = some ns → nb ∈ ns →
        ShapeN 3 3 nb.board ∧ (nb.board.flatten).Perm (List.range 9) ∧
        ∃ x y nx ny, getBlankPos3 nd.board = some (x, y) ∧ cell nd.board x y = 0 ∧
          nx < 3 ∧ ny < 3 ∧
          ((nx = x ∧ ny = y + 1) ∨ (nx = x ∧ y = ny + 1) ∨ (ny = y ∧ nx = x + 1) ∨
            (ny = y ∧ x = nx + 1)) ∧
          cell nb.board x y = cell nd.board nx ny ∧ cell nb.board nx ny = 0 ∧
          (∀ i j, ¬(i = x ∧ j = y) → ¬(i = nx ∧ j = ny) →
            cell nb.board i j = cell nd.board i j) ∧
          nb.parent = some nd) ∧
    (∀ (b : Board) (ns : List (Board × Move)) (p : Board × Move),
        ShapeN 4 4 b → (b.flatten).Perm (List.range 16) →
        getNeighbors4 b = some ns → p ∈ ns →
        ShapeN 4 4 p.1 ∧ (p.1.flatten).Perm (List.range 16) ∧
        ∃ x y nx ny, getBlankPos4 b = some (x, y) ∧ cell b x y = 0 ∧ nx < 4 ∧ ny < 4 ∧
          ((nx = x ∧ ny = y + 1) ∨ (nx = x ∧ y = ny + 1) ∨ (ny = y ∧ nx = x + 1) ∨
            (ny = y ∧ x = nx + 1)) ∧
          cell p.1 x y = cell b nx ny ∧ cell p.1 nx ny = 0 ∧
          (∀ i j, ¬(i = x ∧ j = y) → ¬(i = nx ∧ j = ny) → cell p.1 i j = cell b i j)) := by
  constructor
  · intro nd ns nb hsh hperm hns hmem
    obtain ⟨x, y, nx, ny, hpos, hx, hy, hnx, hny, hc0, hadj, hboard, hpar, hdep, hmv⟩ :=
      mem_getNeighbors3_spec hns hmem
    have hxy_ne : ¬(x = nx ∧ y = ny) := by
      rcases hadj with ⟨h1, h2⟩ | ⟨h1, h2⟩ | ⟨h1, h2⟩ | ⟨h1, h2⟩ <;> omega
    have hcells := cell_swapCells hsh hx hy hnx hny
    refine ⟨?_, ?_, x, y, nx, ny, hpos, hc0, hnx, hny, hadj, ?_, ?_, ?_, hpar⟩
    · rw [hboard]
      exact shape_swapCells hsh hx hnx
    · rw [hboard]
      exact (swap_adj_perm hsh hx hy hnx hny hadj).trans hperm
    · rw [hboard, hcells x y, if_neg (by omega), if_pos ⟨rfl, rfl⟩]
    · rw [hboard, hcells nx ny, if_pos ⟨rfl, rfl⟩]
      exact hc0
    · intro i j hne1 hne2
      rw [hboard, hcells i j, if_neg (by omega), if_neg (by omega)]
  · intro b ns p hsh hperm hns hmem
    obtain ⟨x, y, nx, ny, hpos, hx, hy, hnx, hny, hc0, hadj, hboard⟩ :=
      mem_getNeighbors4_spec hns hmem
    have hxy_ne : ¬(x = nx ∧ y = ny) := by
      rcases hadj with ⟨h1, h2⟩ | ⟨h1, h2⟩ | ⟨h1, h2⟩ | ⟨h1, h2⟩ <;> omega
    have hcells := cell_swapCells hsh hx hy hnx hny
    refine ⟨?_, ?_, x, y, nx, ny, hpos, hc0, hnx, hny, hadj, ?_, ?_, ?_⟩
    · rw [hboard]
      exact shape_swapCells hsh hx hnx
    · rw [hboard]
      exact (swap_adj_perm hsh hx hy hnx hny hadj).trans hperm
    · rw [hboard, hcells x y, if_neg (by omega), if_pos ⟨rfl, rfl⟩]
    · rw [hboard, hcells nx ny, if_pos ⟨rfl, rfl⟩]
      exact hc0
    · intro i j hne1 hne2
      rw [hboard, hcells i j, if_neg (by omega), if_neg (by omega)]

def c10b3 : PNode := PNode.mk [[1,2,3],[4,5,6],[7,0,8]] none none 0

def c10n3 : PNode := PNode.mk [[1,2,3],[4,0,6],[7,5,8]] (some c10b3) (some Move.UP) 1

def c10ns3 : List PNode := [c10n3,
  PNode.mk [[1,2,3],[4,5,6],[0,7,8]] (some c10b3) (some Move.LEFT) 1,
  PNode.mk [[1,2,3],[4,5,6],[7,8,0]] (some c10b3) (some Move.RIGHT) 1]

def c10b4 : Board := [[1,2,3,4],[5,6,7,8],[9,10,0,12],[13,14,11,15]]

def c10ns4 : List (Board × Move) :=
  [([[1,2,3,4],[5,6,7,8],[9,10,12,0],[13,14,11,15]], Move.LEFT),
   ([[1,2,3,4],[5,6,7,8],[9,0,10,12],[13,14,11,15]], Move.RIGHT),
   ([[1,2,3,4],[5,6,7,8],[9,10,11,12],[13,14,0,15]], Move.UP),
   ([[1,2,3,4],[5,6,0,8],[9,10,7,12],[13,14,11,15]], Move.DOWN)]

def c10p4 : Board × Move := ([[1,2,3,4],[5,6,7,8],[9,10,11,12],[13,14,0,15]], Move.UP)

/-- Witness for `c10_neighbor_invariants` at a concrete neighbour each. -/
theorem c10_neighbor_invariants_witness :
    (ShapeN 3 3 c10n3.board ∧ (c10n3.board.flatten).Perm (List.range 9) ∧
      ∃ x y nx ny, getBlankPos3 c10b3.board = some (x, y) ∧ cell c10b3.board x y = 0 ∧
        nx < 3 ∧ ny < 3 ∧
        ((nx = x ∧ ny = y + 1) ∨ (nx = x ∧ y = ny + 1) ∨ (ny = y ∧ nx = x + 1) ∨
          (ny = y ∧ x = nx + 1)) ∧
        cell c10n3.board x y = cell c10b3.board nx ny ∧ cell c10n3.board nx ny = 0 ∧
        (∀ i j, ¬(i = x ∧ j = y) → ¬(i = nx ∧ j = ny) →
          cell c10n3.board i j = cell c10b3.board i j) ∧
        c10n3.parent = some c10b3) ∧
    (ShapeN 4 4 c10p4.1 ∧ (c10p4.1.flatten).Perm (List.range 16) ∧
      ∃ x y nx ny, getBlankPos4 c10b4 = some (x, y) ∧ cell c10b4 x y = 0 ∧ nx < 4 ∧ ny < 4 ∧
        ((nx = x ∧ ny = y + 1) ∨ (nx = x ∧ y = ny + 1) ∨ (ny = y ∧ nx = x + 1) ∨
          (ny = y ∧ x = nx + 1)) ∧
        cell c10p4.1 x y = cell c10b4 nx ny ∧ cell c10p4.1 nx ny = 0 ∧
        (∀ i j, ¬(i = x ∧ j = y) → ¬(i = nx ∧ j = ny) → cell c10p4.1 i j = cell c10b4 i j)) :=
  ⟨c10_neighbor_invariants.1 c10b3 c10ns3 c10n3 rfl (by decide) rfl
      (List.mem_cons_self _ _),
    c10_neighbor_invariants.2 c10b4 c10ns4 c10p4 rfl (by decide) rfl (by decide)⟩

/- ===================== applying returned moves ===================== -/

/-- Offsets of a 3x3 move label (the table of the 3x3 `get_neighbors`). -/
def dirOf3 (m : Move) : Int × Int :=
  match m with
  | .UP => (-1, 0)
  | .DOWN => (1, 0)
  | .LEFT => (0, -1)
  | .RIGHT => (0, 1)

/-- Apply one move to a 3x3 board under the 3x3 convention (the label names
the direction the blank moves). -/
def applyMove3 (b : Board) (m : Move) : Option Board :=
  match getBlankPos3 b with
  | none => none
  | some (x, y) =>
    let d := dirOf3 m
    let nx : Int := (x : Int) + d.1
    let ny : Int := (y : Int) + d.2
    if 0 ≤ nx ∧ nx < 3 ∧ 0 ≤ ny ∧ ny < 3 then some (swapCells b x y nx.toNat ny.toNat)
    else none

/-- Apply a move sequence in order to a 3x3 board. -/
def applyChain3 : Board → List Move → Option Board
  | b, [] => some b
  | b, m :: ms =>
    match applyMove3 b m with
    | none => none
    | some c => applyChain3 c ms

/-- Offsets of a 4x4 move label (the table of the 4x4 `get_neighbors`: the
label names the direction the swapped tile moves). -/
def dirOf4 (m : Move) : Int × Int :=
  match m with
  | .UP => (1, 0)
  | .DOWN => (-1, 0)
  | .LEFT => (0, 1)
  | .RIGHT => (0, -1)

/-- Apply one move to a 4x4 board under the 4x4 convention. -/
def applyMove4 (b : Board) (m : Move) : Option Board :=
  match getBlankPos4 b with
  | none => none
  | some (x, y) =>
    let d := dirOf4 m
    let nx : Int := (x : Int) + d.1
    let ny : Int := (y : Int) + d.2
    if 0 ≤ nx ∧ nx < 4 ∧ 0 ≤ ny ∧ ny < 4 then some (swapCells b x y nx.toNat ny.toNat)
    else none

/-- Apply a move sequence in order to a 4x4 board. -/
def applyChain4 : Board → List Move → Option Board
  | b, [] => some b
  | b, m :: ms =>
    match applyMove4 b m with
    | none => none
    | some c => applyChain4 c ms

theorem applyChain3_append (b : Board) (l1 l2 : List Move) :
    applyChain3 b (l1 ++ l2) =
      match applyChain3 b l1 with
      | none => none
      | some c => applyChain3 c l2 := by
  induction l1 generalizing b with
  | nil => rfl
  | cons m ms ih =>
    show applyChain3 b (m :: (ms ++ l2)) = _
    simp only [applyChain3]
    cases applyMove3 b m with
    | none => rfl
    | some c => exact ih c

theorem applyChain4_append (b : Board) (l1 l2 : List Move) :
    applyChain4 b (l1 ++ l2) =
      match applyChain4 b l1 with
      | none => none
      | some c => applyChain4 c l2 := by
  induction l1 generalizing b with
  | nil => rfl
  | cons m ms ih =>
    show applyChain4 b (m :: (ms ++ l2)) = _
    simp only [applyChain4]
    cases applyMove4 b m with
    | none => rfl
    | some c => exact ih c

theorem applyMove3_of_mem {nd : PNode} {ns : List PNode} {nb : PNode}
    (hns : getNeighbors3 nd = some ns) (hmem : nb ∈ ns) :
    ∃ mv, nb.move = some mv ∧ applyMove3 nd.board mv = some nb.board := by
  unfold getNeighbors3 at hns
  cases hpos : getBlankPos3 nd.board with
  | none => rw [hpos] at hns; cases hns
  | some q =>
    rw [hpos] at hns
    cases q with
    | mk x y =>
      obtain rfl : _ = ns := Option.some.inj hns
      obtain ⟨md, hmd, hf⟩ := List.mem_filterMap.mp hmem
      simp only [moves3, List.mem_cons, List.not_mem_nil, or_false] at hmd
      rcases hmd with rfl | rfl | rfl | rfl <;>
        (dsimp only at hf
         split at hf
         rotate_right
         · cases hf) <;>
        (obtain rfl : _ = nb := Option.some.inj hf
         rename_i hcond
         refine ⟨_, rfl, ?_⟩
         unfold applyMove3
         rw [hpos]
         dsimp only [dirOf3]
         rw [if_pos hcond]
         rfl)

theorem applyMove4_of_mem {b : Board} {ns : List (Board × Move)} {p : Board × Move}
    (hns : getNeighbors4 b = some ns) (hmem : p ∈ ns) :
    applyMove4 b p.2 = some p.1 := by
  unfold getNeighbors4 at hns
  cases hpos : getBlankPos4 b with
  | none => rw [hpos] at hns; cases hns
  | some q =>
    rw [hpos] at hns
    cases q with
    | mk x y =>
      obtain rfl : _ = ns := Option.some.inj hns
      obtain ⟨md, hmd, hf⟩ := List.mem_filterMap.mp hmem
      simp only [moves4, List.mem_cons, List.not_mem_nil, or_false] at hmd
      rcases hmd with rfl | rfl | rfl | rfl <;>
        (dsimp only at hf
         split at hf
         rotate_right
         · cases hf) <;>
        (obtain rfl : _ = p := Option.some.inj hf
         rename_i hcond
         unfold applyMove4
         rw [hpos]
         dsimp only [dirOf4]
         rw [if_pos hcond])

theorem firstNonFail_mem {L : List DRes} {sol : List Move}
    (h : firstNonFail L = DRes.success sol) : DRes.success sol ∈ L := by
  induction L with
  | nil => cases h
  | cons r rs ih =>
    unfold firstNonFail at h
    cases r with
    | fail => exact List.mem_cons_of_mem _ (ih h)
    | crash => cases h
    | success s0 =>
      rw [← h]
      exact List.mem_cons_self _ _

theorem dls_sound : ∀ (fuel : Nat) (s : Board) (depth : Int) (path : List Move)
    (cp visited : List Board) (sol : List Move),
    dlsF fuel s depth path cp visited = DRes.success sol →
    ∃ ext, sol = path ++ ext ∧ applyChain4 s ext = some goal4 := by
  intro fuel
  induction fuel with
  | zero => intro s depth path cp visited sol h; cases h
  | succ f ih =>
    intro s depth path cp visited sol h
    unfold dlsF at h
    by_cases h1 : depth < 0
    · rw [if_pos h1] at h; cases h
    · rw [if_neg h1] at h
      by_cases h2 : s = goal4
      · rw [if_pos h2] at h
        obtain rfl : path = sol := DRes.success.inj h
        exact ⟨[], (List.append_nil path).symm, by rw [h2]; rfl⟩
      · rw [if_neg h2] at h
        by_cases h3 : (manhattan4 s : Int) > depth
        · rw [if_pos h3] at h; cases h
        · rw [if_neg h3] at h
          by_cases h4 : s ∈ cp
          · rw [if_pos h4] at h; cases h
          · rw [if_neg h4] at h
            cases hns : getNeighbors4 s with
            | none => rw [hns] at h; cases h
            | some ns =>
              rw [hns] at h
              dsimp only at h
              obtain ⟨tm, htm, hf⟩ := List.mem_map.mp (firstNonFail_mem h)
              by_cases hv : tm.1 ∈ visited
              · rw [if_pos hv] at hf; cases hf
              · rw [if_neg hv] at hf
                obtain ⟨ext2, hsol, happ⟩ := ih tm.1 (depth - 1) (path ++ [tm.2])
                  (s :: cp) visited sol hf
                refine ⟨tm.2 :: ext2, by rw [hsol, List.append_assoc]; rfl, ?_⟩
                show applyChain4 s (tm.2 :: ext2) = some goal4
                unfold applyChain4
                rw [applyMove4_of_mem hns htm]
                exact happ

theorem idsLoop_found {b : Board} {L : List Nat} {sol : List Move}
    (h : idsLoop b L = PyRes.found sol) : ∃ d ∈ L, dls b d [] [] [] = DRes.success sol := by
  induction L with
  | nil => cases h
  | cons d ds ih =>
    unfold idsLoop at h
    cases hd : dls b d [] [] [] with
    | success s0 =>
      rw [hd] at h
      obtain rfl : s0 = sol := PyRes.found.inj h
      exact ⟨d, List.mem_cons_self d ds, hd⟩
    | crash => rw [hd] at h; cases h
    | fail =>
      rw [hd] at h
      obtain ⟨e, he, hes⟩ := ih h
      exact ⟨e, List.mem_cons_of_mem d he, hes⟩

/-- Ancestry validity of a search node relative to the root board. -/
def NodeOK (b0 : Board) (n : PNode) : Prop :=
  applyChain3 b0 (chainMoves n) = some n.board ∧ (chainMoves n).length = n.depth

theorem nodeOK_child {b0 : Board} {nd nb : PNode} {ns : List PNode}
    (hok : NodeOK b0 nd) (hns : getNeighbors3 nd = some ns) (hmem : nb ∈ ns) :
    NodeOK b0 nb := by
  obtain ⟨x, y, nx, ny, _, _, _, _, _, _, _, hboard, hpar, hdep, mv0, hmv⟩ :=
    mem_getNeighbors3_spec hns hmem
  obtain ⟨mv, hmv2, happly⟩ := applyMove3_of_mem hns hmem
  cases nb with
  | mk board par mvop dep =>
    simp only [PNode.parent] at hpar
    simp only [PNode.move] at hmv2
    simp only [PNode.depth] at hdep
    subst hpar
    subst hmv2
    constructor
    · show applyChain3 b0 (chainMoves nd ++ [mv]) = _
      rw [applyChain3_append, hok.1]
      show applyChain3 nd.board [mv] = _
      unfold applyChain3
      rw [happly]
      rfl
    · show (chainMoves nd ++ [mv]).length = dep
      rw [List.length_append, hok.2]
      simpa using hdep.symm

theorem pzLoop_sound : ∀ (fuel : Nat) (b0 : Board) (opn : List PNode)
    (closed : List Board) (r : PResult),
    (∀ n ∈ opn, NodeOK b0 n) → pzLoop fuel opn closed = some (PyRes.found r) →
    applyChain3 b0 r.moves = some goal3 ∧ r.moves.length = r.solution_depth := by
  intro fuel
  induction fuel with
  | zero => intro b0 opn closed r _ h; cases h
  | succ f ih =>
    intro b0 opn closed r hok h
    unfold pzLoop at h
    cases hpop : popMin opn with
    | none => rw [hpop] at h; cases h
    | some pr =>
      rw [hpop] at h
      cases pr with
      | mk cur rest =>
        dsimp only at h
        obtain ⟨⟨l1, l2, hdec, hrest⟩, _⟩ := popMin_spec hpop
        have hcur : cur ∈ opn := by rw [hdec]; exact List.mem_append_right l1 (List.mem_cons_self _ _)
        have hrestok : ∀ n ∈ rest, NodeOK b0 n := by
          intro n hn
          apply hok
          rw [hdec]
          rw [hrest] at hn
          rcases List.mem_append.mp hn with h1 | h2
          · exact List.mem_append_left _ h1
          · exact List.mem_append_right _ (List.mem_cons_of_mem _ h2)
        by_cases hg : cur.board = goal3
        · rw [if_pos hg] at h
          obtain rfl : _ = r := PyRes.found.inj (Option.some.inj h)
          have hcurok := hok cur hcur
          refine ⟨?_, hcurok.2⟩
          show applyChain3 b0 (chainMoves cur) = some goal3
          rw [hcurok.1, hg]
        · rw [if_neg hg] at h
          cases hns : getNeighbors3 cur with
          | none => rw [hns] at h; cases h
          | some ns =>
            rw [hns] at h
            dsimp only at h
            apply ih b0 _ _ r _ h
            intro n hn
            rcases List.mem_append.mp hn with h1 | h2
            · exact hrestok n h1
            · exact nodeOK_child (hok cur hcur) hns (List.mem_filter.mp h2).1

/-- Claim C4: round-trip law.  Every solution returned by either engine,
applied in order to the initial board under that engine's own move
convention, reproduces that engine's goal board exactly. -/
theorem c4_round_trip :
    (∀ (b : Board) (fuel : Nat) (r : PResult),
        pzSolve b fuel = some (PyRes.found r) →
        applyChain3 b r.moves = some goal3 ∧ r.moves.length = r.solution_depth) ∧
    (∀ (b : Board) (cap : Nat) (sol : List Move),
        idsSolve b cap = PyRes.found sol → applyChain4 b sol = some goal4) := by
  constructor
  · intro b fuel r h
    unfold pzSolve pzSolveWith at h
    by_cases hs : is_solvable3 b
    · rw [if_pos hs] at h
      cases hL : pzLoop fuel [PNode.mk b none none 0] [] with
      | none => rw [hL] at h; cases h
      | some res =>
        rw [hL] at h
        cases res with
        | crash => cases h
        | retNone => cases h
        | found r0 =>
          obtain rfl : _ = r := PyRes.found.inj (Option.some.inj h)
          have hroot : ∀ n ∈ [PNode.mk b none none 0], NodeOK b n := by
            intro n hn
            rcases List.mem_cons.mp hn with rfl | hmem
            · exact ⟨rfl, rfl⟩
            · cases hmem
          have := pzLoop_sound fuel b _ _ r0 hroot hL
          simpa using this
    · rw [if_neg hs] at h
      cases h
  · intro b cap sol h
    unfold idsSolve idsSolveFrom at h
    by_cases hs : is_solvable4 b
    · rw [if_pos hs] at h
      obtain ⟨d, _, hd⟩ := idsLoop_found h
      obtain ⟨ext, hsol, happ⟩ := dls_sound _ b d [] [] [] sol hd
      rw [hsol, List.nil_append] at *
      exact happ
    · rw [if_neg hs] at h
      cases h

/-- Witness for `c4_round_trip` at concrete boards. -/
theorem c4_round_trip_witness :
    (applyChain3 [[1,2,3],[4,5,6],[7,0,8]] (PResult.mk [Move.RIGHT] 1 1).moves = some goal3 ∧
      (PResult.mk [Move.RIGHT] 1 1).moves.length = (PResult.mk [Move.RIGHT] 1 1).solution_depth) ∧
    applyChain4 [[1,2,3,4],[5,6,7,8],[9,10,11,12],[13,14,0,15]] [Move.LEFT] = some goal4 :=
  ⟨c4_round_trip.1 [[1,2,3],[4,5,6],[7,0,8]] 3 (PResult.mk [Move.RIGHT] 1 1) (by decide),
    c4_round_trip.2 [[1,2,3,4],[5,6,7,8],[9,10,11,12],[13,14,0,15]] 2 [Move.LEFT] (by decide)⟩

/- ===================== inversion-count machinery ===================== -/

/-- Cross inversions between a left and a right block. -/
def crossInv (L1 L2 : List Nat) : Nat :=
  (L1.map fun x => L2.countP (fun y => decide (y < x))).sum

theorem invCount_append (L1 L2 : List Nat) :
    invCount (L1 ++ L2) = invCount L1 + crossInv L1 L2 + invCount L2 := by
  induction L1 with
  | nil => simp [invCount, crossInv]
  | cons x xs ih =>
    show invCount (x :: (xs ++ L2)) = _
    rw [invCount, List.countP_append, ih, invCount]
    simp only [crossInv, List.map_cons, List.sum_cons]
    omega

theorem crossInv_perm (L1 : List Nat) {L2 L2' : List Nat} (h : L2.Perm L2') :
    crossInv L1 L2 = crossInv L1 L2' := by
  unfold crossInv
  congr 1
  apply List.map_congr_left
  intro x _
  exact h.countP_eq _

theorem crossInv_cons (L1 : List Nat) (t : Nat) (L2 : List Nat) :
    crossInv L1 (t :: L2) = L1.countP (fun x => decide (t < x)) + crossInv L1 L2 := by
  induction L1 with
  | nil => simp [crossInv]
  | cons x xs ih =>
    simp only [crossInv, List.map_cons, List.sum_cons, List.countP_cons] at *
    split_ifs <;> omega

theorem countP_lt_gt_total {B : List Nat} {t : Nat} (h : t ∉ B) :
    B.countP (fun y => decide (y < t)) + B.countP (fun x => decide (t < x)) = B.length := by
  induction B with
  | nil => simp
  | cons x xs ih =>
    have hx : x ≠ t := fun hc => h (hc ▸ List.mem_cons_self x xs)
    have hxs : t ∉ xs := fun hc => h (List.mem_cons_of_mem x hc)
    rw [List.countP_cons, List.countP_cons, List.length_cons]
    have := ih hxs
    simp only [decide_eq_true_eq]
    by_cases hlt : x < t
    · have : ¬ t < x := by omega
      simp [hlt, this]
      omega
    · have : t < x := by omega
      simp [hlt, this]
      omega

theorem invCount_shift_parity {A B C : List Nat} {t : Nat} (h : t ∉ B) :
    (invCount (A ++ t :: (B ++ C)) + B.length) % 2 = invCount (A ++ (B ++ t :: C)) % 2 := by
  have h1 : invCount (A ++ t :: (B ++ C)) =
      invCount A + crossInv A (t :: (B ++ C)) + invCount (t :: (B ++ C)) := invCount_append ..
  have h2 : invCount (A ++ (B ++ t :: C)) =
      invCount A + crossInv A (B ++ t :: C) + invCount (B ++ t :: C) := invCount_append ..
  have hcross : crossInv A (t :: (B ++ C)) = crossInv A (B ++ t :: C) :=
    crossInv_perm A List.perm_middle.symm
  have h3 : invCount (t :: (B ++ C)) =
      (B ++ C).countP (fun y => decide (y < t)) + invCount (B ++ C) := rfl
  have h4 : invCount (B ++ C) = invCount B + crossInv B C + invCount C := invCount_append ..
  have h5 : invCount (B ++ t :: C) =
      invCount B + crossInv B (t :: C) + invCount (t :: C) := invCount_append ..
  have h6 : invCount (t :: C) = C.countP (fun y => decide (y < t)) + invCount C := rfl
  have h7 : crossInv B (t :: C) = B.countP (fun x => decide (t < x)) + crossInv B C :=
    crossInv_cons ..
  have h8 := countP_lt_gt_total h
  rw [List.countP_append] at h3
  omega


theorem elem_once {L1 L2 : List Nat} {a n : Nat}
    (hperm : (L1 ++ a :: L2).Perm (List.range n)) : a ∉ L1 ∧ a ∉ L2 := by
  have hmem : a ∈ List.range n := hperm.mem_iff.mp (by simp)
  have hcount : (L1 ++ a :: L2).count a = (List.range n).count a := hperm.count_eq a
  have hr : (List.range n).count a = 1 :=
    List.count_eq_one_of_mem (List.nodup_range n) hmem
  rw [hr, List.count_append, List.count_cons_self] at hcount
  constructor
  · exact fun hm => by
      have := List.count_pos_iff_mem.mpr hm
      omega
  · exact fun hm => by
      have := List.count_pos_iff_mem.mpr hm
      omega

theorem filter_nz_eq {L : List Nat} (h : 0 ∉ L) :
    L.filter (fun v => decide (v ≠ 0)) = L := by
  apply List.filter_eq_self.mpr
  intro a ha
  have : a ≠ 0 := fun hc => h (hc ▸ ha)
  simp [this]

/-- Flatten decomposition around the blank cell. -/
theorem flatten_blank_decomp {n w : Nat} {b : Board} (h : ShapeN n w b) {x y : Nat}
    (hx : x < n) (hy : y < w) (hc0 : cell b x y = 0) :
    b.flatten = (b.take x).flatten ++ ((b.getD x []).take y ++
      0 :: ((b.getD x []).drop (y+1) ++ (b.drop (x+1)).flatten)) := by
  have hxb : x < b.length := by rw [shape_length h]; exact hx
  have hyr : y < (b.getD x []).length := by rw [shape_row h hx]; exact hy
  conv_lhs => rw [board_decomp_one hxb]
  rw [List.flatten_append, List.flatten_cons]
  conv_lhs => rw [row_decomp hyr]
  have hz : (b.getD x []).getD y 0 = 0 := hc0
  rw [hz]
  simp [List.append_assoc]

theorem count_one_of_perm_range {X : List Nat} {n a : Nat}
    (hperm : X.Perm (List.range n)) (hmem : a ∈ X) : X.count a = 1 := by
  rw [hperm.count_eq a]
  exact List.count_eq_one_of_mem (List.nodup_range n) (hperm.mem_iff.mp hmem)

theorem parity_core {F G : List Nat} {P rt rd st sd Q : List Nat} {t : Nat} {n : Nat}
    (hF : F = P ++ rt ++ 0 :: (rd ++ st ++ t :: (sd ++ Q)))
    (hG : G = P ++ rt ++ t :: (rd ++ st ++ 0 :: (sd ++ Q)))
    (hFperm : F.Perm (List.range n)) :
    (invCount (G.filter (fun v => decide (v ≠ 0))) + (rd.length + st.length)) % 2 =
      invCount (F.filter (fun v => decide (v ≠ 0))) % 2 := by
  by_cases htz : t = 0
  · subst htz
    exfalso
    have hcnt : F.count 0 = 1 := count_one_of_perm_range hFperm (by rw [hF]; simp)
    rw [hF] at hcnt
    simp [List.count_append, List.count_cons] at hcnt
    omega
  · have hcnt0 : F.count 0 = 1 := count_one_of_perm_range hFperm (by rw [hF]; simp)
    have hcntt : F.count t = 1 := count_one_of_perm_range hFperm (by rw [hF]; simp)
    rw [hF] at hcnt0 hcntt
    simp only [List.count_append, List.count_cons_self, List.count_cons, beq_iff_eq]
      at hcnt0 hcntt
    rw [if_neg (fun hzz => htz hzz.symm)] at hcntt
    have h0P : 0 ∉ P := List.count_eq_zero.mp (by omega)
    have h0rt : 0 ∉ rt := List.count_eq_zero.mp (by omega)
    have h0rd : 0 ∉ rd := List.count_eq_zero.mp (by omega)
    have h0st : 0 ∉ st := List.count_eq_zero.mp (by omega)
    have h0sd : 0 ∉ sd := List.count_eq_zero.mp (by omega)
    have h0Q : 0 ∉ Q := List.count_eq_zero.mp (by omega)
    have htrd : t ∉ rd := List.count_eq_zero.mp (by omega)
    have htst : t ∉ st := List.count_eq_zero.mp (by omega)
    have htB : t ∉ rd ++ st := by
      rw [List.mem_append]
      rintro (hh | hh)
      · exact htrd hh
      · exact htst hh
    have hfF : F.filter (fun v => decide (v ≠ 0)) =
        P ++ (rt ++ (rd ++ (st ++ (t :: (sd ++ Q))))) := by
      rw [hF]
      simp only [List.filter_append, List.filter_cons]
      rw [filter_nz_eq h0P, filter_nz_eq h0rt, filter_nz_eq h0rd, filter_nz_eq h0st,
        filter_nz_eq h0sd, filter_nz_eq h0Q]
      simp [htz, List.append_assoc]
    have hfG : G.filter (fun v => decide (v ≠ 0)) =
        P ++ (rt ++ (t :: (rd ++ (st ++ (sd ++ Q))))) := by
      rw [hG]
      simp only [List.filter_append, List.filter_cons]
      rw [filter_nz_eq h0P, filter_nz_eq h0rt, filter_nz_eq h0rd, filter_nz_eq h0st,
        filter_nz_eq h0sd, filter_nz_eq h0Q]
      simp [htz, List.append_assoc]
    have hshift := invCount_shift_parity (A := P ++ rt) (B := rd ++ st) (C := sd ++ Q)
      (t := t) htB
    rw [List.length_append] at hshift
    simp only [List.append_assoc, List.cons_append] at hshift
    rw [← hfF, ← hfG] at hshift
    exact hshift

theorem parity_swap_vert {n w : Nat} {b : Board} (hsh : ShapeN n w b) {x y : Nat}
    (hx1 : x + 1 < n) (hy : y < w) (hperm : b.flatten.Perm (List.range (n * w)))
    (hzero : cell b x y = 0 ∨ cell b (x+1) y = 0) :
    (invCount (flatNonzero (swapCells b x y (x+1) y)) + (w - 1)) % 2 =
      invCount (flatNonzero b) % 2 := by
  obtain ⟨P, rt, rd, st, sd, Q, hb, hc, hlen⟩ := flatten_swap_vert hsh hx1 hy
  rcases hzero with h0 | h0
  · rw [h0] at hb hc
    have := parity_core (t := cell b (x+1) y) hb hc hperm
    rw [hlen] at this
    exact this
  · rw [h0] at hb hc
    have hcperm : (swapCells b x y (x+1) y).flatten.Perm (List.range (n * w)) :=
      (swap_vert_perm hsh hx1 hy).trans hperm
    have := parity_core (t := cell b x y) hc hb hcperm
    rw [hlen] at this
    unfold flatNonzero
    omega

theorem flatNonzero_swap_horiz {n w : Nat} {b : Board} (hsh : ShapeN n w b) {x y : Nat}
    (hx : x < n) (hy1 : y + 1 < w)
    (hzero : cell b x y = 0 ∨ cell b x (y+1) = 0) :
    flatNonzero (swapCells b x y x (y+1)) = flatNonzero b := by
  obtain ⟨P, rt, rd, Q, hb, hc⟩ := flatten_swap_horiz hsh hx hy1
  rw [flatNonzero, flatNonzero, hb, hc]
  simp only [List.filter_append, List.filter_cons]
  rcases hzero with h0 | h0 <;> rw [h0] <;> simp

theorem foldl_rows_nozero : ∀ {L : List (Nat × List Nat)} {acc : Nat},
    (∀ p ∈ L, 0 ∉ p.2) →
    L.foldl (fun acc ir => if 0 ∈ ir.2 then ir.1 else acc) acc = acc := by
  intro L
  induction L with
  | nil => intro acc _; rfl
  | cons p rest ih =>
    intro acc h
    show List.foldl _ (if 0 ∈ p.2 then p.1 else acc) rest = acc
    rw [if_neg (h p (List.mem_cons_self p rest))]
    exact ih fun q hq => h q (List.mem_cons_of_mem p hq)

theorem foldl_rows_lastzero : ∀ {L : List (Nat × List Nat)} {acc x : Nat},
    (∃ p ∈ L, p.1 = x ∧ 0 ∈ p.2) → (∀ p ∈ L, 0 ∈ p.2 → p.1 = x) →
    L.foldl (fun acc ir => if 0 ∈ ir.2 then ir.1 else acc) acc = x := by
  intro L
  induction L with
  | nil => intro acc x h _; obtain ⟨p, hp, _⟩ := h; cases hp
  | cons p rest ih =>
    intro acc x hex hall
    show List.foldl _ (if 0 ∈ p.2 then p.1 else acc) rest = x
    by_cases hz : 0 ∈ p.2
    · rw [if_pos hz]
      have hpx : p.1 = x := hall p (List.mem_cons_self p rest) hz
      by_cases hex2 : ∃ q ∈ rest, q.1 = x ∧ 0 ∈ q.2
      · exact ih hex2 fun q hq => hall q (List.mem_cons_of_mem p hq)
      · rw [foldl_rows_nozero, hpx]
        intro q hq hzq
        exact hex2 ⟨q, hq, hall q (List.mem_cons_of_mem p hq) hzq, hzq⟩
    · rw [if_neg hz]
      obtain ⟨q, hq, hqx, hqz⟩ := hex
      rcases List.mem_cons.mp hq with rfl | hq2
      · exact absurd hqz hz
      · exact ih ⟨q, hq2, hqx, hqz⟩ fun r hr => hall r (List.mem_cons_of_mem p hr)

theorem blankRowLast_eq {n w : Nat} {b : Board} (hsh : ShapeN n w b)
    (hperm : b.flatten.Perm (List.range (n * w))) {x y : Nat} (hx : x < n) (hy : y < w)
    (hc0 : cell b x y = 0) : blankRowLast b = x := by
  have hblen : b.length = n := shape_length hsh
  have hxb : x < b.length := by omega
  have hyr : y < (b.getD x []).length := by rw [shape_row hsh hx]; exact hy
  have hrowx : 0 ∈ b.getD x [] := by
    have : (b.getD x []).getD y 0 = 0 := hc0
    rw [rowD_self hyr] at this
    exact this ▸ List.getElem_mem hyr
  -- segments left and right of the blank row contain no zero
  have hdec := flatten_blank_decomp hsh hx hy hc0
  have hcnt : b.flatten.count 0 = 1 :=
    count_one_of_perm_range hperm (by rw [hdec]; simp)
  rw [hdec] at hcnt
  simp only [List.count_append, List.count_cons_self] at hcnt
  have h0take : 0 ∉ (b.take x).flatten := List.count_eq_zero.mp (by omega)
  have h0drop : 0 ∉ (b.drop (x+1)).flatten := List.count_eq_zero.mp (by omega)
  unfold blankRowLast
  apply foldl_rows_lastzero
  · refine ⟨(x, b[x]), ?_, rfl, ?_⟩
    · exact List.mk_mem_enum_iff_get?.mpr (by rw [List.get?_eq_getElem?, List.getElem?_eq_getElem hxb])
    · rw [← shape_getD_self hxb]
      exact hrowx
  · rintro ⟨i, row⟩ hmem hzrow
    have hget : b[i]? = some row := by
      have := List.mk_mem_enum_iff_get?.mp hmem
      rwa [List.get?_eq_getElem?] at this
    have hib : i < b.length := by
      by_contra hc
      rw [List.getElem?_eq_none_iff.mpr (by omega)] at hget
      cases hget
    have hrow : b[i] = row := by
      rw [List.getElem?_eq_getElem hib] at hget
      exact Option.some.inj hget
    by_contra hne
    rcases Nat.lt_or_ge i x with hlt | hge
    · apply h0take
      refine List.mem_flatten.mpr ⟨row, ?_, hzrow⟩
      have hitake : i < (b.take x).length := by
        rw [List.length_take]
        omega
      have : (b.take x)[i] = row := by
        rw [List.getElem_take]
        exact hrow
      exact this ▸ List.getElem_mem hitake
    · have hgt : x + 1 ≤ i := by omega
      apply h0drop
      refine List.mem_flatten.mpr ⟨row, ?_, hzrow⟩
      have hidrop : i - (x+1) < (b.drop (x+1)).length := by
        rw [List.length_drop]
        omega
      have : (b.drop (x+1))[i - (x+1)] = row := by
        rw [List.getElem_drop]
        have : x + 1 + (i - (x + 1)) = i := by omega
        simp only [this]
        exact hrow
      exact this ▸ List.getElem_mem hidrop

theorem is_solvable3_nb {b c : Board} (hsh : ShapeN 3 3 b)
    (hperm : b.flatten.Perm (List.range 9)) (hmem : c ∈ nbBoards3 b) :
    is_solvable3 c = is_solvable3 b := by
  unfold nbBoards3 at hmem
  cases hns : getNeighbors3 (PNode.mk b none none 0) with
  | none => rw [hns] at hmem; cases hmem
  | some ns =>
    rw [hns] at hmem
    dsimp only at hmem
    obtain ⟨nb, hnb, rfl⟩ := List.mem_map.mp hmem
    obtain ⟨x, y, nx, ny, hpos, hx, hy, hnx, hny, hc0, hadj, hboard, _, _, _⟩ :=
      mem_getNeighbors3_spec hns hnb
    simp only [PNode.board_mk] at hpos hc0 hboard
    have hperm9 : b.flatten.Perm (List.range (3 * 3)) := hperm
    rcases hadj with ⟨rfl, rfl⟩ | ⟨rfl, hyy⟩ | ⟨rfl, rfl⟩ | ⟨rfl, hxx⟩
    · -- blank moves right
      rw [hboard]
      unfold is_solvable3
      rw [flatNonzero_swap_horiz hsh hx (by omega) (Or.inl hc0)]
    · -- blank moves left
      rw [hboard, swapCells_symm (by rw [shape_length hsh]; omega)
        (by rw [shape_length hsh]; omega) (by omega)]
      subst hyy
      unfold is_solvable3
      rw [flatNonzero_swap_horiz hsh hx (by omega) (Or.inr hc0)]
    · -- blank moves down
      rw [hboard]
      unfold is_solvable3
      have := parity_swap_vert hsh (by omega) hy hperm9 (Or.inl hc0)
      rw [decide_eq_decide]
      omega
    · -- blank moves up
      rw [hboard, swapCells_symm (by rw [shape_length hsh]; omega)
        (by rw [shape_length hsh]; omega) (by omega)]
      subst hxx
      unfold is_solvable3
      have := parity_swap_vert hsh (by omega) hy hperm9 (Or.inr hc0)
      rw [decide_eq_decide]
      omega

theorem is_solvable4_nb {b c : Board} (hsh : ShapeN 4 4 b)
    (hperm : b.flatten.Perm (List.range 16)) (hmem : c ∈ nbBoards4 b) :
    is_solvable4 c = is_solvable4 b := by
  unfold nbBoards4 at hmem
  cases hns : getNeighbors4 b with
  | none => rw [hns] at hmem; cases hmem
  | some ns =>
    rw [hns] at hmem
    dsimp only at hmem
    obtain ⟨p, hp, rfl⟩ := List.mem_map.mp hmem
    obtain ⟨x, y, nx, ny, hpos, hx, hy, hnx, hny, hc0, hadj, hboard⟩ :=
      mem_getNeighbors4_spec hns hp
    have hperm16 : b.flatten.Perm (List.range (4 * 4)) := hperm
    have hadj2 := hadj
    have hxy_ne : ¬(x = nx ∧ y = ny) := by
      rcases hadj with ⟨h1, h2⟩ | ⟨h1, h2⟩ | ⟨h1, h2⟩ | ⟨h1, h2⟩ <;> omega
    have hcsh : ShapeN 4 4 p.1 := by
      rw [hboard]; exact shape_swapCells hsh hx hnx
    have hcperm : p.1.flatten.Perm (List.range 16) := by
      rw [hboard]; exact (swap_adj_perm hsh hx hy hnx hny hadj2).trans hperm
    have hcperm16 : p.1.flatten.Perm (List.range (4 * 4)) := hcperm
    have hcblank : cell p.1 nx ny = 0 := by
      rw [hboard, cell_swapCells hsh hx hy hnx hny, if_pos ⟨rfl, rfl⟩]
      exact hc0
    have hrowb : blankRowLast b = x := blankRowLast_eq hsh hperm16 hx hy hc0
    have hrowc : blankRowLast p.1 = nx := blankRowLast_eq hcsh hcperm16 hnx hny hcblank
    rcases hadj with ⟨rfl, rfl⟩ | ⟨rfl, hyy⟩ | ⟨rfl, rfl⟩ | ⟨rfl, hxx⟩
    · -- same row, blank moves right: inversions and blank row both unchanged
      unfold is_solvable4
      rw [hrowb, hrowc, hboard,
        flatNonzero_swap_horiz hsh hx (by omega) (Or.inl hc0)]
    · -- same row, blank moves left
      unfold is_solvable4
      rw [hrowb, hrowc, hboard, swapCells_symm (by rw [shape_length hsh]; omega)
        (by rw [shape_length hsh]; omega) (by omega)]
      subst hyy
      rw [flatNonzero_swap_horiz hsh hx (by omega) (Or.inr hc0)]
    · -- blank moves down: inversion parity and blank-row parity both flip
      have hpar : (invCount (flatNonzero p.1) + 3) % 2 = invCount (flatNonzero b) % 2 := by
        rw [hboard]
        exact parity_swap_vert hsh (by omega) hy hperm16 (Or.inl hc0)
      unfold is_solvable4
      rw [hrowb, hrowc, decide_eq_decide]
      omega
    · -- blank moves up
      have hpar : (invCount (flatNonzero p.1) + 3) % 2 = invCount (flatNonzero b) % 2 := by
        rw [hboard, swapCells_symm (by rw [shape_length hsh]; omega)
          (by rw [shape_length hsh]; omega) (by omega)]
        subst hxx
        exact parity_swap_vert hsh (by omega) hy hperm16 (Or.inr hc0)
      unfold is_solvable4
      rw [hrowb, hrowc, decide_eq_decide]
      omega

theorem nb3_preserves {b c : Board} (hsh : ShapeN 3 3 b)
    (hperm : b.flatten.Perm (List.range 9)) (hmem : c ∈ nbBoards3 b) :
    ShapeN 3 3 c ∧ c.flatten.Perm (List.range 9) := by
  unfold nbBoards3 at hmem
  cases hns : getNeighbors3 (PNode.mk b none none 0) with
  | none => rw [hns] at hmem; cases hmem
  | some ns =>
    rw [hns] at hmem
    dsimp only at hmem
    obtain ⟨nb, hnb, rfl⟩ := List.mem_map.mp hmem
    obtain ⟨x, y, nx, ny, _, hx, hy, hnx, hny, _, hadj, hboard, _, _, _⟩ :=
      mem_getNeighbors3_spec hns hnb
    simp only [PNode.board_mk] at hboard
    rw [hboard]
    exact ⟨shape_swapCells hsh hx hnx,
      (swap_adj_perm hsh hx hy hnx hny hadj).trans hperm⟩

theorem nb4_preserves {b c : Board} (hsh : ShapeN 4 4 b)
    (hperm : b.flatten.Perm (List.range 16)) (hmem : c ∈ nbBoards4 b) :
    ShapeN 4 4 c ∧ c.flatten.Perm (List.range 16) := by
  unfold nbBoards4 at hmem
  cases hns : getNeighbors4 b with
  | none => rw [hns] at hmem; cases hmem
  | some ns =>
    rw [hns] at hmem
    dsimp only at hmem
    obtain ⟨p, hp, rfl⟩ := List.mem_map.mp hmem
    obtain ⟨x, y, nx, ny, _, hx, hy, hnx, hny, _, hadj, hboard⟩ :=
      mem_getNeighbors4_spec hns hp
    rw [hboard]
    exact ⟨shape_swapCells hsh hx hnx,
      (swap_adj_perm hsh hx hy hnx hny hadj).trans hperm⟩

theorem is_solvable3_of_reach : ∀ (n : Nat) (b : Board), ShapeN 3 3 b →
    b.flatten.Perm (List.range 9) → reachIn3 n b → is_solvable3 b = true := by
  intro n
  induction n with
  | zero =>
    intro b _ _ hr
    obtain rfl : b = goal3 := hr
    decide
  | succ m ih =>
    intro b hsh hperm hr
    obtain ⟨c, hc, hrc⟩ := hr
    obtain ⟨hcsh, hcperm⟩ := nb3_preserves hsh hperm hc
    rw [← is_solvable3_nb hsh hperm hc]
    exact ih c hcsh hcperm hrc

theorem is_solvable4_of_reach : ∀ (n : Nat) (b : Board), ShapeN 4 4 b →
    b.flatten.Perm (List.range 16) → reachIn4 n b → is_solvable4 b = true := by
  intro n
  induction n with
  | zero =>
    intro b _ _ hr
    obtain rfl : b = goal4 := hr
    decide
  | succ m ih =>
    intro b hsh hperm hr
    obtain ⟨c, hc, hrc⟩ := hr
    obtain ⟨hcsh, hcperm⟩ := nb4_preserves hsh hperm hc
    rw [← is_solvable4_nb hsh hperm hc]
    exact ih c hcsh hcperm hrc

/- ===================== manhattan consistency ===================== -/

theorem sum_range_congr {N : Nat} {f g : Nat → Nat} (h : ∀ i, i < N → f i = g i) :
    ((List.range N).map f).sum = ((List.range N).map g).sum := by
  congr 1
  exact List.map_congr_left fun i hi => h i (List.mem_range.mp hi)

theorem sum_range_except_one : ∀ {N : Nat} {f g : Nat → Nat} {k : Nat}, k < N →
    (∀ i, i < N → i ≠ k → f i = g i) →
    ((List.range N).map f).sum + g k = ((List.range N).map g).sum + f k := by
  intro N
  induction N with
  | zero => intro f g k hk; omega
  | succ M ih =>
    intro f g k hk hfg
    rw [List.range_succ, List.map_append, List.map_append, List.sum_append, List.sum_append]
    by_cases hkM : k = M
    · subst hkM
      have : ((List.range k).map f).sum = ((List.range k).map g).sum :=
        sum_range_congr fun i hi => hfg i (by omega) (by omega)
      simp only [List.map_cons, List.map_nil, List.sum_cons, List.sum_nil]
      omega
    · have hkM2 : k < M := by omega
      have h1 := ih hkM2 fun i hi hik => hfg i (by omega) hik
      have h2 : f M = g M := hfg M (by omega) (by omega)
      simp only [List.map_cons, List.map_nil, List.sum_cons, List.sum_nil]
      omega

theorem sum_range_except_two : ∀ {N : Nat} {f g : Nat → Nat} {k1 k2 : Nat}, k1 < N →
    k2 < N → k1 ≠ k2 → (∀ i, i < N → i ≠ k1 → i ≠ k2 → f i = g i) →
    ((List.range N).map f).sum + g k1 + g k2 =
      ((List.range N).map g).sum + f k1 + f k2 := by
  intro N
  induction N with
  | zero => intro f g k1 k2 hk1; omega
  | succ M ih =>
    intro f g k1 k2 hk1 hk2 hne hfg
    rw [List.range_succ, List.map_append, List.map_append, List.sum_append, List.sum_append]
    simp only [List.map_cons, List.map_nil, List.sum_cons, List.sum_nil]
    by_cases h1M : k1 = M
    · subst h1M
      have hk2M : k2 < k1 := by omega
      have := sum_range_except_one (f := f) (g := g) hk2M
        fun i hi hik => hfg i (by omega) (by omega) hik
      omega
    · by_cases h2M : k2 = M
      · subst h2M
        have hk1M : k1 < k2 := by omega
        have := sum_range_except_one (f := f) (g := g) hk1M
          fun i hi hik => hfg i (by omega) hik (by omega)
        omega
      · have := ih (f := f) (g := g) (by omega) (by omega) hne
          fun i hi hi1 hi2 => hfg i (by omega) hi1 hi2
        have hM : f M = g M := hfg M (by omega) (by omega) (by omega)
        omega

/-- Generic grid sum of per-cell terms (the shape of both manhattan
distances). -/
def mSum (N : Nat) (T : Nat → Nat → Nat → Nat) (b : Board) : Nat :=
  ((List.range N).map fun i => ((List.range N).map fun j => T (cell b i j) i j).sum).sum

theorem manhattan3_eq_mSum (b : Board) : manhattan3 b = mSum 3 mTerm3 b := rfl

theorem manhattan4_eq_mSum (b : Board) : manhattan4 b = mSum 4 mTerm4 b := rfl

theorem mSum_swap {N : Nat} {T : Nat → Nat → Nat → Nat} {b : Board} (hsh : ShapeN N N b)
    {x y nx ny : Nat} (hx : x < N) (hy : y < N) (hnx : nx < N) (hny : ny < N)
    (hne : ¬(x = nx ∧ y = ny)) :
    mSum N T (swapCells b x y nx ny) + T (cell b x y) x y + T (cell b nx ny) nx ny =
      mSum N T b + T (cell b nx ny) x y + T (cell b x y) nx ny := by
  have hcell := cell_swapCells hsh hx hy hnx hny
  have hat_xy : cell (swapCells b x y nx ny) x y = cell b nx ny := by
    rw [hcell x y, if_neg hne, if_pos ⟨rfl, rfl⟩]
  have hat_nxny : cell (swapCells b x y nx ny) nx ny = cell b x y := by
    rw [hcell nx ny, if_pos ⟨rfl, rfl⟩]
  have hat_other : ∀ i j, ¬(i = nx ∧ j = ny) → ¬(i = x ∧ j = y) →
      cell (swapCells b x y nx ny) i j = cell b i j := by
    intro i j h1 h2
    rw [hcell i j, if_neg h1, if_neg h2]
  by_cases hrow : x = nx
  · -- same row, different columns
    subst hrow
    have hyny : y ≠ ny := fun hc => hne ⟨rfl, hc⟩
    have houter := sum_range_except_one
      (f := fun i => ((List.range N).map fun j =>
        T (cell (swapCells b x y x ny) i j) i j).sum)
      (g := fun i => ((List.range N).map fun j => T (cell b i j) i j).sum)
      hx (fun i _ hix => sum_range_congr fun j _ =>
        by rw [hat_other i j (fun hc => hix hc.1) (fun hc => hix hc.1)])
    have hinner := sum_range_except_two
      (f := fun j => T (cell (swapCells b x y x ny) x j) x j)
      (g := fun j => T (cell b x j) x j)
      hy hny hyny (fun j _ hjy hjny =>
        by dsimp only; rw [hat_other x j (fun hc => hjny hc.2) (fun hc => hjy hc.2)])
    simp only at houter hinner
    rw [hat_xy] at hinner
    rw [hat_nxny] at hinner
    unfold mSum
    omega
  · -- different rows
    have houter := sum_range_except_two
      (f := fun i => ((List.range N).map fun j =>
        T (cell (swapCells b x y nx ny) i j) i j).sum)
      (g := fun i => ((List.range N).map fun j => T (cell b i j) i j).sum)
      hx hnx hrow (fun i _ hix hinx => sum_range_congr fun j _ =>
        by rw [hat_other i j (fun hc => hinx hc.1) (fun hc => hix hc.1)])
    have hinx := sum_range_except_one
      (f := fun j => T (cell (swapCells b x y nx ny) x j) x j)
      (g := fun j => T (cell b x j) x j)
      hy (fun j _ hjy =>
        by dsimp only; rw [hat_other x j (fun hc => hrow hc.1) (fun hc => hjy hc.2)])
    have hinnx := sum_range_except_one
      (f := fun j => T (cell (swapCells b x y nx ny) nx j) nx j)
      (g := fun j => T (cell b nx j) nx j)
      hny (fun j _ hjny =>
        by dsimp only; rw [hat_other nx j (fun hc => hjny hc.2) (fun hc => hrow hc.1.symm)])
    simp only at houter hinx hinnx
    rw [hat_xy] at hinx
    rw [hat_nxny] at hinnx
    unfold mSum
    omega

theorem mTerm3_adj {v x y nx ny : Nat}
    (hadj : (nx = x ∧ ny = y + 1) ∨ (nx = x ∧ y = ny + 1) ∨ (ny = y ∧ nx = x + 1) ∨
      (ny = y ∧ x = nx + 1)) :
    mTerm3 v x y ≤ mTerm3 v nx ny + 1 ∧ mTerm3 v nx ny ≤ mTerm3 v x y + 1 := by
  unfold mTerm3
  by_cases hv : v = 0
  · simp [hv]
  · simp only [if_neg hv]
    rcases hadj with ⟨rfl, rfl⟩ | ⟨rfl, h2⟩ | ⟨rfl, h2⟩ | ⟨rfl, h2⟩ <;> omega

theorem mTerm4_adj {v x y nx ny : Nat}
    (hadj : (nx = x ∧ ny = y + 1) ∨ (nx = x ∧ y = ny + 1) ∨ (ny = y ∧ nx = x + 1) ∨
      (ny = y ∧ x = nx + 1)) :
    mTerm4 v x y ≤ mTerm4 v nx ny + 1 ∧ mTerm4 v nx ny ≤ mTerm4 v x y + 1 := by
  unfold mTerm4
  by_cases hv : v = 0
  · simp [hv]
  · simp only [if_neg hv]
    rcases hadj with ⟨rfl, rfl⟩ | ⟨rfl, h2⟩ | ⟨rfl, h2⟩ | ⟨rfl, h2⟩ <;> omega

theorem manhattan3_nb {b c : Board} (hsh : ShapeN 3 3 b) (hmem : c ∈ nbBoards3 b) :
    manhattan3 b ≤ manhattan3 c + 1 ∧ manhattan3 c ≤ manhattan3 b + 1 := by
  unfold nbBoards3 at hmem
  cases hns : getNeighbors3 (PNode.mk b none none 0) with
  | none => rw [hns] at hmem; cases hmem
  | some ns =>
    rw [hns] at hmem
    dsimp only at hmem
    obtain ⟨nb, hnb, rfl⟩ := List.mem_map.mp hmem
    obtain ⟨x, y, nx, ny, _, hx, hy, hnx, hny, hc0, hadj, hboard, _, _, _⟩ :=
      mem_getNeighbors3_spec hns hnb
    simp only [PNode.board_mk] at hc0 hboard
    have hxy_ne : ¬(x = nx ∧ y = ny) := by
      rcases hadj with ⟨h1, h2⟩ | ⟨h1, h2⟩ | ⟨h1, h2⟩ | ⟨h1, h2⟩ <;> omega
    have hswap := mSum_swap (T := mTerm3) hsh hx hy hnx hny hxy_ne
    rw [hc0] at hswap
    have hz1 : mTerm3 0 x y = 0 := rfl
    have hz2 : mTerm3 0 nx ny = 0 := rfl
    have hineq := mTerm3_adj (v := cell b nx ny) hadj
    rw [manhattan3_eq_mSum, manhattan3_eq_mSum, hboard]
    omega

theorem manhattan4_nb {b c : Board} (hsh : ShapeN 4 4 b) (hmem : c ∈ nbBoards4 b) :
    manhattan4 b ≤ manhattan4 c + 1 ∧ manhattan4 c ≤ manhattan4 b + 1 := by
  unfold nbBoards4 at hmem
  cases hns : getNeighbors4 b with
  | none => rw [hns] at hmem; cases hmem
  | some ns =>
    rw [hns] at hmem
    dsimp only at hmem
    obtain ⟨p, hp, rfl⟩ := List.mem_map.mp hmem
    obtain ⟨x, y, nx, ny, _, hx, hy, hnx, hny, hc0, hadj, hboard⟩ :=
      mem_getNeighbors4_spec hns hp
    have hxy_ne : ¬(x = nx ∧ y = ny) := by
      rcases hadj with ⟨h1, h2⟩ | ⟨h1, h2⟩ | ⟨h1, h2⟩ | ⟨h1, h2⟩ <;> omega
    have hswap := mSum_swap (T := mTerm4) hsh hx hy hnx hny hxy_ne
    rw [hc0] at hswap
    have hz1 : mTerm4 0 x y = 0 := rfl
    have hz2 : mTerm4 0 nx ny = 0 := rfl
    have hineq := mTerm4_adj (v := cell b nx ny) hadj
    rw [manhattan4_eq_mSum, manhattan4_eq_mSum, hboard]
    omega

theorem shape_nb3 {b c : Board} (hsh : ShapeN 3 3 b) (hmem : c ∈ nbBoards3 b) :
    ShapeN 3 3 c := by
  unfold nbBoards3 at hmem
  cases hns : getNeighbors3 (PNode.mk b none none 0) with
  | none => rw [hns] at hmem; cases hmem
  | some ns =>
    rw [hns] at hmem
    dsimp only at hmem
    obtain ⟨nb, hnb, rfl⟩ := List.mem_map.mp hmem
    obtain ⟨x, y, nx, ny, _, hx, _, hnx, _, _, _, hboard, _, _, _⟩ :=
      mem_getNeighbors3_spec hns hnb
    simp only [PNode.board_mk] at hboard
    rw [hboard]
    exact shape_swapCells hsh hx hnx

theorem shape_nb4 {b c : Board} (hsh : ShapeN 4 4 b) (hmem : c ∈ nbBoards4 b) :
    ShapeN 4 4 c := by
  unfold nbBoards4 at hmem
  cases hns : getNeighbors4 b with
  | none => rw [hns] at hmem; cases hmem
  | some ns =>
    rw [hns] at hmem
    dsimp only at hmem
    obtain ⟨p, hp, rfl⟩ := List.mem_map.mp hmem
    obtain ⟨x, y, nx, ny, _, hx, _, hnx, _, _, _, hboard⟩ :=
      mem_getNeighbors4_spec hns hp
    rw [hboard]
    exact shape_swapCells hsh hx hnx

theorem manhattan3_le_reach : ∀ (n : Nat) (b : Board), ShapeN 3 3 b → reachIn3 n b →
    manhattan3 b ≤ n := by
  intro n
  induction n with
  | zero =>
    intro b _ hr
    obtain rfl : b = goal3 := hr
    decide
  | succ m ih =>
    intro b hsh hr
    obtain ⟨c, hc, hrc⟩ := hr
    have := (manhattan3_nb hsh hc).1
    have := ih c (shape_nb3 hsh hc) hrc
    omega

theorem manhattan4_le_reach : ∀ (n : Nat) (b : Board), ShapeN 4 4 b → reachIn4 n b →
    manhattan4 b ≤ n := by
  intro n
  induction n with
  | zero =>
    intro b _ hr
    obtain rfl : b = goal4 := hr
    decide
  | succ m ih =>
    intro b hsh hr
    obtain ⟨c, hc, hrc⟩ := hr
    have := (manhattan4_nb hsh hc).1
    have := ih c (shape_nb4 hsh hc) hrc
    omega

theorem dls_unfold (s : Board) (depth : Int) (path : List Move) (cp visited : List Board) :
    dls s depth path cp visited =
      if depth < 0 then DRes.fail
      else if s = goal4 then DRes.success path
      else if (manhattan4 s : Int) > depth then DRes.fail
      else if s ∈ cp then DRes.fail
      else
        match getNeighbors4 s with
        | none => DRes.crash
        | some ns =>
          firstNonFail (ns.map fun tm =>
            if tm.1 ∈ visited then DRes.fail
            else dls tm.1 (depth - 1) (path ++ [tm.2]) (s :: cp) visited) := by
  show dlsF ((depth + 1).toNat + 1) s depth path cp visited = _
  unfold dlsF
  by_cases h1 : depth < 0
  · rw [if_pos h1, if_pos h1]
  · rw [if_neg h1, if_neg h1]
    by_cases h2 : s = goal4
    · rw [if_pos h2, if_pos h2]
    · rw [if_neg h2, if_neg h2]
      by_cases h3 : (manhattan4 s : Int) > depth
      · rw [if_pos h3, if_pos h3]
      · rw [if_neg h3, if_neg h3]
        by_cases h4 : s ∈ cp
        · rw [if_pos h4, if_pos h4]
        · rw [if_neg h4, if_neg h4]
          cases hns : getNeighbors4 s with
          | none => rfl
          | some ns =>
            dsimp only
            congr 1
            apply List.map_congr_left
            intro tm _
            by_cases hv : tm.1 ∈ visited
            · rw [if_pos hv, if_pos hv]
            · rw [if_neg hv, if_neg hv]
              show dlsF ((depth + 1).toNat) _ _ _ _ _ = dlsF (((depth - 1) + 1).toNat + 1) _ _ _ _ _
              have hfe : (depth + 1).toNat = ((depth - 1) + 1).toNat + 1 := by omega
              rw [hfe]

theorem getBlankPos4_isSome {b : Board} (hsh : ShapeN 4 4 b) (hz : 0 ∈ b.flatten) :
    ∃ p, getBlankPos4 b = some p := by
  cases hpos : getBlankPos4 b with
  | some p => exact ⟨p, rfl⟩
  | none =>
    exfalso
    have hall : ∀ i ∈ List.range 4, ∀ j ∈ List.range 4, ¬ cell b i j = 0 := by
      intro i hi j hj hc
      have : (List.range 4).findSome? (fun i =>
          (List.range 4).findSome? fun j =>
            if cell b i j = 0 then some (i, j) else none) = none := hpos
      rw [List.findSome?_eq_none_iff] at this
      have hrow := this i hi
      rw [List.findSome?_eq_none_iff] at hrow
      have := hrow j hj
      rw [if_pos hc] at this
      cases this
    obtain ⟨row, hrow, h0row⟩ := List.mem_flatten.mp hz
    obtain ⟨i, hib, hieq⟩ := List.mem_iff_getElem.mp hrow
    obtain ⟨j, hjr, hjeq⟩ := List.mem_iff_getElem.mp h0row
    have hi4 : i < 4 := by rw [shape_length hsh] at hib; exact hib
    have hj4 : j < 4 := by
      have := shape_row hsh hi4
      rw [shape_getD_self hib, hieq] at this
      omega
    apply hall i (List.mem_range.mpr hi4) j (List.mem_range.mpr hj4)
    unfold cell
    rw [shape_getD_self hib, hieq, rowD_self hjr]
    exact hjeq

theorem firstNonFail_ne_crash {L : List DRes} (h : ∀ r ∈ L, r ≠ DRes.crash) :
    firstNonFail L ≠ DRes.crash := by
  induction L with
  | nil => intro hc; cases hc
  | cons r rs ih =>
    unfold firstNonFail
    cases r with
    | fail => exact ih fun q hq => h q (List.mem_cons_of_mem _ hq)
    | crash => exact absurd rfl (h _ (List.mem_cons_self _ _))
    | success s0 => intro hc; cases hc

theorem firstNonFail_success_of {L : List DRes} (hnc : ∀ r ∈ L, r ≠ DRes.crash)
    (hex : ∃ r ∈ L, ∃ sol, r = DRes.success sol) :
    ∃ sol, firstNonFail L = DRes.success sol := by
  induction L with
  | nil => obtain ⟨r, hr, _⟩ := hex; cases hr
  | cons r rs ih =>
    unfold firstNonFail
    cases hr : r with
    | fail =>
      apply ih (fun q hq => hnc q (List.mem_cons_of_mem _ hq))
      obtain ⟨q, hq, sol, hsol⟩ := hex
      rcases List.mem_cons.mp hq with rfl | hq2
      · rw [hr] at hsol; cases hsol
      · exact ⟨q, hq2, sol, hsol⟩
    | crash =>
      exfalso
      exact hnc r (List.mem_cons_self r rs) (by rw [hr])
    | success s0 => exact ⟨s0, rfl⟩

theorem mem_nbBoards4 {b : Board} {ns : List (Board × Move)} {tm : Board × Move}
    (hns : getNeighbors4 b = some ns) (htm : tm ∈ ns) : tm.1 ∈ nbBoards4 b := by
  unfold nbBoards4
  rw [hns]
  exact List.mem_map.mpr ⟨tm, htm, rfl⟩

theorem dls_no_crash : ∀ (k : Nat) (s : Board) (depth : Int), depth ≤ (k : Int) →
    ShapeN 4 4 s → s.flatten.Perm (List.range 16) →
    ∀ (path : List Move) (cp : List Board),
    dls s depth path cp [] ≠ DRes.crash := by
  intro k
  induction k with
  | zero =>
    intro s depth hd hsh hperm path cp
    rw [dls_unfold]
    by_cases h1 : depth < 0
    · rw [if_pos h1]; intro hc; cases hc
    · rw [if_neg h1]
      by_cases h2 : s = goal4
      · rw [if_pos h2]; intro hc; cases hc
      · rw [if_neg h2]
        by_cases h3 : (manhattan4 s : Int) > depth
        · rw [if_pos h3]; intro hc; cases hc
        · rw [if_neg h3]
          by_cases h4 : s ∈ cp
          · rw [if_pos h4]; intro hc; cases hc
          · rw [if_neg h4]
            obtain ⟨p, hp⟩ := getBlankPos4_isSome hsh
              (hperm.mem_iff.mpr (List.mem_range.mpr (by omega)))
            cases hns : getNeighbors4 s with
            | none =>
              exfalso
              unfold getNeighbors4 at hns
              rw [hp] at hns
              cases hns
            | some ns =>
              dsimp only
              apply firstNonFail_ne_crash
              intro r hr
              obtain ⟨tm, _, hf⟩ := List.mem_map.mp hr
              rw [← hf]
              simp only [List.not_mem_nil, if_false]
              rw [dls_unfold, if_pos (by omega : depth - 1 < 0)]
              intro hc; cases hc
  | succ m ih =>
    intro s depth hd hsh hperm path cp
    rw [dls_unfold]
    by_cases h1 : depth < 0
    · rw [if_pos h1]; intro hc; cases hc
    · rw [if_neg h1]
      by_cases h2 : s = goal4
      · rw [if_pos h2]; intro hc; cases hc
      · rw [if_neg h2]
        by_cases h3 : (manhattan4 s : Int) > depth
        · rw [if_pos h3]; intro hc; cases hc
        · rw [if_neg h3]
          by_cases h4 : s ∈ cp
          · rw [if_pos h4]; intro hc; cases hc
          · rw [if_neg h4]
            obtain ⟨p, hp⟩ := getBlankPos4_isSome hsh
              (hperm.mem_iff.mpr (List.mem_range.mpr (by omega)))
            cases hns : getNeighbors4 s with
            | none =>
              exfalso
              unfold getNeighbors4 at hns
              rw [hp] at hns
              cases hns
            | some ns =>
              dsimp only
              apply firstNonFail_ne_crash
              intro r hr
              obtain ⟨tm, htm, hf⟩ := List.mem_map.mp hr
              rw [← hf]
              simp only [List.not_mem_nil, if_false]
              obtain ⟨hcsh, hcperm⟩ :=
                nb4_preserves hsh hperm (mem_nbBoards4 hns htm)
              exact ih tm.1 (depth - 1) (by omega) hcsh hcperm _ _

theorem dls_complete : ∀ (k : Nat) (s : Board) (depth : Int) (path : List Move)
    (cp : List Board) (hsh : ShapeN 4 4 s) (hperm : s.flatten.Perm (List.range 16))
    (h : Solvable4 s), (Nat.find h : Int) ≤ depth → depth ≤ (k : Int) →
    (∀ c ∈ cp, ∀ m, reachIn4 m c → Nat.find h < m) →
    ∃ sol, dls s depth path cp [] = DRes.success sol := by
  intro k
  induction k with
  | zero =>
    intro s depth path cp hsh hperm h hfind hk hcp
    have hf0 : Nat.find h = 0 := by omega
    have : reachIn4 0 s := hf0 ▸ Nat.find_spec h
    obtain rfl : s = goal4 := this
    rw [dls_unfold, if_neg (by omega), if_pos rfl]
    exact ⟨path, rfl⟩
  | succ kk ih =>
    intro s depth path cp hsh hperm h hfind hk hcp
    rw [dls_unfold]
    rw [if_neg (by omega)]
    by_cases h2 : s = goal4
    · rw [if_pos h2]
      exact ⟨path, rfl⟩
    · rw [if_neg h2]
      have hfpos : 0 < Nat.find h := by
        rcases Nat.eq_zero_or_pos (Nat.find h) with hz | hp
        · exfalso
          have hr0 : reachIn4 0 s := by
            have := Nat.find_spec h
            rwa [hz] at this
          exact h2 hr0
        · exact hp
      have hreach : reachIn4 (Nat.find h) s := Nat.find_spec h
      have hadm : manhattan4 s ≤ Nat.find h :=
        manhattan4_le_reach (Nat.find h) s hsh hreach
      rw [if_neg (by push_cast; omega)]
      have hnotcp : s ∉ cp := fun hmem =>
        absurd (hcp s hmem (Nat.find h) hreach) (by omega)
      rw [if_neg hnotcp]
      obtain ⟨p, hp⟩ := getBlankPos4_isSome hsh
        (hperm.mem_iff.mpr (List.mem_range.mpr (by omega)))
      cases hns : getNeighbors4 s with
      | none =>
        exfalso
        unfold getNeighbors4 at hns
        rw [hp] at hns
        cases hns
      | some ns =>
        dsimp only
        obtain ⟨mm, hmm⟩ : ∃ mm, Nat.find h = mm + 1 :=
          ⟨Nat.find h - 1, by omega⟩
        have hstep : ∃ c ∈ nbBoards4 s, reachIn4 mm c := by
          have := hreach
          rw [hmm] at this
          exact this
        obtain ⟨c, hcnb, hcreach⟩ := hstep
        obtain ⟨tm, htm, htmc⟩ := by
          unfold nbBoards4 at hcnb
          rw [hns] at hcnb
          dsimp only at hcnb
          exact List.mem_map.mp hcnb
        obtain ⟨hcsh, hcperm⟩ := nb4_preserves hsh hperm (mem_nbBoards4 hns htm)
        have hsolv : Solvable4 tm.1 := ⟨mm, htmc ▸ hcreach⟩
        have hfindc : Nat.find hsolv ≤ mm := Nat.find_le (htmc ▸ hcreach)
        have hrec := ih tm.1 (depth - 1) (path ++ [tm.2]) (s :: cp) hcsh hcperm hsolv
          (by omega) (by omega) ?hcpinv
        case hcpinv =>
          intro c' hc' m' hm'
          rcases List.mem_cons.mp hc' with rfl | hc2
          · have : Nat.find h ≤ m' := Nat.find_le hm'
            omega
          · have := hcp c' hc2 m' hm'
            omega
        obtain ⟨sol, hsol⟩ := hrec
        apply firstNonFail_success_of
        · intro r hr
          obtain ⟨tm2, htm2, hf2⟩ := List.mem_map.mp hr
          rw [← hf2]
          simp only [List.not_mem_nil, if_false]
          obtain ⟨h2sh, h2perm⟩ := nb4_preserves hsh hperm (mem_nbBoards4 hns htm2)
          exact dls_no_crash (kk + 1) tm2.1 (depth - 1) (by push_cast; omega) h2sh h2perm _ _
        · refine ⟨_, List.mem_map.mpr ⟨tm, htm, rfl⟩, sol, ?_⟩
          simp only [List.not_mem_nil, if_false]
          exact hsol

theorem dls_sound_len : ∀ (fuel : Nat) (s : Board) (depth : Int) (path : List Move)
    (cp visited : List Board) (sol : List Move),
    dlsF fuel s depth path cp visited = DRes.success sol →
    ∃ ext, sol = path ++ ext ∧ applyChain4 s ext = some goal4 ∧
      (ext.length : Int) ≤ depth := by
  intro fuel
  induction fuel with
  | zero => intro s depth path cp visited sol h; cases h
  | succ f ih =>
    intro s depth path cp visited sol h
    unfold dlsF at h
    by_cases h1 : depth < 0
    · rw [if_pos h1] at h; cases h
    · rw [if_neg h1] at h
      by_cases h2 : s = goal4
      · rw [if_pos h2] at h
        obtain rfl : path = sol := DRes.success.inj h
        exact ⟨[], (List.append_nil path).symm, by rw [h2]; rfl, by simp; omega⟩
      · rw [if_neg h2] at h
        by_cases h3 : (manhattan4 s : Int) > depth
        · rw [if_pos h3] at h; cases h
        · rw [if_neg h3] at h
          by_cases h4 : s ∈ cp
          · rw [if_pos h4] at h; cases h
          · rw [if_neg h4] at h
            cases hns : getNeighbors4 s with
            | none => rw [hns] at h; cases h
            | some ns =>
              rw [hns] at h
              dsimp only at h
              obtain ⟨tm, htm, hf⟩ := List.mem_map.mp (firstNonFail_mem h)
              by_cases hv : tm.1 ∈ visited
              · rw [if_pos hv] at hf; cases hf
              · rw [if_neg hv] at hf
                obtain ⟨ext2, hsol, happ, hlen⟩ := ih tm.1 (depth - 1) (path ++ [tm.2])
                  (s :: cp) visited sol hf
                refine ⟨tm.2 :: ext2, by rw [hsol, List.append_assoc]; rfl, ?_, ?_⟩
                · show applyChain4 s (tm.2 :: ext2) = some goal4
                  unfold applyChain4
                  rw [applyMove4_of_mem hns htm]
                  exact happ
                · simp only [List.length_cons]
                  push_cast
                  omega

theorem applyMove4_mem_nb {b c : Board} {m : Move} (h : applyMove4 b m = some c) :
    c ∈ nbBoards4 b := by
  unfold applyMove4 at h
  cases hpos : getBlankPos4 b with
  | none => rw [hpos] at h; cases h
  | some q =>
    rw [hpos] at h
    cases q with
    | mk x y =>
      cases m with
      | UP =>
        dsimp only [dirOf4] at h
        split at h
        rotate_right
        · cases h
        rename_i hcond
        obtain rfl : _ = c := Option.some.inj h
        unfold nbBoards4 getNeighbors4
        rw [hpos]
        dsimp only
        apply List.mem_map.mpr
        refine ⟨(swapCells b x y ((x : Int) + 1).toNat ((y : Int) + 0).toNat, Move.UP),
          List.mem_filterMap.mpr ⟨((1 : Int), (0 : Int), Move.UP), by simp [moves4], ?_⟩, rfl⟩
        dsimp only
        rw [if_pos hcond]
      | DOWN =>
        dsimp only [dirOf4] at h
        split at h
        rotate_right
        · cases h
        rename_i hcond
        obtain rfl : _ = c := Option.some.inj h
        unfold nbBoards4 getNeighbors4
        rw [hpos]
        dsimp only
        apply List.mem_map.mpr
        refine ⟨(swapCells b x y ((x : Int) + -1).toNat ((y : Int) + 0).toNat, Move.DOWN),
          List.mem_filterMap.mpr ⟨((-1 : Int), (0 : Int), Move.DOWN), by simp [moves4], ?_⟩, rfl⟩
        dsimp only
        rw [if_pos hcond]
      | LEFT =>
        dsimp only [dirOf4] at h
        split at h
        rotate_right
        · cases h
        rename_i hcond
        obtain rfl : _ = c := Option.some.inj h
        unfold nbBoards4 getNeighbors4
        rw [hpos]
        dsimp only
        apply List.mem_map.mpr
        refine ⟨(swapCells b x y ((x : Int) + 0).toNat ((y : Int) + 1).toNat, Move.LEFT),
          List.mem_filterMap.mpr ⟨((0 : Int), (1 : Int), Move.LEFT), by simp [moves4], ?_⟩, rfl⟩
        dsimp only
        rw [if_pos hcond]
      | RIGHT =>
        dsimp only [dirOf4] at h
        split at h
        rotate_right
        · cases h
        rename_i hcond
        obtain rfl : _ = c := Option.some.inj h
        unfold nbBoards4 getNeighbors4
        rw [hpos]
        dsimp only
        apply List.mem_map.mpr
        refine ⟨(swapCells b x y ((x : Int) + 0).toNat ((y : Int) + -1).toNat, Move.RIGHT),
          List.mem_filterMap.mpr ⟨((0 : Int), (-1 : Int), Move.RIGHT), by simp [moves4], ?_⟩, rfl⟩
        dsimp only
        rw [if_pos hcond]

theorem reach_of_applyChain4 : ∀ (ms : List Move) (b : Board),
    applyChain4 b ms = some goal4 → reachIn4 ms.length b := by
  intro ms
  induction ms with
  | nil =>
    intro b h
    exact Option.some.inj h
  | cons m rest ih =>
    intro b h
    unfold applyChain4 at h
    cases hm : applyMove4 b m with
    | none => rw [hm] at h; cases h
    | some c =>
      rw [hm] at h
      exact ⟨c, applyMove4_mem_nb hm, ih c h⟩

theorem dls_fail_short {b : Board} (hsh : ShapeN 4 4 b)
    (hperm : b.flatten.Perm (List.range 16)) (hs : Solvable4 b) {d : Nat}
    (hd : d < Nat.find hs) : dls b d [] [] [] = DRes.fail := by
  cases hres : dls b d [] [] [] with
  | fail => rfl
  | crash => exact absurd hres (dls_no_crash d b d (by omega) hsh hperm [] [])
  | success sol =>
    exfalso
    obtain ⟨ext, hsol, happ, hlen⟩ := dls_sound_len _ b d [] [] [] sol hres
    rw [List.nil_append] at hsol
    subst hsol
    have hreach := reach_of_applyChain4 sol b happ
    have hmin : Nat.find hs ≤ sol.length := Nat.find_le hreach
    omega

/-- Claim C2, amended: for every solvable 4x4 board, every depth bound below
the true minimal move count makes the depth-limited search fail, and at the
minimal move count it succeeds, so the first succeeding depth bound yields a
minimal-length solution and `IDSSolver.solve` (with a cap above that count)
returns it; its length is the true minimal move count.  The cross-engine
comparison of the original claim fails: the Best-First engine is hard-coded
for 3x3 boards and produces no solution on a 4x4 board (see the
counterexample). -/
theorem c2_ids_first_success_minimal (b : Board) (hsh : ShapeN 4 4 b)
    (hperm : b.flatten.Perm (List.range 16)) (hs : Solvable4 b) (cap : Nat)
    (hcap : Nat.find hs < cap) :
    (∀ d, d < Nat.find hs → dls b d [] [] [] = DRes.fail) ∧
    (∃ sol, dls b (Nat.find hs) [] [] [] = DRes.success sol ∧
      idsSolve b cap = PyRes.found sol ∧ sol.length = Nat.find hs ∧
      applyChain4 b sol = some goal4) := by
  refine ⟨fun d hd => dls_fail_short hsh hperm hs hd, ?_⟩
  obtain ⟨sol, hsol⟩ := dls_complete (Nat.find hs) b (Nat.find hs) [] [] hsh hperm hs
    (by omega) (by omega) (fun c hc => by cases hc)
  refine ⟨sol, hsol, ?_, ?_, ?_⟩
  · have hsv : is_solvable4 b = true :=
      is_solvable4_of_reach (Nat.find hs) b hsh hperm (Nat.find_spec hs)
    simp only [idsSolve, idsSolveFrom, hsv, if_true]
    obtain ⟨L2, hsplit, hlt⟩ := range_split hcap
    rw [hsplit]
    exact idsLoop_first_success (List.range (Nat.find hs)) L2
      (fun e he => dls_fail_short hsh hperm hs (hlt e he)) hsol
  · obtain ⟨ext, hse, happ, hlen⟩ := dls_sound_len _ b (Nat.find hs) [] [] [] sol hsol
    rw [List.nil_append] at hse
    subst hse
    have hreach := reach_of_applyChain4 sol b happ
    have hmin : Nat.find hs ≤ sol.length := Nat.find_le hreach
    omega
  · obtain ⟨ext, hse, happ, _⟩ := dls_sound_len _ b (Nat.find hs) [] [] [] sol hsol
    rw [List.nil_append] at hse
    subst hse
    exact happ

def b42 : Board := [[1,2,3,4],[5,6,7,8],[9,10,11,12],[13,14,0,15]]

theorem b42_solvable : Solvable4 b42 := ⟨1, by decide⟩

/-- Witness for `c2_ids_first_success_minimal` at a concrete board one move
from the goal. -/
theorem c2_ids_first_success_minimal_witness :
    (∀ d, d < Nat.find b42_solvable → dls b42 d [] [] [] = DRes.fail) ∧
    (∃ sol, dls b42 (Nat.find b42_solvable) [] [] [] = DRes.success sol ∧
      idsSolve b42 2 = PyRes.found sol ∧ sol.length = Nat.find b42_solvable ∧
      applyChain4 b42 sol = some goal4) :=
  c2_ids_first_success_minimal b42 rfl (by decide) b42_solvable 2
    (lt_of_le_of_lt (Nat.find_le (show reachIn4 1 b42 by decide)) (by omega))

/-- Claim C2 as stated is false in its cross-engine clause: on the solvable
4x4 board `b42` the Iterative-Deepening engine returns the one-move solution
`[LEFT]`, while the Best-First engine (`PuzzleSolver`, hard-coded for 3x3
boards) crashes while expanding the root, because the blank lies outside the
top-left 3x3 window its blank scan inspects; it returns no solution whose
length could be compared. -/
theorem c2_counterexample :
    idsSolve b42 31 = PyRes.found [Move.LEFT] ∧
    pzSolve b42 100 = some PyRes.crash ∧
    pzSolve b42 0 = none := by
  refine ⟨by decide, by decide, by decide⟩

/- ===================== best-first optimality (C1) ===================== -/

/-- `n` legal 3x3 moves lead from `b0` to `c`. -/
def reachF3 : Nat → Board → Board → Prop
  | 0, b0, c => b0 = c
  | n + 1, b0, c => ∃ t ∈ nbBoards3 b0, reachF3 n t c

instance reachF3.dec : (n : Nat) → (b0 c : Board) → Decidable (reachF3 n b0 c)
  | 0, b0, c => inferInstanceAs (Decidable (b0 = c))
  | n + 1, b0, c =>
    have : ∀ t, Decidable (reachF3 n t c) := fun t => reachF3.dec n t c
    inferInstanceAs (Decidable (∃ t ∈ nbBoards3 b0, reachF3 n t c))

theorem reachF3_goal_iff : ∀ (n : Nat) (b : Board), reachF3 n b goal3 ↔ reachIn3 n b := by
  intro n
  induction n with
  | zero => intro b; exact Iff.rfl
  | succ m ih =>
    intro b
    constructor
    · rintro ⟨t, ht, hr⟩
      exact ⟨t, ht, (ih t).mp hr⟩
    · rintro ⟨t, ht, hr⟩
      exact ⟨t, ht, (ih t).mpr hr⟩

theorem reachF3_snoc : ∀ (n : Nat) (b0 c : Board), reachF3 (n + 1) b0 c →
    ∃ s, reachF3 n b0 s ∧ c ∈ nbBoards3 s := by
  intro n
  induction n with
  | zero =>
    rintro b0 c ⟨t, ht, hr⟩
    obtain rfl : t = c := hr
    exact ⟨b0, rfl, ht⟩
  | succ m ih =>
    rintro b0 c ⟨t, ht, hr⟩
    obtain ⟨s, hs1, hs2⟩ := ih t c hr
    exact ⟨s, ⟨t, ht, hs1⟩, hs2⟩

theorem reachF3_preserves : ∀ (n : Nat) (b0 c : Board), ShapeN 3 3 b0 →
    b0.flatten.Perm (List.range 9) → reachF3 n b0 c →
    ShapeN 3 3 c ∧ c.flatten.Perm (List.range 9) := by
  intro n
  induction n with
  | zero =>
    intro b0 c hsh hperm hr
    obtain rfl : b0 = c := hr
    exact ⟨hsh, hperm⟩
  | succ m ih =>
    rintro b0 c hsh hperm ⟨t, ht, hr⟩
    obtain ⟨h1, h2⟩ := nb3_preserves hsh hperm ht
    exact ih t c h1 h2 hr

theorem applyMove3_mem_nb {b c : Board} {m : Move} (h : applyMove3 b m = some c) :
    c ∈ nbBoards3 b := by
  unfold applyMove3 at h
  cases hpos : getBlankPos3 b with
  | none => rw [hpos] at h; cases h
  | some q =>
    rw [hpos] at h
    cases q with
    | mk x y =>
      have hposn : getBlankPos3 (PNode.mk b none none 0).board = some (x, y) := hpos
      cases m with
      | UP =>
        dsimp only [dirOf3] at h
        split at h
        rotate_right
        · cases h
        rename_i hcond
        obtain rfl : _ = c := Option.some.inj h
        unfold nbBoards3 getNeighbors3
        rw [hposn]
        dsimp only
        apply List.mem_map.mpr
        refine ⟨PNode.mk (swapCells b x y ((x : Int) + -1).toNat ((y : Int) + 0).toNat)
            (some (PNode.mk b none none 0)) (some Move.UP) 1,
          List.mem_filterMap.mpr ⟨(Move.UP, (-1 : Int), (0 : Int)), by simp [moves3], ?_⟩, rfl⟩
        dsimp only
        rw [if_pos hcond]
        rfl
      | DOWN =>
        dsimp only [dirOf3] at h
        split at h
        rotate_right
        · cases h
        rename_i hcond
        obtain rfl : _ = c := Option.some.inj h
        unfold nbBoards3 getNeighbors3
        rw [hposn]
        dsimp only
        apply List.mem_map.mpr
        refine ⟨PNode.mk (swapCells b x y ((x : Int) + 1).toNat ((y : Int) + 0).toNat)
            (some (PNode.mk b none none 0)) (some Move.DOWN) 1,
          List.mem_filterMap.mpr ⟨(Move.DOWN, (1 : Int), (0 : Int)), by simp [moves3], ?_⟩, rfl⟩
        dsimp only
        rw [if_pos hcond]
        rfl
      | LEFT =>
        dsimp only [dirOf3] at h
        split at h
        rotate_right
        · cases h
        rename_i hcond
        obtain rfl : _ = c := Option.some.inj h
        unfold nbBoards3 getNeighbors3
        rw [hposn]
        dsimp only
        apply List.mem_map.mpr
        refine ⟨PNode.mk (swapCells b x y ((x : Int) + 0).toNat ((y : Int) + -1).toNat)
            (some (PNode.mk b none none 0)) (some Move.LEFT) 1,
          List.mem_filterMap.mpr ⟨(Move.LEFT, (0 : Int), (-1 : Int)), by simp [moves3], ?_⟩, rfl⟩
        dsimp only
        rw [if_pos hcond]
        rfl
      | RIGHT =>
        dsimp only [dirOf3] at h
        split at h
        rotate_right
        · cases h
        rename_i hcond
        obtain rfl : _ = c := Option.some.inj h
        unfold nbBoards3 getNeighbors3
        rw [hposn]
        dsimp only
        apply List.mem_map.mpr
        refine ⟨PNode.mk (swapCells b x y ((x : Int) + 0).toNat ((y : Int) + 1).toNat)
            (some (PNode.mk b none none 0)) (some Move.RIGHT) 1,
          List.mem_filterMap.mpr ⟨(Move.RIGHT, (0 : Int), (1 : Int)), by simp [moves3], ?_⟩, rfl⟩
        dsimp only
        rw [if_pos hcond]
        rfl

theorem reachF3_of_applyChain3 : ∀ (ms : List Move) (b0 c : Board),
    applyChain3 b0 ms = some c → reachF3 ms.length b0 c := by
  intro ms
  induction ms with
  | nil =>
    intro b0 c h
    exact Option.some.inj h
  | cons m rest ih =>
    intro b0 c h
    unfold applyChain3 at h
    cases hm : applyMove3 b0 m with
    | none => rw [hm] at h; cases h
    | some t =>
      rw [hm] at h
      exact ⟨t, applyMove3_mem_nb hm, ih t c h⟩

theorem getBlankPos3_isSome {b : Board} (hsh : ShapeN 3 3 b) (hz : 0 ∈ b.flatten) :
    ∃ p, getBlankPos3 b = some p := by
  cases hpos : getBlankPos3 b with
  | some p => exact ⟨p, rfl⟩
  | none =>
    exfalso
    have hall : ∀ i ∈ List.range 3, ∀ j ∈ List.range 3, ¬ cell b i j = 0 := by
      intro i hi j hj hc
      have : (List.range 3).findSome? (fun i =>
          (List.range 3).findSome? fun j =>
            if cell b i j = 0 then some (i, j) else none) = none := hpos
      rw [List.findSome?_eq_none_iff] at this
      have hrow := this i hi
      rw [List.findSome?_eq_none_iff] at hrow
      have := hrow j hj
      rw [if_pos hc] at this
      cases this
    obtain ⟨row, hrow, h0row⟩ := List.mem_flatten.mp hz
    obtain ⟨i, hib, hieq⟩ := List.mem_iff_getElem.mp hrow
    obtain ⟨j, hjr, hjeq⟩ := List.mem_iff_getElem.mp h0row
    have hi3 : i < 3 := by rw [shape_length hsh] at hib; exact hib
    have hj3 : j < 3 := by
      have := shape_row hsh hi3
      rw [shape_getD_self hib, hieq] at this
      omega
    apply hall i (List.mem_range.mpr hi3) j (List.mem_range.mpr hj3)
    unfold cell
    rw [shape_getD_self hib, hieq, rowD_self hjr]
    exact hjeq

theorem mem_insertClosed {x b : Board} {closed : List Board} :
    x ∈ insertClosed b closed ↔ x = b ∨ x ∈ closed := by
  unfold insertClosed
  by_cases h : b ∈ closed
  · rw [if_pos h]
    constructor
    · exact Or.inr
    · rintro (rfl | hx)
      · exact h
      · exact hx
  · rw [if_neg h]
    exact List.mem_cons

theorem insertClosed_nodup {b : Board} {closed : List Board} (h : closed.Nodup) :
    (insertClosed b closed).Nodup := by
  unfold insertClosed
  by_cases hb : b ∈ closed
  · rw [if_pos hb]; exact h
  · rw [if_neg hb]; exact List.nodup_cons.mpr ⟨hb, h⟩

theorem insertClosed_of_mem {b : Board} {closed : List Board} (h : b ∈ closed) :
    insertClosed b closed = closed := by
  unfold insertClosed
  rw [if_pos h]

theorem insertClosed_of_not_mem {b : Board} {closed : List Board} (h : ¬ b ∈ closed) :
    insertClosed b closed = b :: closed := by
  unfold insertClosed
  rw [if_neg h]

theorem nbBoards3_node {nd : PNode} {ns : List PNode} (hns : getNeighbors3 nd = some ns) :
    nbBoards3 nd.board = ns.map PNode.board := by
  unfold nbBoards3
  unfold getNeighbors3 at hns ⊢
  rw [PNode.board_mk]
  cases hpos : getBlankPos3 nd.board with
  | none => rw [hpos] at hns; cases hns
  | some q =>
    rw [hpos] at hns
    cases q with
    | mk x y =>
      obtain rfl : _ = ns := Option.some.inj hns
      dsimp only
      rw [List.map_filterMap, List.map_filterMap]
      apply List.filterMap_congr
      intro md _
      dsimp only
      by_cases hc : 0 ≤ (x : Int) + md.2.1 ∧ (x : Int) + md.2.1 < 3 ∧
          0 ≤ (y : Int) + md.2.2 ∧ (y : Int) + md.2.2 < 3
      · rw [if_pos hc, if_pos hc]; rfl
      · rw [if_neg hc, if_neg hc]

/-- Loop invariant of `PuzzleSolver.solve`: every open node carries a faithful
ancestry chain from the root; every closed board has been reached; every
neighbor of a closed board is itself closed or is represented on the open list
by a node whose depth is at most one more than any realization of the closed
board; the root is covered; the goal board has never been closed; the closed
set holds no duplicates. -/
def PzInv (b0 : Board) (opn : List PNode) (closed : List Board) : Prop :=
  (∀ n ∈ opn, NodeOK b0 n) ∧
  (∀ s ∈ closed, ∃ k, reachF3 k b0 s) ∧
  (∀ s ∈ closed, ∀ t ∈ nbBoards3 s, t ∈ closed ∨
    ∃ n ∈ opn, n.board = t ∧ ∀ k, reachF3 k b0 s → n.depth ≤ k + 1) ∧
  (b0 ∈ closed ∨ ∃ n ∈ opn, n.board = b0 ∧ n.depth = 0) ∧
  goal3 ∉ closed ∧ closed.Nodup

theorem pz_frontier {b0 : Board} {opn : List PNode} {closed : List Board}
    (hsh : ShapeN 3 3 b0) (hperm : b0.flatten.Perm (List.range 9))
    (hinv : PzInv b0 opn closed) :
    ∀ (j : Nat) (s : Board), reachF3 j b0 s → s ∉ closed →
      ∃ w ∈ opn, w.cost ≤ j + manhattan3 s := by
  intro j
  induction j with
  | zero =>
    intro s hr hnc
    obtain rfl : b0 = s := hr
    rcases hinv.2.2.2.1 with hb0c | ⟨n, hn, hb, hd⟩
    · exact absurd hb0c hnc
    · refine ⟨n, hn, ?_⟩
      unfold PNode.cost
      rw [hb, hd]
  | succ m ih =>
    intro s hr hnc
    obtain ⟨s1, hr1, hmem⟩ := reachF3_snoc m b0 s hr
    obtain ⟨hsh1, hperm1⟩ := reachF3_preserves m b0 s1 hsh hperm hr1
    by_cases hc1 : s1 ∈ closed
    · rcases hinv.2.2.1 s1 hc1 s hmem with hsc | ⟨n, hn, hb, hd⟩
      · exact absurd hsc hnc
      · refine ⟨n, hn, ?_⟩
        have hdep := hd m hr1
        unfold PNode.cost
        rw [hb]
        omega
    · obtain ⟨w, hw, hcost⟩ := ih s1 hr1 hc1
      have hman := (manhattan3_nb hsh1 hmem).1
      exact ⟨w, hw, by omega⟩

theorem pz_minpop {b0 : Board} {opn : List PNode} {closed : List Board}
    {m : PNode} {rest : List PNode}
    (hsh : ShapeN 3 3 b0) (hperm : b0.flatten.Perm (List.range 9))
    (hinv : PzInv b0 opn closed)
    (hpop : popMin opn = some (m, rest)) (hnotc : ¬ m.board ∈ closed)
    {j : Nat} (hreach : reachF3 j b0 m.board) :
    m.depth ≤ j := by
  obtain ⟨w, hw, hwcost⟩ := pz_frontier hsh hperm hinv j m.board hreach hnotc
  have hmin := (popMin_spec hpop).2 w hw
  unfold PNode.cost at hmin hwcost
  omega

theorem pz_step_inv {b0 : Board} {opn : List PNode} {closed : List Board}
    {m : PNode} {rest : List PNode} {ns : List PNode}
    (hsh : ShapeN 3 3 b0) (hperm : b0.flatten.Perm (List.range 9))
    (hinv : PzInv b0 opn closed)
    (hpop : popMin opn = some (m, rest))
    (hng : m.board ≠ goal3)
    (hns : getNeighbors3 m = some ns) :
    PzInv b0 (rest ++ ns.filter (fun n => decide (¬ n.board ∈ insertClosed m.board closed)))
      (insertClosed m.board closed) := by
  obtain ⟨⟨l1, l2, hdec, hrest⟩, hmin⟩ := popMin_spec hpop
  have hm_opn : m ∈ opn := by
    rw [hdec]; exact List.mem_append_right l1 (List.mem_cons_self _ _)
  have hrest_sub : ∀ n ∈ rest, n ∈ opn := by
    intro n hn
    rw [hrest] at hn
    rw [hdec]
    rcases List.mem_append.mp hn with h1 | h2
    · exact List.mem_append_left _ h1
    · exact List.mem_append_right _ (List.mem_cons_of_mem _ h2)
  have hsplit : ∀ n ∈ opn, n = m ∨ n ∈ rest := by
    intro n hn
    rw [hdec] at hn
    rcases List.mem_append.mp hn with h1 | h2
    · exact Or.inr (by rw [hrest]; exact List.mem_append_left _ h1)
    · rcases List.mem_cons.mp h2 with h3 | h4
      · exact Or.inl h3
      · exact Or.inr (by rw [hrest]; exact List.mem_append_right _ h4)
  have hmOK : NodeOK b0 m := hinv.1 m hm_opn
  have hmreach : reachF3 m.depth b0 m.board := by
    have := reachF3_of_applyChain3 (chainMoves m) b0 m.board hmOK.1
    rwa [hmOK.2] at this
  by_cases hmc : m.board ∈ closed
  · rw [insertClosed_of_mem hmc]
    refine ⟨?_, hinv.2.1, ?_, ?_, hinv.2.2.2.2.1, hinv.2.2.2.2.2⟩
    · intro n hn
      rcases List.mem_append.mp hn with h1 | h2
      · exact hinv.1 n (hrest_sub n h1)
      · exact nodeOK_child hmOK hns (List.mem_of_mem_filter h2)
    · intro s hs t ht
      rcases hinv.2.2.1 s hs t ht with htc | ⟨n, hn, hnb, hnd⟩
      · exact Or.inl htc
      · rcases hsplit n hn with rfl | hr
        · exact Or.inl (by rw [← hnb]; exact hmc)
        · exact Or.inr ⟨n, List.mem_append_left _ hr, hnb, hnd⟩
    · rcases hinv.2.2.2.1 with h | ⟨n, hn, hnb, hnd⟩
      · exact Or.inl h
      · rcases hsplit n hn with rfl | hr
        · exact Or.inl (by rw [← hnb]; exact hmc)
        · exact Or.inr ⟨n, List.mem_append_left _ hr, hnb, hnd⟩
  · rw [insertClosed_of_not_mem hmc]
    refine ⟨?_, ?_, ?_, ?_, ?_, ?_⟩
    · intro n hn
      rcases List.mem_append.mp hn with h1 | h2
      · exact hinv.1 n (hrest_sub n h1)
      · exact nodeOK_child hmOK hns (List.mem_of_mem_filter h2)
    · intro s hs
      rcases List.mem_cons.mp hs with rfl | h2
      · exact ⟨m.depth, hmreach⟩
      · exact hinv.2.1 s h2
    · intro s hs t ht
      rcases List.mem_cons.mp hs with rfl | hsold
      · by_cases htc : t ∈ m.board :: closed
        · exact Or.inl htc
        · apply Or.inr
          rw [nbBoards3_node hns] at ht
          obtain ⟨cnd, hnd, hbd⟩ := List.mem_map.mp ht
          have hfilt : cnd ∈ ns.filter (fun n => decide (¬ n.board ∈ m.board :: closed)) :=
            List.mem_filter.mpr ⟨hnd, decide_eq_true (by rw [hbd]; exact htc)⟩
          refine ⟨cnd, List.mem_append_right _ hfilt, hbd, ?_⟩
          intro k hk
          obtain ⟨_, _, _, _, _, _, _, _, _, _, _, _, _, hdep, _, _⟩ :=
            mem_getNeighbors3_spec hns hnd
          have := pz_minpop hsh hperm hinv hpop hmc hk
          omega
      · rcases hinv.2.2.1 s hsold t ht with htc | ⟨n, hn, hnb, hnd⟩
        · exact Or.inl (List.mem_cons_of_mem _ htc)
        · rcases hsplit n hn with rfl | hr
          · exact Or.inl (by rw [← hnb]; exact List.mem_cons_self _ _)
          · exact Or.inr ⟨n, List.mem_append_left _ hr, hnb, hnd⟩
    · rcases hinv.2.2.2.1 with h | ⟨n, hn, hnb, hnd⟩
      · exact Or.inl (List.mem_cons_of_mem _ h)
      · rcases hsplit n hn with rfl | hr
        · exact Or.inl (by rw [← hnb]; exact List.mem_cons_self _ _)
        · exact Or.inr ⟨n, List.mem_append_left _ hr, hnb, hnd⟩
    · intro h
      rcases List.mem_cons.mp h with h1 | h2
      · exact hng h1.symm
      · exact hinv.2.2.2.2.1 h2
    · exact List.nodup_cons.mpr ⟨hmc, hinv.2.2.2.2.2⟩

theorem shape_flatten_inj : ∀ {n w : Nat} {b b2 : Board}, ShapeN n w b → ShapeN n w b2 →
    b.flatten = b2.flatten → b = b2 := by
  intro n
  induction n with
  | zero =>
    intro w b b2 h1 h2 _
    have hb : b = [] := List.map_eq_nil.mp h1
    have hb2 : b2 = [] := List.map_eq_nil.mp h2
    rw [hb, hb2]
  | succ m ih =>
    intro w b b2 h1 h2 hf
    unfold ShapeN at h1 h2
    rw [List.replicate_succ] at h1 h2
    cases b with
    | nil => cases h1
    | cons r rs =>
      cases b2 with
      | nil => cases h2
      | cons r2 rs2 =>
        rw [List.map_cons] at h1 h2
        have hr : r.length = w := (List.cons.injEq _ _ _ _ ▸ h1).1
        have hrs : ShapeN m w rs := (List.cons.injEq _ _ _ _ ▸ h1).2
        have hr2 : r2.length = w := (List.cons.injEq _ _ _ _ ▸ h2).1
        have hrs2 : ShapeN m w rs2 := (List.cons.injEq _ _ _ _ ▸ h2).2
        rw [List.flatten_cons, List.flatten_cons] at hf
        obtain ⟨hre, hfe⟩ := List.append_inj hf (by rw [hr, hr2])
        rw [hre, ih hrs hrs2 hfe]

/-- Number of 3x3 permutation boards: the closed set can never exceed it. -/
def permBound : Nat := ((List.range 9).permutations).length

theorem closed_le_perms {closed : List Board}
    (hnd : closed.Nodup)
    (hall : ∀ s ∈ closed, ShapeN 3 3 s ∧ s.flatten.Perm (List.range 9)) :
    closed.length ≤ permBound := by
  have hinj : (closed.map List.flatten).Nodup := by
    apply List.Nodup.map_on ?_ hnd
    intro x hx y hy hxy
    exact shape_flatten_inj (hall x hx).1 (hall y hy).1 hxy
  have hsub : ∀ x ∈ closed.map List.flatten, x ∈ (List.range 9).permutations := by
    intro x hx
    obtain ⟨s, hs, rfl⟩ := List.mem_map.mp hx
    exact List.mem_permutations.mpr (hall s hs).2
  calc closed.length = (closed.map List.flatten).length := (List.length_map _ _).symm
    _ = (closed.map List.flatten).toFinset.card := (List.toFinset_card_of_nodup hinj).symm
    _ ≤ ((List.range 9).permutations).toFinset.card := by
        apply Finset.card_le_card
        intro x hx
        exact List.mem_toFinset.mpr (hsub x (List.mem_toFinset.mp hx))
    _ ≤ permBound := List.toFinset_card_le _

theorem pz_terminates (b0 : Board) (hsh : ShapeN 3 3 b0)
    (hperm : b0.flatten.Perm (List.range 9))
    (hg : ∃ j, reachF3 j b0 goal3) :
    ∀ (k1 k2 : Nat) (opn : List PNode) (closed : List Board),
    PzInv b0 opn closed →
    permBound + 1 - closed.length ≤ k1 →
    (opn.filter (fun n => decide (n.board ∈ closed))).length < k2 →
    ∃ fuel r, pzLoop fuel opn closed = some (PyRes.found r) ∧
      r.moves.length = Nat.find hg ∧ r.solution_depth = Nat.find hg ∧
      applyChain3 b0 r.moves = some goal3 := by
  intro k1
  induction k1 with
  | zero =>
    intro k2 opn closed hinv hb1 _
    exfalso
    have hall : ∀ s ∈ closed, ShapeN 3 3 s ∧ s.flatten.Perm (List.range 9) := by
      intro s hs
      obtain ⟨k, hk⟩ := hinv.2.1 s hs
      exact reachF3_preserves k b0 s hsh hperm hk
    have := closed_le_perms hinv.2.2.2.2.2 hall
    omega
  | succ a iha =>
    intro k2
    induction k2 with
    | zero =>
      intro opn closed _ _ hb2
      exact absurd hb2 (by omega)
    | succ c ihc =>
      intro opn closed hinv hb1 hb2
      have hgoalreach := Nat.find_spec hg
      have hgnc : goal3 ∉ closed := hinv.2.2.2.2.1
      obtain ⟨w, hw, _⟩ := pz_frontier hsh hperm hinv (Nat.find hg) goal3 hgoalreach hgnc
      cases hpop : popMin opn with
      | none =>
        exact absurd (popMin_none.mp hpop) (fun he => by rw [he] at hw; cases hw)
      | some pr =>
        cases pr with
        | mk m rest =>
          obtain ⟨⟨l1, l2, hdec, hrest⟩, _⟩ := popMin_spec hpop
          have hm_opn : m ∈ opn := by
            rw [hdec]; exact List.mem_append_right l1 (List.mem_cons_self _ _)
          have hmOK : NodeOK b0 m := hinv.1 m hm_opn
          have hmreach : reachF3 m.depth b0 m.board := by
            have := reachF3_of_applyChain3 (chainMoves m) b0 m.board hmOK.1
            rwa [hmOK.2] at this
          by_cases hgoal : m.board = goal3
          · refine ⟨1, ⟨chainMoves m, closed.length, m.depth⟩, ?_, ?_, ?_, ?_⟩
            · show pzLoop (0 + 1) opn closed = _
              unfold pzLoop
              rw [hpop]
              dsimp only
              rw [if_pos hgoal]
            · show (chainMoves m).length = Nat.find hg
              rw [hmOK.2]
              have hle : m.depth ≤ Nat.find hg := by
                apply pz_minpop hsh hperm hinv hpop
                · rw [hgoal]; exact hgnc
                · rw [hgoal]; exact hgoalreach
              have hge : Nat.find hg ≤ m.depth := by
                apply Nat.find_le
                rw [← hgoal]
                exact hmreach
              omega
            · show m.depth = Nat.find hg
              have hle : m.depth ≤ Nat.find hg := by
                apply pz_minpop hsh hperm hinv hpop
                · rw [hgoal]; exact hgnc
                · rw [hgoal]; exact hgoalreach
              have hge : Nat.find hg ≤ m.depth := by
                apply Nat.find_le
                rw [← hgoal]
                exact hmreach
              omega
            · show applyChain3 b0 (chainMoves m) = some goal3
              rw [hmOK.1, hgoal]
          · obtain ⟨hshm, hpermm⟩ := reachF3_preserves m.depth b0 m.board hsh hperm hmreach
            have hz : (0 : Nat) ∈ m.board.flatten := hpermm.mem_iff.mpr (by decide)
            obtain ⟨ns, hns⟩ : ∃ ns, getNeighbors3 m = some ns := by
              obtain ⟨p, hp⟩ := getBlankPos3_isSome hshm hz
              cases p with
              | mk x y => exact ⟨_, by unfold getNeighbors3; rw [hp]⟩
            have hcode : pzStepCode (opn, closed) =
                some (rest ++ ns.filter (fun n =>
                  decide (¬ n.board ∈ insertClosed m.board closed)),
                  insertClosed m.board closed) := by
              unfold pzStepCode
              dsimp only
              rw [hpop]
              dsimp only
              rw [if_neg hgoal, hns]
            have hinv2 := pz_step_inv hsh hperm hinv hpop hgoal hns
            by_cases hmc : m.board ∈ closed
            · rw [insertClosed_of_mem hmc] at hcode hinv2
              have hpm : decide (m.board ∈ closed) = true := decide_eq_true hmc
              have hcount1 : (opn.filter (fun n => decide (n.board ∈ closed))).length =
                  (rest.filter (fun n => decide (n.board ∈ closed))).length + 1 := by
                rw [hdec, hrest]
                simp only [List.filter_append, List.length_append, List.filter_cons, hpm,
                  eq_self_iff_true, if_true, List.length_cons]
                omega
              have hcount2 : ((ns.filter (fun n => decide (¬ n.board ∈ closed))).filter
                  (fun n => decide (n.board ∈ closed))) = [] := by
                rw [List.filter_eq_nil_iff]
                intro x hx
                have := List.of_mem_filter hx
                simp only [decide_eq_true_eq] at this ⊢
                exact this
              obtain ⟨fuel, r, hl, h2, h3, h4⟩ := ihc
                (rest ++ ns.filter (fun n => decide (¬ n.board ∈ closed))) closed hinv2 hb1
                (by
                  simp only [List.filter_append, List.length_append, hcount2,
                    List.length_nil]
                  omega)
              exact ⟨fuel + 1, r, by rw [pzLoop_step hcode]; exact hl, h2, h3, h4⟩
            · rw [insertClosed_of_not_mem hmc] at hcode hinv2
              obtain ⟨fuel, r, hl, h2, h3, h4⟩ := iha
                ((((rest ++ ns.filter (fun n => decide (¬ n.board ∈ m.board :: closed)))).filter
                  (fun n => decide (n.board ∈ m.board :: closed))).length + 1)
                (rest ++ ns.filter (fun n => decide (¬ n.board ∈ m.board :: closed)))
                (m.board :: closed) hinv2
                (by simp only [List.length_cons]; omega)
                (by omega)
              exact ⟨fuel + 1, r, by rw [pzLoop_step hcode]; exact hl, h2, h3, h4⟩

/-- Claim C1: for every solvable 3x3 board, the Best-First engine
(`PuzzleSolver.solve`) returns a solution whose move-list length and reported
`solution_depth` both equal the true minimal number of moves from the initial
board to the goal board. -/
theorem c1_astar_optimal (b : Board) (hsh : ShapeN 3 3 b)
    (hperm : b.flatten.Perm (List.range 9)) (hs : Solvable3 b) :
    ∃ fuel r, pzSolve b fuel = some (PyRes.found r) ∧
      r.moves.length = Nat.find hs ∧ r.solution_depth = Nat.find hs := by
  have hg : ∃ j, reachF3 j b goal3 :=
    ⟨Nat.find hs, (reachF3_goal_iff _ _).mpr (Nat.find_spec hs)⟩
  have hfind : Nat.find hg = Nat.find hs :=
    le_antisymm (Nat.find_le ((reachF3_goal_iff _ _).mpr (Nat.find_spec hs)))
      (Nat.find_le ((reachF3_goal_iff _ _).mp (Nat.find_spec hg)))
  have hroot : PzInv b [PNode.mk b none none 0] [] := by
    refine ⟨?_, ?_, ?_, ?_, ?_, ?_⟩
    · intro n hn
      obtain rfl := List.mem_singleton.mp hn
      exact ⟨rfl, rfl⟩
    · intro s hs2; cases hs2
    · intro s hs2; cases hs2
    · exact Or.inr ⟨PNode.mk b none none 0, List.mem_singleton_self _, rfl, rfl⟩
    · intro h; cases h
    · exact List.nodup_nil
  obtain ⟨fuel, r, hl, h2, h3, _⟩ := pz_terminates b hsh hperm hg (permBound + 1) 1
    [PNode.mk b none none 0] [] hroot (by omega) (by simp)
  have hsolv : is_solvable3 b = true :=
    is_solvable3_of_reach (Nat.find hs) b hsh hperm (Nat.find_spec hs)
  refine ⟨fuel, ⟨r.moves ++ [], r.nodes_explored, r.solution_depth⟩, ?_, ?_, ?_⟩
  · unfold pzSolve pzSolveWith
    rw [if_pos hsolv, hl]
  · show (r.moves ++ []).length = Nat.find hs
    rw [List.append_nil, h2, hfind]
  · show r.solution_depth = Nat.find hs
    rw [h3, hfind]

/-- Witness for C1: the board one move away from the goal (blank slid left from
the bottom-right corner) is solved with a single move at depth 1. -/
theorem c1_astar_optimal_witness :
    ShapeN 3 3 [[1,2,3],[4,5,6],[7,0,8]] ∧
    ∃ fuel r, pzSolve [[1,2,3],[4,5,6],[7,0,8]] fuel = some (PyRes.found r) ∧
      r.moves.length = 1 ∧ r.solution_depth = 1 := by
  have hs : Solvable3 [[1,2,3],[4,5,6],[7,0,8]] := ⟨1, by decide⟩
  have hfind : Nat.find hs = 1 := by
    apply le_antisymm
    · exact Nat.find_le (show reachIn3 1 [[1,2,3],[4,5,6],[7,0,8]] by decide)
    · by_contra h
      have h0 : Nat.find hs = 0 := by omega
      have := Nat.find_spec hs
      rw [h0] at this
      exact absurd this (by decide)
  obtain ⟨fuel, r, h1, h2, h3⟩ :=
    c1_astar_optimal [[1,2,3],[4,5,6],[7,0,8]] rfl (by decide) hs
  exact ⟨rfl, fuel, r, h1, by rw [h2, hfind], by rw [h3, hfind]⟩

/- ============ parity-implies-solvable for 3x3 boards (C3) ============ -/

theorem reachF3_trans : ∀ (m : Nat) {n : Nat} {b c d : Board},
    reachF3 m b c → reachF3 n c d → reachF3 (m + n) b d := by
  intro m
  induction m with
  | zero =>
    intro n b c d h1 h2
    obtain rfl : b = c := h1
    rw [Nat.zero_add]
    exact h2
  | succ k ih =>
    rintro n b c d ⟨t, ht, hr⟩ h2
    rw [Nat.succ_add]
    exact ⟨t, ht, ih hr h2⟩
theorem blankAt00 (a b c d e f g h : Nat) (ha : a ≠ 0) (hb : b ≠ 0) (hc : c ≠ 0) (hd : d ≠ 0) (he : e ≠ 0) (hf : f ≠ 0) (hg : g ≠ 0) (hh : h ≠ 0) :
    getBlankPos3 [[0,a,b],[c,d,e],[f,g,h]] = some (0, 0) := by
  unfold getBlankPos3
  rw [show (List.range 3) = [0,1,2] from rfl]
  simp [List.findSome?_cons, cell, ha, hb, hc, hd, he, hf, hg, hh]

theorem blankAt01 (a b c d e f g h : Nat) (ha : a ≠ 0) (hb : b ≠ 0) (hc : c ≠ 0) (hd : d ≠ 0) (he : e ≠ 0) (hf : f ≠ 0) (hg : g ≠ 0) (hh : h ≠ 0) :
    getBlankPos3 [[a,0,b],[c,d,e],[f,g,h]] = some (0, 1) := by
  unfold getBlankPos3
  rw [show (List.range 3) = [0,1,2] from rfl]
  simp [List.findSome?_cons, cell, ha, hb, hc, hd, he, hf, hg, hh]

theorem blankAt02 (a b c d e f g h : Nat) (ha : a ≠ 0) (hb : b ≠ 0) (hc : c ≠ 0) (hd : d ≠ 0) (he : e ≠ 0) (hf : f ≠ 0) (hg : g ≠ 0) (hh : h ≠ 0) :
    getBlankPos3 [[a,b,0],[c,d,e],[f,g,h]] = some (0, 2) := by
  unfold getBlankPos3
  rw [show (List.range 3) = [0,1,2] from rfl]
  simp [List.findSome?_cons, cell, ha, hb, hc, hd, he, hf, hg, hh]

theorem blankAt10 (a b c d e f g h : Nat) (ha : a ≠ 0) (hb : b ≠ 0) (hc : c ≠ 0) (hd : d ≠ 0) (he : e ≠ 0) (hf : f ≠ 0) (hg : g ≠ 0) (hh : h ≠ 0) :
    getBlankPos3 [[a,b,c],[0,d,e],[f,g,h]] = some (1, 0) := by
  unfold getBlankPos3
  rw [show (List.range 3) = [0,1,2] from rfl]
  simp [List.findSome?_cons, cell, ha, hb, hc, hd, he, hf, hg, hh]

theorem blankAt11 (a b c d e f g h : Nat) (ha : a ≠ 0) (hb : b ≠ 0) (hc : c ≠ 0) (hd : d ≠ 0) (he : e ≠ 0) (hf : f ≠ 0) (hg : g ≠ 0) (hh : h ≠ 0) :
    getBlankPos3 [[a,b,c],[d,0,e],[f,g,h]] = some (1, 1) := by
  unfold getBlankPos3
  rw [show (List.range 3) = [0,1,2] from rfl]
  simp [List.findSome?_cons, cell, ha, hb, hc, hd, he, hf, hg, hh]

theorem blankAt12 (a b c d e f g h : Nat) (ha : a ≠ 0) (hb : b ≠ 0) (hc : c ≠ 0) (hd : d ≠ 0) (he : e ≠ 0) (hf : f ≠ 0) (hg : g ≠ 0) (hh : h ≠ 0) :
    getBlankPos3 [[a,b,c],[d,e,0],[f,g,h]] = some (1, 2) := by
  unfold getBlankPos3
  rw [show (List.range 3) = [0,1,2] from rfl]
  simp [List.findSome?_cons, cell, ha, hb, hc, hd, he, hf, hg, hh]

theorem blankAt20 (a b c d e f g h : Nat) (ha : a ≠ 0) (hb : b ≠ 0) (hc : c ≠ 0) (hd : d ≠ 0) (he : e ≠ 0) (hf : f ≠ 0) (hg : g ≠ 0) (hh : h ≠ 0) :
    getBlankPos3 [[a,b,c],[d,e,f],[0,g,h]] = some (2, 0) := by
  unfold getBlankPos3
  rw [show (List.range 3) = [0,1,2] from rfl]
  simp [List.findSome?_cons, cell, ha, hb, hc, hd, he, hf, hg, hh]

theorem blankAt21 (a b c d e f g h : Nat) (ha : a ≠ 0) (hb : b ≠ 0) (hc : c ≠ 0) (hd : d ≠ 0) (he : e ≠ 0) (hf : f ≠ 0) (hg : g ≠ 0) (hh : h ≠ 0) :
    getBlankPos3 [[a,b,c],[d,e,f],[g,0,h]] = some (2, 1) := by
  unfold getBlankPos3
  rw [show (List.range 3) = [0,1,2] from rfl]
  simp [List.findSome?_cons, cell, ha, hb, hc, hd, he, hf, hg, hh]

theorem blankAt22 (a b c d e f g h : Nat) (ha : a ≠ 0) (hb : b ≠ 0) (hc : c ≠ 0) (hd : d ≠ 0) (he : e ≠ 0) (hf : f ≠ 0) (hg : g ≠ 0) (hh : h ≠ 0) :
    getBlankPos3 [[a,b,c],[d,e,f],[g,h,0]] = some (2, 2) := by
  unfold getBlankPos3
  rw [show (List.range 3) = [0,1,2] from rfl]
  simp [List.findSome?_cons, cell, ha, hb, hc, hd, he, hf, hg, hh]

theorem rotGen0 (t0 t1 t2 t3 t4 t5 t6 t7 : Nat) (h0 : t0 ≠ 0) (h1 : t1 ≠ 0) (h2 : t2 ≠ 0) (h3 : t3 ≠ 0) (h4 : t4 ≠ 0) (h5 : t5 ≠ 0) (h6 : t6 ≠ 0) (h7 : t7 ≠ 0) :
    applyChain3 [[t0,t1,t2],[t3,t4,t5],[t6,t7,0]]
      [Move.UP, Move.UP, Move.LEFT, Move.DOWN, Move.RIGHT, Move.DOWN, Move.LEFT, Move.LEFT, Move.UP, Move.RIGHT, Move.UP, Move.LEFT, Move.DOWN, Move.DOWN, Move.RIGHT, Move.RIGHT] =
      some [[t2,t0,t1],[t3,t4,t5],[t6,t7,0]] := by
  have s1 : applyMove3 [[t0,t1,t2],[t3,t4,t5],[t6,t7,0]] Move.UP = some [[t0,t1,t2],[t3,t4,0],[t6,t7,t5]] := by
    unfold applyMove3
    rw [blankAt22 t0 t1 t2 t3 t4 t5 t6 t7 h0 h1 h2 h3 h4 h5 h6 h7]
    dsimp only [dirOf3]
    rw [if_pos (by decide)]
    rfl
  have s2 : applyMove3 [[t0,t1,t2],[t3,t4,0],[t6,t7,t5]] Move.UP = some [[t0,t1,0],[t3,t4,t2],[t6,t7,t5]] := by
    unfold applyMove3
    rw [blankAt12 t0 t1 t2 t3 t4 t6 t7 t5 h0 h1 h2 h3 h4 h6 h7 h5]
    dsimp only [dirOf3]
    rw [if_pos (by decide)]
    rfl
  have s3 : applyMove3 [[t0,t1,0],[t3,t4,t2],[t6,t7,t5]] Move.LEFT = some [[t0,0,t1],[t3,t4,t2],[t6,t7,t5]] := by
    unfold applyMove3
    rw [blankAt02 t0 t1 t3 t4 t2 t6 t7 t5 h0 h1 h3 h4 h2 h6 h7 h5]
    dsimp only [dirOf3]
    rw [if_pos (by decide)]
    rfl
  have s4 : applyMove3 [[t0,0,t1],[t3,t4,t2],[t6,t7,t5]] Move.DOWN = some [[t0,t4,t1],[t3,0,t2],[t6,t7,t5]] := by
    unfold applyMove3
    rw [blankAt01 t0 t1 t3 t4 t2 t6 t7 t5 h0 h1 h3 h4 h2 h6 h7 h5]
    dsimp only [dirOf3]
    rw [if_pos (by decide)]
    rfl
  have s5 : applyMove3 [[t0,t4,t1],[t3,0,t2],[t6,t7,t5]] Move.RIGHT = some [[t0,t4,t1],[t3,t2,0],[t6,t7,t5]] := by
    unfold applyMove3
    rw [blankAt11 t0 t4 t1 t3 t2 t6 t7 t5 h0 h4 h1 h3 h2 h6 h7 h5]
    dsimp only [dirOf3]
    rw [if_pos (by decide)]
    rfl
  have s6 : applyMove3 [[t0,t4,t1],[t3,t2,0],[t6,t7,t5]] Move.DOWN = some [[t0,t4,t1],[t3,t2,t5],[t6,t7,0]] := by
    unfold applyMove3
    rw [blankAt12 t0 t4 t1 t3 t2 t6 t7 t5 h0 h4 h1 h3 h2 h6 h7 h5]
    dsimp only [dirOf3]
    rw [if_pos (by decide)]
    rfl
  have s7 : applyMove3 [[t0,t4,t1],[t3,t2,t5],[t6,t7,0]] Move.LEFT = some [[t0,t4,t1],[t3,t2,t5],[t6,0,t7]] := by
    unfold applyMove3
    rw [blankAt22 t0 t4 t1 t3 t2 t5 t6 t7 h0 h4 h1 h3 h2 h5 h6 h7]
    dsimp only [dirOf3]
    rw [if_pos (by decide)]
    rfl
  have s8 : applyMove3 [[t0,t4,t1],[t3,t2,t5],[t6,0,t7]] Move.LEFT = some [[t0,t4,t1],[t3,t2,t5],[0,t6,t7]] := by
    unfold applyMove3
    rw [blankAt21 t0 t4 t1 t3 t2 t5 t6 t7 h0 h4 h1 h3 h2 h5 h6 h7]
    dsimp only [dirOf3]
    rw [if_pos (by decide)]
    rfl
  have s9 : applyMove3 [[t0,t4,t1],[t3,t2,t5],[0,t6,t7]] Move.UP = some [[t0,t4,t1],[0,t2,t5],[t3,t6,t7]] := by
    unfold applyMove3
    rw [blankAt20 t0 t4 t1 t3 t2 t5 t6 t7 h0 h4 h1 h3 h2 h5 h6 h7]
    dsimp only [dirOf3]
    rw [if_pos (by decide)]
    rfl
  have s10 : applyMove3 [[t0,t4,t1],[0,t2,t5],[t3,t6,t7]] Move.RIGHT = some [[t0,t4,t1],[t2,0,t5],[t3,t6,t7]] := by
    unfold applyMove3
    rw [blankAt10 t0 t4 t1 t2 t5 t3 t6 t7 h0 h4 h1 h2 h5 h3 h6 h7]
    dsimp only [dirOf3]
    rw [if_pos (by decide)]
    rfl
  have s11 : applyMove3 [[t0,t4,t1],[t2,0,t5],[t3,t6,t7]] Move.UP = some [[t0,0,t1],[t2,t4,t5],[t3,t6,t7]] := by
    unfold applyMove3
    rw [blankAt11 t0 t4 t1 t2 t5 t3 t6 t7 h0 h4 h1 h2 h5 h3 h6 h7]
    dsimp only [dirOf3]
    rw [if_pos (by decide)]
    rfl
  have s12 : applyMove3 [[t0,0,t1],[t2,t4,t5],[t3,t6,t7]] Move.LEFT = some [[0,t0,t1],[t2,t4,t5],[t3,t6,t7]] := by
    unfold applyMove3
    rw [blankAt01 t0 t1 t2 t4 t5 t3 t6 t7 h0 h1 h2 h4 h5 h3 h6 h7]
    dsimp only [dirOf3]
    rw [if_pos (by decide)]
    rfl
  have s13 : applyMove3 [[0,t0,t1],[t2,t4,t5],[t3,t6,t7]] Move.DOWN = some [[t2,t0,t1],[0,t4,t5],[t3,t6,t7]] := by
    unfold applyMove3
    rw [blankAt00 t0 t1 t2 t4 t5 t3 t6 t7 h0 h1 h2 h4 h5 h3 h6 h7]
    dsimp only [dirOf3]
    rw [if_pos (by decide)]
    rfl
  have s14 : applyMove3 [[t2,t0,t1],[0,t4,t5],[t3,t6,t7]] Move.DOWN = some [[t2,t0,t1],[t3,t4,t5],[0,t6,t7]] := by
    unfold applyMove3
    rw [blankAt10 t2 t0 t1 t4 t5 t3 t6 t7 h2 h0 h1 h4 h5 h3 h6 h7]
    dsimp only [dirOf3]
    rw [if_pos (by decide)]
    rfl
  have s15 : applyMove3 [[t2,t0,t1],[t3,t4,t5],[0,t6,t7]] Move.RIGHT = some [[t2,t0,t1],[t3,t4,t5],[t6,0,t7]] := by
    unfold applyMove3
    rw [blankAt20 t2 t0 t1 t3 t4 t5 t6 t7 h2 h0 h1 h3 h4 h5 h6 h7]
    dsimp only [dirOf3]
    rw [if_pos (by decide)]
    rfl
  have s16 : applyMove3 [[t2,t0,t1],[t3,t4,t5],[t6,0,t7]] Move.RIGHT = some [[t2,t0,t1],[t3,t4,t5],[t6,t7,0]] := by
    unfold applyMove3
    rw [blankAt21 t2 t0 t1 t3 t4 t5 t6 t7 h2 h0 h1 h3 h4 h5 h6 h7]
    dsimp only [dirOf3]
    rw [if_pos (by decide)]
    rfl
  simp only [applyChain3, s1, s2, s3, s4, s5, s6, s7, s8, s9, s10, s11, s12, s13, s14, s15, s16]

theorem rotGen1 (t0 t1 t2 t3 t4 t5 t6 t7 : Nat) (h0 : t0 ≠ 0) (h1 : t1 ≠ 0) (h2 : t2 ≠ 0) (h3 : t3 ≠ 0) (h4 : t4 ≠ 0) (h5 : t5 ≠ 0) (h6 : t6 ≠ 0) (h7 : t7 ≠ 0) :
    applyChain3 [[t0,t1,t2],[t3,t4,t5],[t6,t7,0]]
      [Move.UP, Move.UP, Move.LEFT, Move.DOWN, Move.LEFT, Move.UP, Move.RIGHT, Move.DOWN, Move.RIGHT, Move.UP, Move.LEFT, Move.LEFT, Move.DOWN, Move.RIGHT, Move.UP, Move.RIGHT, Move.DOWN, Move.DOWN] =
      some [[t0,t3,t1],[t2,t4,t5],[t6,t7,0]] := by
  have s1 : applyMove3 [[t0,t1,t2],[t3,t4,t5],[t6,t7,0]] Move.UP = some [[t0,t1,t2],[t3,t4,0],[t6,t7,t5]] := by
    unfold applyMove3
    rw [blankAt22 t0 t1 t2 t3 t4 t5 t6 t7 h0 h1 h2 h3 h4 h5 h6 h7]
    dsimp only [dirOf3]
    rw [if_pos (by decide)]
    rfl
  have s2 : applyMove3 [[t0,t1,t2],[t3,t4,0],[t6,t7,t5]] Move.UP = some [[t0,t1,0],[t3,t4,t2],[t6,t7,t5]] := by
    unfold applyMove3
    rw [blankAt12 t0 t1 t2 t3 t4 t6 t7 t5 h0 h1 h2 h3 h4 h6 h7 h5]
    dsimp only [dirOf3]
    rw [if_pos (by decide)]
    rfl
  have s3 : applyMove3 [[t0,t1,0],[t3,t4,t2],[t6,t7,t5]] Move.LEFT = some [[t0,0,t1],[t3,t4,t2],[t6,t7,t5]] := by
    unfold applyMove3
    rw [blankAt02 t0 t1 t3 t4 t2 t6 t7 t5 h0 h1 h3 h4 h2 h6 h7 h5]
    dsimp only [dirOf3]
    rw [if_pos (by decide)]
    rfl
  have s4 : applyMove3 [[t0,0,t1],[t3,t4,t2],[t6,t7,t5]] Move.DOWN = some [[t0,t4,t1],[t3,0,t2],[t6,t7,t5]] := by
    unfold applyMove3
    rw [blankAt01 t0 t1 t3 t4 t2 t6 t7 t5 h0 h1 h3 h4 h2 h6 h7 h5]
    dsimp only [dirOf3]
    rw [if_pos (by decide)]
    rfl
  have s5 : applyMove3 [[t0,t4,t1],[t3,0,t2],[t6,t7,t5]] Move.LEFT = some [[t0,t4,t1],[0,t3,t2],[t6,t7,t5]] := by
    unfold applyMove3
    rw [blankAt11 t0 t4 t1 t3 t2 t6 t7 t5 h0 h4 h1 h3 h2 h6 h7 h5]
    dsimp only [dirOf3]
    rw [if_pos (by decide)]
    rfl
  have s6 : applyMove3 [[t0,t4,t1],[0,t3,t2],[t6,t7,t5]] Move.UP = some [[0,t4,t1],[t0,t3,t2],[t6,t7,t5]] := by
    unfold applyMove3
    rw [blankAt10 t0 t4 t1 t3 t2 t6 t7 t5 h0 h4 h1 h3 h2 h6 h7 h5]
    dsimp only [dirOf3]
    rw [if_pos (by decide)]
    rfl
  have s7 : applyMove3 [[0,t4,t1],[t0,t3,t2],[t6,t7,t5]] Move.RIGHT = some [[t4,0,t1],[t0,t3,t2],[t6,t7,t5]] := by
    unfold applyMove3
    rw [blankAt00 t4 t1 t0 t3 t2 t6 t7 t5 h4 h1 h0 h3 h2 h6 h7 h5]
    dsimp only [dirOf3]
    rw [if_pos (by decide)]
    rfl
  have s8 : applyMove3 [[t4,0,t1],[t0,t3,t2],[t6,t7,t5]] Move.DOWN = some [[t4,t3,t1],[t0,0,t2],[t6,t7,t5]] := by
    unfold applyMove3
    rw [blankAt01 t4 t1 t0 t3 t2 t6 t7 t5 h4 h1 h0 h3 h2 h6 h7 h5]
    dsimp only [dirOf3]
    rw [if_pos (by decide)]
    rfl
  have s9 : applyMove3 [[t4,t3,t1],[t0,0,t2],[t6,t7,t5]] Move.RIGHT = some [[t4,t3,t1],[t0,t2,0],[t6,t7,t5]] := by
    unfold applyMove3
    rw [blankAt11 t4 t3 t1 t0 t2 t6 t7 t5 h4 h3 h1 h0 h2 h6 h7 h5]
    dsimp only [dirOf3]
    rw [if_pos (by decide)]
    rfl
  have s10 : applyMove3 [[t4,t3,t1],[t0,t2,0],[t6,t7,t5]] Move.UP = some [[t4,t3,0],[t0,t2,t1],[t6,t7,t5]] := by
    unfold applyMove3
    rw [blankAt12 t4 t3 t1 t0 t2 t6 t7 t5 h4 h3 h1 h0 h2 h6 h7 h5]
    dsimp only [dirOf3]
    rw [if_pos (by decide)]
    rfl
  have s11 : applyMove3 [[t4,t3,0],[t0,t2,t1],[t6,t7,t5]] Move.LEFT = some [[t4,0,t3],[t0,t2,t1],[t6,t7,t5]] := by
    unfold applyMove3
    rw [blankAt02 t4 t3 t0 t2 t1 t6 t7 t5 h4 h3 h0 h2 h1 h6 h7 h5]
    dsimp only [dirOf3]
    rw [if_pos (by decide)]
    rfl
  have s12 : applyMove3 [[t4,0,t3],[t0,t2,t1],[t6,t7,t5]] Move.LEFT = some [[0,t4,t3],[t0,t2,t1],[t6,t7,t5]] := by
    unfold applyMove3
    rw [blankAt01 t4 t3 t0 t2 t1 t6 t7 t5 h4 h3 h0 h2 h1 h6 h7 h5]
    dsimp only [dirOf3]
    rw [if_pos (by decide)]
    rfl
  have s13 : applyMove3 [[0,t4,t3],[t0,t2,t1],[t6,t7,t5]] Move.DOWN = some [[t0,t4,t3],[0,t2,t1],[t6,t7,t5]] := by
    unfold applyMove3
    rw [blankAt00 t4 t3 t0 t2 t1 t6 t7 t5 h4 h3 h0 h2 h1 h6 h7 h5]
    dsimp only [dirOf3]
    rw [if_pos (by decide)]
    rfl
  have s14 : applyMove3 [[t0,t4,t3],[0,t2,t1],[t6,t7,t5]] Move.RIGHT = some [[t0,t4,t3],[t2,0,t1],[t6,t7,t5]] := by
    unfold applyMove3
    rw [blankAt10 t0 t4 t3 t2 t1 t6 t7 t5 h0 h4 h3 h2 h1 h6 h7 h5]
    dsimp only [dirOf3]
    rw [if_pos (by decide)]
    rfl
  have s15 : applyMove3 [[t0,t4,t3],[t2,0,t1],[t6,t7,t5]] Move.UP = some [[t0,0,t3],[t2,t4,t1],[t6,t7,t5]] := by
    unfold applyMove3
    rw [blankAt11 t0 t4 t3 t2 t1 t6 t7 t5 h0 h4 h3 h2 h1 h6 h7 h5]
    dsimp only [dirOf3]
    rw [if_pos (by decide)]
    rfl
  have s16 : applyMove3 [[t0,0,t3],[t2,t4,t1],[t6,t7,t5]] Move.RIGHT = some [[t0,t3,0],[t2,t4,t1],[t6,t7,t5]] := by
    unfold applyMove3
    rw [blankAt01 t0 t3 t2 t4 t1 t6 t7 t5 h0 h3 h2 h4 h1 h6 h7 h5]
    dsimp only [dirOf3]
    rw [if_pos (by decide)]
    rfl
  have s17 : applyMove3 [[t0,t3,0],[t2,t4,t1],[t6,t7,t5]] Move.DOWN = some [[t0,t3,t1],[t2,t4,0],[t6,t7,t5]] := by
    unfold applyMove3
    rw [blankAt02 t0 t3 t2 t4 t1 t6 t7 t5 h0 h3 h2 h4 h1 h6 h7 h5]
    dsimp only [dirOf3]
    rw [if_pos (by decide)]
    rfl
  have s18 : applyMove3 [[t0,t3,t1],[t2,t4,0],[t6,t7,t5]] Move.DOWN = some [[t0,t3,t1],[t2,t4,t5],[t6,t7,0]] := by
    unfold applyMove3
    rw [blankAt12 t0 t3 t1 t2 t4 t6 t7 t5 h0 h3 h1 h2 h4 h6 h7 h5]
    dsimp only [dirOf3]
    rw [if_pos (by decide)]
    rfl
  simp only [applyChain3, s1, s2, s3, s4, s5, s6, s7, s8, s9, s10, s11, s12, s13, s14, s15, s16, s17, s18]

theorem rotGen2 (t0 t1 t2 t3 t4 t5 t6 t7 : Nat) (h0 : t0 ≠ 0) (h1 : t1 ≠ 0) (h2 : t2 ≠ 0) (h3 : t3 ≠ 0) (h4 : t4 ≠ 0) (h5 : t5 ≠ 0) (h6 : t6 ≠ 0) (h7 : t7 ≠ 0) :
    applyChain3 [[t0,t1,t2],[t3,t4,t5],[t6,t7,0]]
      [Move.UP, Move.LEFT, Move.LEFT, Move.UP, Move.RIGHT, Move.RIGHT, Move.DOWN, Move.LEFT, Move.UP, Move.LEFT, Move.DOWN, Move.RIGHT, Move.RIGHT, Move.DOWN] =
      some [[t0,t1,t4],[t2,t3,t5],[t6,t7,0]] := by
  have s1 : applyMove3 [[t0,t1,t2],[t3,t4,t5],[t6,t7,0]] Move.UP = some [[t0,t1,t2],[t3,t4,0],[t6,t7,t5]] := by
    unfold applyMove3
    rw [blankAt22 t0 t1 t2 t3 t4 t5 t6 t7 h0 h1 h2 h3 h4 h5 h6 h7]
    dsimp only [dirOf3]
    rw [if_pos (by decide)]
    rfl
  have s2 : applyMove3 [[t0,t1,t2],[t3,t4,0],[t6,t7,t5]] Move.LEFT = some [[t0,t1,t2],[t3,0,t4],[t6,t7,t5]] := by
    unfold applyMove3
    rw [blankAt12 t0 t1 t2 t3 t4 t6 t7 t5 h0 h1 h2 h3 h4 h6 h7 h5]
    dsimp only [dirOf3]
    rw [if_pos (by decide)]
    rfl
  have s3 : applyMove3 [[t0,t1,t2],[t3,0,t4],[t6,t7,t5]] Move.LEFT = some [[t0,t1,t2],[0,t3,t4],[t6,t7,t5]] := by
    unfold applyMove3
    rw [blankAt11 t0 t1 t2 t3 t4 t6 t7 t5 h0 h1 h2 h3 h4 h6 h7 h5]
    dsimp only [dirOf3]
    rw [if_pos (by decide)]
    rfl
  have s4 : applyMove3 [[t0,t1,t2],[0,t3,t4],[t6,t7,t5]] Move.UP = some [[0,t1,t2],[t0,t3,t4],[t6,t7,t5]] := by
    unfold applyMove3
    rw [blankAt10 t0 t1 t2 t3 t4 t6 t7 t5 h0 h1 h2 h3 h4 h6 h7 h5]
    dsimp only [dirOf3]
    rw [if_pos (by decide)]
    rfl
  have s5 : applyMove3 [[0,t1,t2],[t0,t3,t4],[t6,t7,t5]] Move.RIGHT = some [[t1,0,t2],[t0,t3,t4],[t6,t7,t5]] := by
    unfold applyMove3
    rw [blankAt00 t1 t2 t0 t3 t4 t6 t7 t5 h1 h2 h0 h3 h4 h6 h7 h5]
    dsimp only [dirOf3]
    rw [if_pos (by decide)]
    rfl
  have s6 : applyMove3 [[t1,0,t2],[t0,t3,t4],[t6,t7,t5]] Move.RIGHT = some [[t1,t2,0],[t0,t3,t4],[t6,t7,t5]] := by
    unfold applyMove3
    rw [blankAt01 t1 t2 t0 t3 t4 t6 t7 t5 h1 h2 h0 h3 h4 h6 h7 h5]
    dsimp only [dirOf3]
    rw [if_pos (by decide)]
    rfl
  have s7 : applyMove3 [[t1,t2,0],[t0,t3,t4],[t6,t7,t5]] Move.DOWN = some [[t1,t2,t4],[t0,t3,0],[t6,t7,t5]] := by
    unfold applyMove3
    rw [blankAt02 t1 t2 t0 t3 t4 t6 t7 t5 h1 h2 h0 h3 h4 h6 h7 h5]
    dsimp only [dirOf3]
    rw [if_pos (by decide)]
    rfl
  have s8 : applyMove3 [[t1,t2,t4],[t0,t3,0],[t6,t7,t5]] Move.LEFT = some [[t1,t2,t4],[t0,0,t3],[t6,t7,t5]] := by
    unfold applyMove3
    rw [blankAt12 t1 t2 t4 t0 t3 t6 t7 t5 h1 h2 h4 h0 h3 h6 h7 h5]
    dsimp only [dirOf3]
    rw [if_pos (by decide)]
    rfl
  have s9 : applyMove3 [[t1,t2,t4],[t0,0,t3],[t6,t7,t5]] Move.UP = some [[t1,0,t4],[t0,t2,t3],[t6,t7,t5]] := by
    unfold applyMove3
    rw [blankAt11 t1 t2 t4 t0 t3 t6 t7 t5 h1 h2 h4 h0 h3 h6 h7 h5]
    dsimp only [dirOf3]
    rw [if_pos (by decide)]
    rfl
  have s10 : applyMove3 [[t1,0,t4],[t0,t2,t3],[t6,t7,t5]] Move.LEFT = some [[0,t1,t4],[t0,t2,t3],[t6,t7,t5]] := by
    unfold applyMove3
    rw [blankAt01 t1 t4 t0 t2 t3 t6 t7 t5 h1 h4 h0 h2 h3 h6 h7 h5]
    dsimp only [dirOf3]
    rw [if_pos (by decide)]
    rfl
  have s11 : applyMove3 [[0,t1,t4],[t0,t2,t3],[t6,t7,t5]] Move.DOWN = some [[t0,t1,t4],[0,t2,t3],[t6,t7,t5]] := by
    unfold applyMove3
    rw [blankAt00 t1 t4 t0 t2 t3 t6 t7 t5 h1 h4 h0 h2 h3 h6 h7 h5]
    dsimp only [dirOf3]
    rw [if_pos (by decide)]
    rfl
  have s12 : applyMove3 [[t0,t1,t4],[0,t2,t3],[t6,t7,t5]] Move.RIGHT = some [[t0,t1,t4],[t2,0,t3],[t6,t7,t5]] := by
    unfold applyMove3
    rw [blankAt10 t0 t1 t4 t2 t3 t6 t7 t5 h0 h1 h4 h2 h3 h6 h7 h5]
    dsimp only [dirOf3]
    rw [if_pos (by decide)]
    rfl
  have s13 : applyMove3 [[t0,t1,t4],[t2,0,t3],[t6,t7,t5]] Move.RIGHT = some [[t0,t1,t4],[t2,t3,0],[t6,t7,t5]] := by
    unfold applyMove3
    rw [blankAt11 t0 t1 t4 t2 t3 t6 t7 t5 h0 h1 h4 h2 h3 h6 h7 h5]
    dsimp only [dirOf3]
    rw [if_pos (by decide)]
    rfl
  have s14 : applyMove3 [[t0,t1,t4],[t2,t3,0],[t6,t7,t5]] Move.DOWN = some [[t0,t1,t4],[t2,t3,t5],[t6,t7,0]] := by
    unfold applyMove3
    rw [blankAt12 t0 t1 t4 t2 t3 t6 t7 t5 h0 h1 h4 h2 h3 h6 h7 h5]
    dsimp only [dirOf3]
    rw [if_pos (by decide)]
    rfl
  simp only [applyChain3, s1, s2, s3, s4, s5, s6, s7, s8, s9, s10, s11, s12, s13, s14]

theorem rotGen3 (t0 t1 t2 t3 t4 t5 t6 t7 : Nat) (h0 : t0 ≠ 0) (h1 : t1 ≠ 0) (h2 : t2 ≠ 0) (h3 : t3 ≠ 0) (h4 : t4 ≠ 0) (h5 : t5 ≠ 0) (h6 : t6 ≠ 0) (h7 : t7 ≠ 0) :
    applyChain3 [[t0,t1,t2],[t3,t4,t5],[t6,t7,0]]
      [Move.UP, Move.LEFT, Move.LEFT, Move.DOWN, Move.RIGHT, Move.RIGHT, Move.UP, Move.LEFT, Move.DOWN, Move.LEFT, Move.UP, Move.RIGHT, Move.RIGHT, Move.DOWN] =
      some [[t0,t1,t2],[t5,t3,t4],[t6,t7,0]] := by
  have s1 : applyMove3 [[t0,t1,t2],[t3,t4,t5],[t6,t7,0]] Move.UP = some [[t0,t1,t2],[t3,t4,0],[t6,t7,t5]] := by
    unfold applyMove3
    rw [blankAt22 t0 t1 t2 t3 t4 t5 t6 t7 h0 h1 h2 h3 h4 h5 h6 h7]
    dsimp only [dirOf3]
    rw [if_pos (by decide)]
    rfl
  have s2 : applyMove3 [[t0,t1,t2],[t3,t4,0],[t6,t7,t5]] Move.LEFT = some [[t0,t1,t2],[t3,0,t4],[t6,t7,t5]] := by
    unfold applyMove3
    rw [blankAt12 t0 t1 t2 t3 t4 t6 t7 t5 h0 h1 h2 h3 h4 h6 h7 h5]
    dsimp only [dirOf3]
    rw [if_pos (by decide)]
    rfl
  have s3 : applyMove3 [[t0,t1,t2],[t3,0,t4],[t6,t7,t5]] Move.LEFT = some [[t0,t1,t2],[0,t3,t4],[t6,t7,t5]] := by
    unfold applyMove3
    rw [blankAt11 t0 t1 t2 t3 t4 t6 t7 t5 h0 h1 h2 h3 h4 h6 h7 h5]
    dsimp only [dirOf3]
    rw [if_pos (by decide)]
    rfl
  have s4 : applyMove3 [[t0,t1,t2],[0,t3,t4],[t6,t7,t5]] Move.DOWN = some [[t0,t1,t2],[t6,t3,t4],[0,t7,t5]] := by
    unfold applyMove3
    rw [blankAt10 t0 t1 t2 t3 t4 t6 t7 t5 h0 h1 h2 h3 h4 h6 h7 h5]
    dsimp only [dirOf3]
    rw [if_pos (by decide)]
    rfl
  have s5 : applyMove3 [[t0,t1,t2],[t6,t3,t4],[0,t7,t5]] Move.RIGHT = some [[t0,t1,t2],[t6,t3,t4],[t7,0,t5]] := by
    unfold applyMove3
    rw [blankAt20 t0 t1 t2 t6 t3 t4 t7 t5 h0 h1 h2 h6 h3 h4 h7 h5]
    dsimp only [dirOf3]
    rw [if_pos (by decide)]
    rfl
  have s6 : applyMove3 [[t0,t1,t2],[t6,t3,t4],[t7,0,t5]] Move.RIGHT = some [[t0,t1,t2],[t6,t3,t4],[t7,t5,0]] := by
    unfold applyMove3
    rw [blankAt21 t0 t1 t2 t6 t3 t4 t7 t5 h0 h1 h2 h6 h3 h4 h7 h5]
    dsimp only [dirOf3]
    rw [if_pos (by decide)]
    rfl
  have s7 : applyMove3 [[t0,t1,t2],[t6,t3,t4],[t7,t5,0]] Move.UP = some [[t0,t1,t2],[t6,t3,0],[t7,t5,t4]] := by
    unfold applyMove3
    rw [blankAt22 t0 t1 t2 t6 t3 t4 t7 t5 h0 h1 h2 h6 h3 h4 h7 h5]
    dsimp only [dirOf3]
    rw [if_pos (by decide)]
    rfl
  have s8 : applyMove3 [[t0,t1,t2],[t6,t3,0],[t7,t5,t4]] Move.LEFT = some [[t0,t1,t2],[t6,0,t3],[t7,t5,t4]] := by
    unfold applyMove3
    rw [blankAt12 t0 t1 t2 t6 t3 t7 t5 t4 h0 h1 h2 h6 h3 h7 h5 h4]
    dsimp only [dirOf3]
    rw [if_pos (by decide)]
    rfl
  have s9 : applyMove3 [[t0,t1,t2],[t6,0,t3],[t7,t5,t4]] Move.DOWN = some [[t0,t1,t2],[t6,t5,t3],[t7,0,t4]] := by
    unfold applyMove3
    rw [blankAt11 t0 t1 t2 t6 t3 t7 t5 t4 h0 h1 h2 h6 h3 h7 h5 h4]
    dsimp only [dirOf3]
    rw [if_pos (by decide)]
    rfl
  have s10 : applyMove3 [[t0,t1,t2],[t6,t5,t3],[t7,0,t4]] Move.LEFT = some [[t0,t1,t2],[t6,t5,t3],[0,t7,t4]] := by
    unfold applyMove3
    rw [blankAt21 t0 t1 t2 t6 t5 t3 t7 t4 h0 h1 h2 h6 h5 h3 h7 h4]
    dsimp only [dirOf3]
    rw [if_pos (by decide)]
    rfl
  have s11 : applyMove3 [[t0,t1,t2],[t6,t5,t3],[0,t7,t4]] Move.UP = some [[t0,t1,t2],[0,t5,t3],[t6,t7,t4]] := by
    unfold applyMove3
    rw [blankAt20 t0 t1 t2 t6 t5 t3 t7 t4 h0 h1 h2 h6 h5 h3 h7 h4]
    dsimp only [dirOf3]
    rw [if_pos (by decide)]
    rfl
  have s12 : applyMove3 [[t0,t1,t2],[0,t5,t3],[t6,t7,t4]] Move.RIGHT = some [[t0,t1,t2],[t5,0,t3],[t6,t7,t4]] := by
    unfold applyMove3
    rw [blankAt10 t0 t1 t2 t5 t3 t6 t7 t4 h0 h1 h2 h5 h3 h6 h7 h4]
    dsimp only [dirOf3]
    rw [if_pos (by decide)]
    rfl
  have s13 : applyMove3 [[t0,t1,t2],[t5,0,t3],[t6,t7,t4]] Move.RIGHT = some [[t0,t1,t2],[t5,t3,0],[t6,t7,t4]] := by
    unfold applyMove3
    rw [blankAt11 t0 t1 t2 t5 t3 t6 t7 t4 h0 h1 h2 h5 h3 h6 h7 h4]
    dsimp only [dirOf3]
    rw [if_pos (by decide)]
    rfl
  have s14 : applyMove3 [[t0,t1,t2],[t5,t3,0],[t6,t7,t4]] Move.DOWN = some [[t0,t1,t2],[t5,t3,t4],[t6,t7,0]] := by
    unfold applyMove3
    rw [blankAt12 t0 t1 t2 t5 t3 t6 t7 t4 h0 h1 h2 h5 h3 h6 h7 h4]
    dsimp only [dirOf3]
    rw [if_pos (by decide)]
    rfl
  simp only [applyChain3, s1, s2, s3, s4, s5, s6, s7, s8, s9, s10, s11, s12, s13, s14]

theorem rotGen4 (t0 t1 t2 t3 t4 t5 t6 t7 : Nat) (h0 : t0 ≠ 0) (h1 : t1 ≠ 0) (h2 : t2 ≠ 0) (h3 : t3 ≠ 0) (h4 : t4 ≠ 0) (h5 : t5 ≠ 0) (h6 : t6 ≠ 0) (h7 : t7 ≠ 0) :
    applyChain3 [[t0,t1,t2],[t3,t4,t5],[t6,t7,0]]
      [Move.UP, Move.LEFT, Move.DOWN, Move.LEFT, Move.UP, Move.RIGHT, Move.DOWN, Move.RIGHT, Move.UP, Move.LEFT, Move.LEFT, Move.DOWN, Move.RIGHT, Move.UP, Move.RIGHT, Move.DOWN] =
      some [[t0,t1,t2],[t3,t6,t4],[t5,t7,0]] := by
  have s1 : applyMove3 [[t0,t1,t2],[t3,t4,t5],[t6,t7,0]] Move.UP = some [[t0,t1,t2],[t3,t4,0],[t6,t7,t5]] := by
    unfold applyMove3
    rw [blankAt22 t0 t1 t2 t3 t4 t5 t6 t7 h0 h1 h2 h3 h4 h5 h6 h7]
    dsimp only [dirOf3]
    rw [if_pos (by decide)]
    rfl
  have s2 : applyMove3 [[t0,t1,t2],[t3,t4,0],[t6,t7,t5]] Move.LEFT = some [[t0,t1,t2],[t3,0,t4],[t6,t7,t5]] := by
    unfold applyMove3
    rw [blankAt12 t0 t1 t2 t3 t4 t6 t7 t5 h0 h1 h2 h3 h4 h6 h7 h5]
    dsimp only [dirOf3]
    rw [if_pos (by decide)]
    rfl
  have s3 : applyMove3 [[t0,t1,t2],[t3,0,t4],[t6,t7,t5]] Move.DOWN = some [[t0,t1,t2],[t3,t7,t4],[t6,0,t5]] := by
    unfold applyMove3
    rw [blankAt11 t0 t1 t2 t3 t4 t6 t7 t5 h0 h1 h2 h3 h4 h6 h7 h5]
    dsimp only [dirOf3]
    rw [if_pos (by decide)]
    rfl
  have s4 : applyMove3 [[t0,t1,t2],[t3,t7,t4],[t6,0,t5]] Move.LEFT = some [[t0,t1,t2],[t3,t7,t4],[0,t6,t5]] := by
    unfold applyMove3
    rw [blankAt21 t0 t1 t2 t3 t7 t4 t6 t5 h0 h1 h2 h3 h7 h4 h6 h5]
    dsimp only [dirOf3]
    rw [if_pos (by decide)]
    rfl
  have s5 : applyMove3 [[t0,t1,t2],[t3,t7,t4],[0,t6,t5]] Move.UP = some [[t0,t1,t2],[0,t7,t4],[t3,t6,t5]] := by
    unfold applyMove3
    rw [blankAt20 t0 t1 t2 t3 t7 t4 t6 t5 h0 h1 h2 h3 h7 h4 h6 h5]
    dsimp only [dirOf3]
    rw [if_pos (by decide)]
    rfl
  have s6 : applyMove3 [[t0,t1,t2],[0,t7,t4],[t3,t6,t5]] Move.RIGHT = some [[t0,t1,t2],[t7,0,t4],[t3,t6,t5]] := by
    unfold applyMove3
    rw [blankAt10 t0 t1 t2 t7 t4 t3 t6 t5 h0 h1 h2 h7 h4 h3 h6 h5]
    dsimp only [dirOf3]
    rw [if_pos (by decide)]
    rfl
  have s7 : applyMove3 [[t0,t1,t2],[t7,0,t4],[t3,t6,t5]] Move.DOWN = some [[t0,t1,t2],[t7,t6,t4],[t3,0,t5]] := by
    unfold applyMove3
    rw [blankAt11 t0 t1 t2 t7 t4 t3 t6 t5 h0 h1 h2 h7 h4 h3 h6 h5]
    dsimp only [dirOf3]
    rw [if_pos (by decide)]
    rfl
  have s8 : applyMove3 [[t0,t1,t2],[t7,t6,t4],[t3,0,t5]] Move.RIGHT = some [[t0,t1,t2],[t7,t6,t4],[t3,t5,0]] := by
    unfold applyMove3
    rw [blankAt21 t0 t1 t2 t7 t6 t4 t3 t5 h0 h1 h2 h7 h6 h4 h3 h5]
    dsimp only [dirOf3]
    rw [if_pos (by decide)]
    rfl
  have s9 : applyMove3 [[t0,t1,t2],[t7,t6,t4],[t3,t5,0]] Move.UP = some [[t0,t1,t2],[t7,t6,0],[t3,t5,t4]] := by
    unfold applyMove3
    rw [blankAt22 t0 t1 t2 t7 t6 t4 t3 t5 h0 h1 h2 h7 h6 h4 h3 h5]
    dsimp only [dirOf3]
    rw [if_pos (by decide)]
    rfl
  have s10 : applyMove3 [[t0,t1,t2],[t7,t6,0],[t3,t5,t4]] Move.LEFT = some [[t0,t1,t2],[t7,0,t6],[t3,t5,t4]] := by
    unfold applyMove3
    rw [blankAt12 t0 t1 t2 t7 t6 t3 t5 t4 h0 h1 h2 h7 h6 h3 h5 h4]
    dsimp only [dirOf3]
    rw [if_pos (by decide)]
    rfl
  have s11 : applyMove3 [[t0,t1,t2],[t7,0,t6],[t3,t5,t4]] Move.LEFT = some [[t0,t1,t2],[0,t7,t6],[t3,t5,t4]] := by
    unfold applyMove3
    rw [blankAt11 t0 t1 t2 t7 t6 t3 t5 t4 h0 h1 h2 h7 h6 h3 h5 h4]
    dsimp only [dirOf3]
    rw [if_pos (by decide)]
    rfl
  have s12 : applyMove3 [[t0,t1,t2],[0,t7,t6],[t3,t5,t4]] Move.DOWN = some [[t0,t1,t2],[t3,t7,t6],[0,t5,t4]] := by
    unfold applyMove3
    rw [blankAt10 t0 t1 t2 t7 t6 t3 t5 t4 h0 h1 h2 h7 h6 h3 h5 h4]
    dsimp only [dirOf3]
    rw [if_pos (by decide)]
    rfl
  have s13 : applyMove3 [[t0,t1,t2],[t3,t7,t6],[0,t5,t4]] Move.RIGHT = some [[t0,t1,t2],[t3,t7,t6],[t5,0,t4]] := by
    unfold applyMove3
    rw [blankAt20 t0 t1 t2 t3 t7 t6 t5 t4 h0 h1 h2 h3 h7 h6 h5 h4]
    dsimp only [dirOf3]
    rw [if_pos (by decide)]
    rfl
  have s14 : applyMove3 [[t0,t1,t2],[t3,t7,t6],[t5,0,t4]] Move.UP = some [[t0,t1,t2],[t3,0,t6],[t5,t7,t4]] := by
    unfold applyMove3
    rw [blankAt21 t0 t1 t2 t3 t7 t6 t5 t4 h0 h1 h2 h3 h7 h6 h5 h4]
    dsimp only [dirOf3]
    rw [if_pos (by decide)]
    rfl
  have s15 : applyMove3 [[t0,t1,t2],[t3,0,t6],[t5,t7,t4]] Move.RIGHT = some [[t0,t1,t2],[t3,t6,0],[t5,t7,t4]] := by
    unfold applyMove3
    rw [blankAt11 t0 t1 t2 t3 t6 t5 t7 t4 h0 h1 h2 h3 h6 h5 h7 h4]
    dsimp only [dirOf3]
    rw [if_pos (by decide)]
    rfl
  have s16 : applyMove3 [[t0,t1,t2],[t3,t6,0],[t5,t7,t4]] Move.DOWN = some [[t0,t1,t2],[t3,t6,t4],[t5,t7,0]] := by
    unfold applyMove3
    rw [blankAt12 t0 t1 t2 t3 t6 t5 t7 t4 h0 h1 h2 h3 h6 h5 h7 h4]
    dsimp only [dirOf3]
    rw [if_pos (by decide)]
    rfl
  simp only [applyChain3, s1, s2, s3, s4, s5, s6, s7, s8, s9, s10, s11, s12, s13, s14, s15, s16]

theorem rotGen5 (t0 t1 t2 t3 t4 t5 t6 t7 : Nat) (h0 : t0 ≠ 0) (h1 : t1 ≠ 0) (h2 : t2 ≠ 0) (h3 : t3 ≠ 0) (h4 : t4 ≠ 0) (h5 : t5 ≠ 0) (h6 : t6 ≠ 0) (h7 : t7 ≠ 0) :
    applyChain3 [[t0,t1,t2],[t3,t4,t5],[t6,t7,0]]
      [Move.LEFT, Move.LEFT, Move.UP, Move.RIGHT, Move.RIGHT, Move.DOWN, Move.LEFT, Move.UP, Move.LEFT, Move.DOWN, Move.RIGHT, Move.RIGHT] =
      some [[t0,t1,t2],[t3,t4,t7],[t5,t6,0]] := by
  have s1 : applyMove3 [[t0,t1,t2],[t3,t4,t5],[t6,t7,0]] Move.LEFT = some [[t0,t1,t2],[t3,t4,t5],[t6,0,t7]] := by
    unfold applyMove3
    rw [blankAt22 t0 t1 t2 t3 t4 t5 t6 t7 h0 h1 h2 h3 h4 h5 h6 h7]
    dsimp only [dirOf3]
    rw [if_pos (by decide)]
    rfl
  have s2 : applyMove3 [[t0,t1,t2],[t3,t4,t5],[t6,0,t7]] Move.LEFT = some [[t0,t1,t2],[t3,t4,t5],[0,t6,t7]] := by
    unfold applyMove3
    rw [blankAt21 t0 t1 t2 t3 t4 t5 t6 t7 h0 h1 h2 h3 h4 h5 h6 h7]
    dsimp only [dirOf3]
    rw [if_pos (by decide)]
    rfl
  have s3 : applyMove3 [[t0,t1,t2],[t3,t4,t5],[0,t6,t7]] Move.UP = some [[t0,t1,t2],[0,t4,t5],[t3,t6,t7]] := by
    unfold applyMove3
    rw [blankAt20 t0 t1 t2 t3 t4 t5 t6 t7 h0 h1 h2 h3 h4 h5 h6 h7]
    dsimp only [dirOf3]
    rw [if_pos (by decide)]
    rfl
  have s4 : applyMove3 [[t0,t1,t2],[0,t4,t5],[t3,t6,t7]] Move.RIGHT = some [[t0,t1,t2],[t4,0,t5],[t3,t6,t7]] := by
    unfold applyMove3
    rw [blankAt10 t0 t1 t2 t4 t5 t3 t6 t7 h0 h1 h2 h4 h5 h3 h6 h7]
    dsimp only [dirOf3]
    rw [if_pos (by decide)]
    rfl
  have s5 : applyMove3 [[t0,t1,t2],[t4,0,t5],[t3,t6,t7]] Move.RIGHT = some [[t0,t1,t2],[t4,t5,0],[t3,t6,t7]] := by
    unfold applyMove3
    rw [blankAt11 t0 t1 t2 t4 t5 t3 t6 t7 h0 h1 h2 h4 h5 h3 h6 h7]
    dsimp only [dirOf3]
    rw [if_pos (by decide)]
    rfl
  have s6 : applyMove3 [[t0,t1,t2],[t4,t5,0],[t3,t6,t7]] Move.DOWN = some [[t0,t1,t2],[t4,t5,t7],[t3,t6,0]] := by
    unfold applyMove3
    rw [blankAt12 t0 t1 t2 t4 t5 t3 t6 t7 h0 h1 h2 h4 h5 h3 h6 h7]
    dsimp only [dirOf3]
    rw [if_pos (by decide)]
    rfl
  have s7 : applyMove3 [[t0,t1,t2],[t4,t5,t7],[t3,t6,0]] Move.LEFT = some [[t0,t1,t2],[t4,t5,t7],[t3,0,t6]] := by
    unfold applyMove3
    rw [blankAt22 t0 t1 t2 t4 t5 t7 t3 t6 h0 h1 h2 h4 h5 h7 h3 h6]
    dsimp only [dirOf3]
    rw [if_pos (by decide)]
    rfl
  have s8 : applyMove3 [[t0,t1,t2],[t4,t5,t7],[t3,0,t6]] Move.UP = some [[t0,t1,t2],[t4,0,t7],[t3,t5,t6]] := by
    unfold applyMove3
    rw [blankAt21 t0 t1 t2 t4 t5 t7 t3 t6 h0 h1 h2 h4 h5 h7 h3 h6]
    dsimp only [dirOf3]
    rw [if_pos (by decide)]
    rfl
  have s9 : applyMove3 [[t0,t1,t2],[t4,0,t7],[t3,t5,t6]] Move.LEFT = some [[t0,t1,t2],[0,t4,t7],[t3,t5,t6]] := by
    unfold applyMove3
    rw [blankAt11 t0 t1 t2 t4 t7 t3 t5 t6 h0 h1 h2 h4 h7 h3 h5 h6]
    dsimp only [dirOf3]
    rw [if_pos (by decide)]
    rfl
  have s10 : applyMove3 [[t0,t1,t2],[0,t4,t7],[t3,t5,t6]] Move.DOWN = some [[t0,t1,t2],[t3,t4,t7],[0,t5,t6]] := by
    unfold applyMove3
    rw [blankAt10 t0 t1 t2 t4 t7 t3 t5 t6 h0 h1 h2 h4 h7 h3 h5 h6]
    dsimp only [dirOf3]
    rw [if_pos (by decide)]
    rfl
  have s11 : applyMove3 [[t0,t1,t2],[t3,t4,t7],[0,t5,t6]] Move.RIGHT = some [[t0,t1,t2],[t3,t4,t7],[t5,0,t6]] := by
    unfold applyMove3
    rw [blankAt20 t0 t1 t2 t3 t4 t7 t5 t6 h0 h1 h2 h3 h4 h7 h5 h6]
    dsimp only [dirOf3]
    rw [if_pos (by decide)]
    rfl
  have s12 : applyMove3 [[t0,t1,t2],[t3,t4,t7],[t5,0,t6]] Move.RIGHT = some [[t0,t1,t2],[t3,t4,t7],[t5,t6,0]] := by
    unfold applyMove3
    rw [blankAt21 t0 t1 t2 t3 t4 t7 t5 t6 h0 h1 h2 h3 h4 h7 h5 h6]
    dsimp only [dirOf3]
    rw [if_pos (by decide)]
    rfl
  simp only [applyChain3, s1, s2, s3, s4, s5, s6, s7, s8, s9, s10, s11, s12]

/-- Rotate the three adjacent entries at positions `i, i+1, i+2` of a list:
`x, y, z` becomes `z, x, y`. -/
def rot3 : Nat → List Nat → List Nat
  | 0, x :: y :: z :: r => z :: x :: y :: r
  | n + 1, a :: l => a :: rot3 n l
  | _, l => l

/-- One in-place rotation of three adjacent entries somewhere in the list. -/
def Step3 (l l' : List Nat) : Prop := ∃ i, i + 3 ≤ l.length ∧ l' = rot3 i l

/-- Finitely many adjacent three-rotations. -/
def Star3 : List Nat → List Nat → Prop := Relation.ReflTransGen Step3

theorem rot3_perm : ∀ (i : Nat) (l : List Nat), i + 3 ≤ l.length → (rot3 i l).Perm l := by
  intro i
  induction i with
  | zero =>
    intro l h
    match l with
    | x :: y :: z :: r =>
      show (z :: x :: y :: r).Perm (x :: y :: z :: r)
      exact (List.Perm.swap x z (y :: r)).trans ((List.Perm.swap y z r).cons x)
  | succ n ih =>
    intro l h
    match l with
    | a :: l' =>
      show (a :: rot3 n l').Perm (a :: l')
      exact (ih l' (by simpa using h)).cons a

theorem rot3_parity : ∀ (i : Nat) (l : List Nat), l.Nodup → i + 3 ≤ l.length →
    invCount (rot3 i l) % 2 = invCount l % 2 := by
  intro i
  induction i with
  | zero =>
    intro l hnd h
    match l with
    | x :: y :: z :: r =>
      obtain ⟨hx, hnd1⟩ := List.nodup_cons.mp hnd
      obtain ⟨hy, hnd2⟩ := List.nodup_cons.mp hnd1
      have hxy : x ≠ y := fun hc => hx (hc ▸ List.mem_cons_self _ _)
      have hxz : x ≠ z := fun hc => hx (List.mem_cons_of_mem _ (hc ▸ List.mem_cons_self _ _))
      have hyz : y ≠ z := fun hc => hy (hc ▸ List.mem_cons_self _ _)
      show invCount (z :: x :: y :: r) % 2 = invCount (x :: y :: z :: r) % 2
      simp only [invCount, List.countP_cons, decide_eq_true_eq]
      split_ifs <;> omega
  | succ n ih =>
    intro l hnd h
    match l with
    | a :: l' =>
      show invCount (a :: rot3 n l') % 2 = invCount (a :: l') % 2
      have hnd' := (List.nodup_cons.mp hnd).2
      have hlen : n + 3 ≤ l'.length := by simpa using h
      simp only [invCount]
      rw [(rot3_perm n l' hlen).countP_eq]
      have := ih l' hnd' hlen
      omega

theorem step3_perm {l l' : List Nat} (h : Step3 l l') : l'.Perm l := by
  obtain ⟨i, hv, rfl⟩ := h
  exact rot3_perm i l hv

theorem step3_parity {l l' : List Nat} (hnd : l.Nodup) (h : Step3 l l') :
    invCount l' % 2 = invCount l % 2 := by
  obtain ⟨i, hv, rfl⟩ := h
  exact rot3_parity i l hnd hv

theorem star3_perm {l l' : List Nat} (h : Star3 l l') : l'.Perm l := by
  induction h with
  | refl => exact List.Perm.refl _
  | tail _ hstep ih => exact (step3_perm hstep).trans ih

theorem star3_parity {l l' : List Nat} (hnd : l.Nodup) (h : Star3 l l') :
    invCount l' % 2 = invCount l % 2 := by
  induction h with
  | refl => rfl
  | tail hstar hstep ih =>
    rename_i m l2
    have hndm : m.Nodup := ((star3_perm hstar).nodup_iff).mpr hnd
    rw [step3_parity hndm hstep, ih]

theorem rot3_append : ∀ (u : List Nat) (i : Nat) (l : List Nat),
    rot3 (u.length + i) (u ++ l) = u ++ rot3 i l := by
  intro u
  induction u with
  | nil => intro i l; rw [List.length_nil, Nat.zero_add]; rfl
  | cons a u' ih =>
    intro i l
    have h1 : (a :: u').length + i = (u'.length + i) + 1 := by
      rw [List.length_cons]; omega
    rw [h1]
    show a :: rot3 (u'.length + i) (u' ++ l) = a :: (u' ++ rot3 i l)
    rw [ih i l]

theorem step3_append {l l' : List Nat} (s : List Nat) (h : Step3 l l') :
    Step3 (l ++ s) (l' ++ s) := by
  obtain ⟨i, hv, rfl⟩ := h
  refine ⟨i, by rw [List.length_append]; omega, ?_⟩
  obtain ⟨u, rest, rfl, hu⟩ : ∃ u rest, l = u ++ rest ∧ u.length = i :=
    ⟨l.take i, l.drop i, (List.take_append_drop i l).symm, List.length_take_of_le (by omega)⟩
  match rest, (by subst hu; rw [List.length_append] at hv; omega : 3 ≤ rest.length) with
  | x :: y :: z :: r, _ =>
    subst hu
    rw [List.append_assoc]
    have e1 : rot3 u.length (u ++ (x :: y :: z :: r)) = u ++ (z :: x :: y :: r) := by
      have := rot3_append u 0 (x :: y :: z :: r)
      rwa [Nat.add_zero] at this
    have e2 : rot3 u.length (u ++ (x :: y :: z :: (r ++ s))) = u ++ (z :: x :: y :: (r ++ s)) := by
      have := rot3_append u 0 (x :: y :: z :: (r ++ s))
      rwa [Nat.add_zero] at this
    rw [e1, show x :: y :: z :: r ++ s = x :: y :: z :: (r ++ s) from rfl, e2]
    simp [List.append_assoc]

theorem star3_append {l l' : List Nat} (s : List Nat) (h : Star3 l l') :
    Star3 (l ++ s) (l' ++ s) := by
  induction h with
  | refl => exact Relation.ReflTransGen.refl
  | tail _ hstep ih => exact ih.tail (step3_append s hstep)

theorem crossInv_singleton (L : List Nat) (b : Nat) :
    crossInv L [b] = L.countP (fun x => decide (b < x)) := by
  induction L with
  | nil => rfl
  | cons x xs ih =>
    simp only [crossInv, List.map_cons, List.sum_cons, List.countP_cons,
      List.countP_nil] at ih ⊢
    rw [ih]
    omega

theorem push_back : ∀ (k : Nat) (u v : List Nat) (a : Nat), v.length ≤ k →
    3 ≤ (u ++ a :: v).length → ∃ w, Star3 (u ++ a :: v) (w ++ [a]) := by
  intro k
  induction k with
  | zero =>
    intro u v a hv _
    have : v = [] := List.eq_nil_of_length_eq_zero (by omega)
    subst this
    exact ⟨u, Relation.ReflTransGen.refl⟩
  | succ k ih =>
    intro u v a hv hlen
    match v, hv with
    | [], _ => exact ⟨u, Relation.ReflTransGen.refl⟩
    | [z], _ =>
      rcases List.eq_nil_or_concat u with rfl | ⟨u₀, x, rfl⟩
      · exfalso
        simp at hlen
      · rw [List.concat_eq_append]
        refine ⟨u₀ ++ [z, x], Relation.ReflTransGen.single ⟨u₀.length, ?_, ?_⟩⟩
        · simp [List.length_append]
        · have heq : (u₀ ++ [x]) ++ a :: [z] = u₀ ++ [x, a, z] := by
            simp [List.append_assoc]
          rw [heq]
          have e := rot3_append u₀ 0 [x, a, z]
          rw [Nat.add_zero] at e
          rw [e]
          show (u₀ ++ [z, x]) ++ [a] = u₀ ++ [z, x, a]
          simp [List.append_assoc]
    | z :: z' :: v'', hv2 =>
      have hstep : Step3 (u ++ a :: z :: z' :: v'') ((u ++ [z']) ++ a :: z :: v'') := by
        refine ⟨u.length, by simp [List.length_append], ?_⟩
        have e := rot3_append u 0 (a :: z :: z' :: v'')
        rw [Nat.add_zero] at e
        rw [e]
        show (u ++ [z']) ++ a :: z :: v'' = u ++ (z' :: a :: z :: v'')
        simp [List.append_assoc]
      obtain ⟨w, hw⟩ := ih (u ++ [z']) (z :: v'') a (by simp at hv2 ⊢; omega)
        (by simp [List.length_append]; omega)
      exact ⟨w, Relation.ReflTransGen.head hstep hw⟩

theorem sort_two {l l' : List Nat} (hnd : l.Nodup) (hp : l.Perm l')
    (hpar : invCount l % 2 = invCount l' % 2) (hlen : l.length ≤ 2) : l = l' := by
  match l, hnd, hp, hpar, hlen with
  | [], _, hp, _, _ => exact List.Perm.nil_eq hp
  | [x], _, hp, _, _ =>
    have h2 := hp.symm
    rw [List.perm_singleton] at h2
    exact h2.symm
  | [x, y], hnd, hp, hpar, _ =>
    have hxy : x ≠ y := by
      intro hc
      rw [List.nodup_cons] at hnd
      exact hnd.1 (hc ▸ List.mem_cons_self _ _)
    have hlen2 : l'.length = 2 := by
      have := hp.length_eq
      simpa using this.symm
    obtain ⟨c, d, rfl⟩ := List.length_eq_two.mp hlen2
    have hxm : x ∈ [c, d] := hp.subset (List.mem_cons_self _ _)
    rcases List.mem_cons.mp hxm with rfl | hxd
    · have h2 := (List.perm_cons x).mp hp
      rw [List.perm_singleton] at h2
      rw [h2]
    · have hxd' : x = d := by simpa using hxd
      subst hxd'
      have hym : y ∈ [c, x] := hp.subset (List.mem_cons_of_mem _ (List.mem_cons_self _ _))
      have hyc : y = c := by
        rcases List.mem_cons.mp hym with h | h
        · exact h
        · have h3 : y = x := by simpa using h
          exact absurd h3.symm hxy
      subst hyc
      exfalso
      rcases Nat.lt_trichotomy x y with h | h | h
      · have h1 : ¬ (y < x) := by omega
        have e1 : invCount [x, y] = 0 := by
          simp [invCount, List.countP_cons, List.countP_nil, h1]
        have e2 : invCount [y, x] = 1 := by
          simp [invCount, List.countP_cons, List.countP_nil, h]
        rw [e1, e2] at hpar
        simp at hpar
      · exact hxy h
      · have h1 : ¬ (x < y) := by omega
        have e1 : invCount [x, y] = 1 := by
          simp [invCount, List.countP_cons, List.countP_nil, h]
        have e2 : invCount [y, x] = 0 := by
          simp [invCount, List.countP_cons, List.countP_nil, h1]
        rw [e1, e2] at hpar
        simp at hpar

theorem sort3 : ∀ (n : Nat) (l l' : List Nat), l.length ≤ n → l.Nodup → l.Perm l' →
    invCount l % 2 = invCount l' % 2 → Star3 l l' := by
  intro n
  induction n with
  | zero =>
    intro l l' hlen hnd hp hpar
    have he := sort_two hnd hp hpar (by omega)
    rw [he]
    exact Relation.ReflTransGen.refl
  | succ n ih =>
    intro l l' hlen hnd hp hpar
    by_cases hsmall : l.length ≤ 2
    · have he := sort_two hnd hp hpar hsmall
      rw [he]
      exact Relation.ReflTransGen.refl
    · push_neg at hsmall
      rcases List.eq_nil_or_concat l' with rfl | ⟨l'', bb, rfl⟩
      · have hl0 : l.length = 0 := by simpa using hp.length_eq
        omega
      · rw [List.concat_eq_append] at hp hpar ⊢
        have hbbmem : bb ∈ l :=
          hp.mem_iff.mpr (List.mem_append_right _ (List.mem_cons_self _ _))
        obtain ⟨u, v, rfl⟩ := List.append_of_mem hbbmem
        obtain ⟨w, hw⟩ := push_back v.length u v bb le_rfl (by
          rw [List.length_append] at hsmall ⊢
          simp at hsmall ⊢
          omega)
        have hwperm : (w ++ [bb]).Perm (u ++ bb :: v) := star3_perm hw
        have hp2 : (w ++ [bb]).Perm (l'' ++ [bb]) := hwperm.trans hp
        have hwl'' : w.Perm l'' := (List.perm_append_right_iff _).mp hp2
        have hndw : (w ++ [bb]).Nodup := (hwperm.nodup_iff).mpr hnd
        have hpar1 : invCount (w ++ [bb]) % 2 = invCount (u ++ bb :: v) % 2 :=
          star3_parity hnd hw
        have e1 : invCount (w ++ [bb]) = invCount w + crossInv w [bb] := by
          rw [invCount_append]
          simp [invCount]
        have e2 : invCount (l'' ++ [bb]) = invCount l'' + crossInv l'' [bb] := by
          rw [invCount_append]
          simp [invCount]
        have ecross : crossInv w [bb] = crossInv l'' [bb] := by
          rw [crossInv_singleton, crossInv_singleton, hwl''.countP_eq]
        have hpar2 : invCount w % 2 = invCount l'' % 2 := by omega
        have hlenw : w.length ≤ n := by
          have h1 := hwperm.length_eq
          rw [List.length_append, List.length_append] at h1
          simp at h1
          rw [List.length_append] at hlen
          simp at hlen
          omega
        have hndw2 : w.Nodup := (List.nodup_append.mp hndw).1
        have hstar2 : Star3 w l'' := ih w l'' hlenw hndw2 hwl'' hpar2
        exact hw.trans (star3_append [bb] hstar2)

/-- Rebuild a corner-blank board from its first eight row-major tiles. -/
def fromTiles (p : List Nat) : Board :=
  [[p.getD 0 0, p.getD 1 0, p.getD 2 0],
   [p.getD 3 0, p.getD 4 0, p.getD 5 0],
   [p.getD 6 0, p.getD 7 0, 0]]

/-- The goal board's tile list. -/
def goalTiles : List Nat := [1, 2, 3, 4, 5, 6, 7, 8]

theorem list_len8 {p : List Nat} (h : p.length = 8) :
    ∃ a b c d e f g h8, p = [a, b, c, d, e, f, g, h8] := by
  match p, h with
  | [], h => exact absurd h (by simp only [List.length_nil]; omega)
  | [a], h => exact absurd h (by simp only [List.length_cons, List.length_nil]; omega)
  | [a,b], h => exact absurd h (by simp only [List.length_cons, List.length_nil]; omega)
  | [a,b,c], h => exact absurd h (by simp only [List.length_cons, List.length_nil]; omega)
  | [a,b,c,d], h => exact absurd h (by simp only [List.length_cons, List.length_nil]; omega)
  | [a,b,c,d,e], h => exact absurd h (by simp only [List.length_cons, List.length_nil]; omega)
  | [a,b,c,d,e,f], h =>
    exact absurd h (by simp only [List.length_cons, List.length_nil]; omega)
  | [a,b,c,d,e,f,g], h =>
    exact absurd h (by simp only [List.length_cons, List.length_nil]; omega)
  | [a,b,c,d,e,f,g,h8], _ => exact ⟨a, b, c, d, e, f, g, h8, rfl⟩
  | a::b::c::d::e::f::g::h8::x::rest, h =>
    exact absurd h (by simp only [List.length_cons]; omega)

theorem realize_step {p q : List Nat} (hnz : ∀ t ∈ p, t ≠ 0) (hlen : p.length = 8)
    (h : Step3 p q) : ∃ nn, reachF3 nn (fromTiles p) (fromTiles q) := by
  obtain ⟨i, hv, rfl⟩ := h
  have hi : i ≤ 5 := by omega
  obtain ⟨t0, t1, t2, t3, t4, t5, t6, t7, rfl⟩ := list_len8 hlen
  have h0 : t0 ≠ 0 := hnz t0 (by simp)
  have h1 : t1 ≠ 0 := hnz t1 (by simp)
  have h2 : t2 ≠ 0 := hnz t2 (by simp)
  have h3 : t3 ≠ 0 := hnz t3 (by simp)
  have h4 : t4 ≠ 0 := hnz t4 (by simp)
  have h5 : t5 ≠ 0 := hnz t5 (by simp)
  have h6 : t6 ≠ 0 := hnz t6 (by simp)
  have h7 : t7 ≠ 0 := hnz t7 (by simp)
  interval_cases i
  · exact ⟨16, reachF3_of_applyChain3 _ _ _
      (rotGen0 t0 t1 t2 t3 t4 t5 t6 t7 h0 h1 h2 h3 h4 h5 h6 h7)⟩
  · exact ⟨18, reachF3_of_applyChain3 _ _ _
      (rotGen1 t0 t1 t2 t3 t4 t5 t6 t7 h0 h1 h2 h3 h4 h5 h6 h7)⟩
  · exact ⟨14, reachF3_of_applyChain3 _ _ _
      (rotGen2 t0 t1 t2 t3 t4 t5 t6 t7 h0 h1 h2 h3 h4 h5 h6 h7)⟩
  · exact ⟨14, reachF3_of_applyChain3 _ _ _
      (rotGen3 t0 t1 t2 t3 t4 t5 t6 t7 h0 h1 h2 h3 h4 h5 h6 h7)⟩
  · exact ⟨16, reachF3_of_applyChain3 _ _ _
      (rotGen4 t0 t1 t2 t3 t4 t5 t6 t7 h0 h1 h2 h3 h4 h5 h6 h7)⟩
  · exact ⟨12, reachF3_of_applyChain3 _ _ _
      (rotGen5 t0 t1 t2 t3 t4 t5 t6 t7 h0 h1 h2 h3 h4 h5 h6 h7)⟩

theorem realize_star {p q : List Nat} (hq : Star3 p q) (hp : p.Perm goalTiles) :
    ∃ nn, reachF3 nn (fromTiles p) (fromTiles q) := by
  induction hq with
  | refl => exact ⟨0, rfl⟩
  | tail hstar hstep ih =>
    obtain ⟨n1, hr1⟩ := ih
    rename_i m q2
    have hmperm : m.Perm goalTiles := (star3_perm hstar).trans hp
    have hmnz : ∀ t ∈ m, t ≠ 0 := by
      intro t ht
      have hmem : t ∈ goalTiles := hmperm.subset ht
      rcases (by simpa [goalTiles] using hmem :
        t = 1 ∨ t = 2 ∨ t = 3 ∨ t = 4 ∨ t = 5 ∨ t = 6 ∨ t = 7 ∨ t = 8) with
        rfl | rfl | rfl | rfl | rfl | rfl | rfl | rfl <;> decide
    have hmlen : m.length = 8 := by rw [hmperm.length_eq]; rfl
    obtain ⟨n2, hr2⟩ := realize_step hmnz hmlen hstep
    exact ⟨n1 + n2, reachF3_trans n1 hr1 hr2⟩
theorem shape3_cases {b : Board} (hsh : ShapeN 3 3 b) :
    ∃ e0 e1 e2 e3 e4 e5 e6 e7 e8,
      b = [[e0, e1, e2], [e3, e4, e5], [e6, e7, e8]] := by
  have hb3 : b.length = 3 := shape_length hsh
  obtain ⟨r0, r1, r2, rfl⟩ := List.length_eq_three.mp hb3
  have hr0 : r0.length = 3 := by
    have := shape_row hsh (show 0 < 3 by omega)
    simpa using this
  have hr1 : r1.length = 3 := by
    have := shape_row hsh (show 1 < 3 by omega)
    simpa using this
  have hr2 : r2.length = 3 := by
    have := shape_row hsh (show 2 < 3 by omega)
    simpa using this
  obtain ⟨e0, e1, e2, rfl⟩ := List.length_eq_three.mp hr0
  obtain ⟨e3, e4, e5, rfl⟩ := List.length_eq_three.mp hr1
  obtain ⟨e6, e7, e8, rfl⟩ := List.length_eq_three.mp hr2
  exact ⟨e0, e1, e2, e3, e4, e5, e6, e7, e8, rfl⟩

theorem nodup_ne_of_ne_idx (l : List Nat) (hnd : l.Nodup) (i j : Nat)
    (hi : i < l.length) (hj : j < l.length) (hij : i ≠ j) : l.get ⟨i, hi⟩ ≠ l.get ⟨j, hj⟩ :=
  fun he => hij (congrArg Fin.val ((List.Nodup.get_inj_iff hnd).mp he))

theorem blankpos_unique {b : Board} (hsh : ShapeN 3 3 b)
    (hperm : b.flatten.Perm (List.range 9)) {x y : Nat} (hx : x < 3) (hy : y < 3)
    (hc : cell b x y = 0) : getBlankPos3 b = some (x, y) := by
  obtain ⟨e0, e1, e2, e3, e4, e5, e6, e7, e8, rfl⟩ := shape3_cases hsh
  have hnd : ([e0, e1, e2, e3, e4, e5, e6, e7, e8] : List Nat).Nodup := by
    have hfl : List.flatten [[e0, e1, e2], [e3, e4, e5], [e6, e7, e8]] =
        [e0, e1, e2, e3, e4, e5, e6, e7, e8] := by simp
    rw [hfl] at hperm
    exact hperm.nodup_iff.mpr (List.nodup_range 9)
  interval_cases x <;> interval_cases y
  · have hck : e0 = 0 := hc
    rw [hck]
    exact blankAt00 e1 e2 e3 e4 e5 e6 e7 e8
      (fun hz => nodup_ne_of_ne_idx [e0, e1, e2, e3, e4, e5, e6, e7, e8] hnd 1 0 (by simp) (by simp) (by decide) (hz.trans hc.symm))
      (fun hz => nodup_ne_of_ne_idx [e0, e1, e2, e3, e4, e5, e6, e7, e8] hnd 2 0 (by simp) (by simp) (by decide) (hz.trans hc.symm))
      (fun hz => nodup_ne_of_ne_idx [e0, e1, e2, e3, e4, e5, e6, e7, e8] hnd 3 0 (by simp) (by simp) (by decide) (hz.trans hc.symm))
      (fun hz => nodup_ne_of_ne_idx [e0, e1, e2, e3, e4, e5, e6, e7, e8] hnd 4 0 (by simp) (by simp) (by decide) (hz.trans hc.symm))
      (fun hz => nodup_ne_of_ne_idx [e0, e1, e2, e3, e4, e5, e6, e7, e8] hnd 5 0 (by simp) (by simp) (by decide) (hz.trans hc.symm))
      (fun hz => nodup_ne_of_ne_idx [e0, e1, e2, e3, e4, e5, e6, e7, e8] hnd 6 0 (by simp) (by simp) (by decide) (hz.trans hc.symm))
      (fun hz => nodup_ne_of_ne_idx [e0, e1, e2, e3, e4, e5, e6, e7, e8] hnd 7 0 (by simp) (by simp) (by decide) (hz.trans hc.symm))
      (fun hz => nodup_ne_of_ne_idx [e0, e1, e2, e3, e4, e5, e6, e7, e8] hnd 8 0 (by simp) (by simp) (by decide) (hz.trans hc.symm))
  · have hck : e1 = 0 := hc
    rw [hck]
    exact blankAt01 e0 e2 e3 e4 e5 e6 e7 e8
      (fun hz => nodup_ne_of_ne_idx [e0, e1, e2, e3, e4, e5, e6, e7, e8] hnd 0 1 (by simp) (by simp) (by decide) (hz.trans hc.symm))
      (fun hz => nodup_ne_of_ne_idx [e0, e1, e2, e3, e4, e5, e6, e7, e8] hnd 2 1 (by simp) (by simp) (by decide) (hz.trans hc.symm))
      (fun hz => nodup_ne_of_ne_idx [e0, e1, e2, e3, e4, e5, e6, e7, e8] hnd 3 1 (by simp) (by simp) (by decide) (hz.trans hc.symm))
      (fun hz => nodup_ne_of_ne_idx [e0, e1, e2, e3, e4, e5, e6, e7, e8] hnd 4 1 (by simp) (by simp) (by decide) (hz.trans hc.symm))
      (fun hz => nodup_ne_of_ne_idx [e0, e1, e2, e3, e4, e5, e6, e7, e8] hnd 5 1 (by simp) (by simp) (by decide) (hz.trans hc.symm))
      (fun hz => nodup_ne_of_ne_idx [e0, e1, e2, e3, e4, e5, e6, e7, e8] hnd 6 1 (by simp) (by simp) (by decide) (hz.trans hc.symm))
      (fun hz => nodup_ne_of_ne_idx [e0, e1, e2, e3, e4, e5, e6, e7, e8] hnd 7 1 (by simp) (by simp) (by decide) (hz.trans hc.symm))
      (fun hz => nodup_ne_of_ne_idx [e0, e1, e2, e3, e4, e5, e6, e7, e8] hnd 8 1 (by simp) (by simp) (by decide) (hz.trans hc.symm))
  · have hck : e2 = 0 := hc
    rw [hck]
    exact blankAt02 e0 e1 e3 e4 e5 e6 e7 e8
      (fun hz => nodup_ne_of_ne_idx [e0, e1, e2, e3, e4, e5, e6, e7, e8] hnd 0 2 (by simp) (by simp) (by decide) (hz.trans hc.symm))
      (fun hz => nodup_ne_of_ne_idx [e0, e1, e2, e3, e4, e5, e6, e7, e8] hnd 1 2 (by simp) (by simp) (by decide) (hz.trans hc.symm))
      (fun hz => nodup_ne_of_ne_idx [e0, e1, e2, e3, e4, e5, e6, e7, e8] hnd 3 2 (by simp) (by simp) (by decide) (hz.trans hc.symm))
      (fun hz => nodup_ne_of_ne_idx [e0, e1, e2, e3, e4, e5, e6, e7, e8] hnd 4 2 (by simp) (by simp) (by decide) (hz.trans hc.symm))
      (fun hz => nodup_ne_of_ne_idx [e0, e1, e2, e3, e4, e5, e6, e7, e8] hnd 5 2 (by simp) (by simp) (by decide) (hz.trans hc.symm))
      (fun hz => nodup_ne_of_ne_idx [e0, e1, e2, e3, e4, e5, e6, e7, e8] hnd 6 2 (by simp) (by simp) (by decide) (hz.trans hc.symm))
      (fun hz => nodup_ne_of_ne_idx [e0, e1, e2, e3, e4, e5, e6, e7, e8] hnd 7 2 (by simp) (by simp) (by decide) (hz.trans hc.symm))
      (fun hz => nodup_ne_of_ne_idx [e0, e1, e2, e3, e4, e5, e6, e7, e8] hnd 8 2 (by simp) (by simp) (by decide) (hz.trans hc.symm))
  · have hck : e3 = 0 := hc
    rw [hck]
    exact blankAt10 e0 e1 e2 e4 e5 e6 e7 e8
      (fun hz => nodup_ne_of_ne_idx [e0, e1, e2, e3, e4, e5, e6, e7, e8] hnd 0 3 (by simp) (by simp) (by decide) (hz.trans hc.symm))
      (fun hz => nodup_ne_of_ne_idx [e0, e1, e2, e3, e4, e5, e6, e7, e8] hnd 1 3 (by simp) (by simp) (by decide) (hz.trans hc.symm))
      (fun hz => nodup_ne_of_ne_idx [e0, e1, e2, e3, e4, e5, e6, e7, e8] hnd 2 3 (by simp) (by simp) (by decide) (hz.trans hc.symm))
      (fun hz => nodup_ne_of_ne_idx [e0, e1, e2, e3, e4, e5, e6, e7, e8] hnd 4 3 (by simp) (by simp) (by decide) (hz.trans hc.symm))
      (fun hz => nodup_ne_of_ne_idx [e0, e1, e2, e3, e4, e5, e6, e7, e8] hnd 5 3 (by simp) (by simp) (by decide) (hz.trans hc.symm))
      (fun hz => nodup_ne_of_ne_idx [e0, e1, e2, e3, e4, e5, e6, e7, e8] hnd 6 3 (by simp) (by simp) (by decide) (hz.trans hc.symm))
      (fun hz => nodup_ne_of_ne_idx [e0, e1, e2, e3, e4, e5, e6, e7, e8] hnd 7 3 (by simp) (by simp) (by decide) (hz.trans hc.symm))
      (fun hz => nodup_ne_of_ne_idx [e0, e1, e2, e3, e4, e5, e6, e7, e8] hnd 8 3 (by simp) (by simp) (by decide) (hz.trans hc.symm))
  · have hck : e4 = 0 := hc
    rw [hck]
    exact blankAt11 e0 e1 e2 e3 e5 e6 e7 e8
      (fun hz => nodup_ne_of_ne_idx [e0, e1, e2, e3, e4, e5, e6, e7, e8] hnd 0 4 (by simp) (by simp) (by decide) (hz.trans hc.symm))
      (fun hz => nodup_ne_of_ne_idx [e0, e1, e2, e3, e4, e5, e6, e7, e8] hnd 1 4 (by simp) (by simp) (by decide) (hz.trans hc.symm))
      (fun hz => nodup_ne_of_ne_idx [e0, e1, e2, e3, e4, e5, e6, e7, e8] hnd 2 4 (by simp) (by simp) (by decide) (hz.trans hc.symm))
      (fun hz => nodup_ne_of_ne_idx [e0, e1, e2, e3, e4, e5, e6, e7, e8] hnd 3 4 (by simp) (by simp) (by decide) (hz.trans hc.symm))
      (fun hz => nodup_ne_of_ne_idx [e0, e1, e2, e3, e4, e5, e6, e7, e8] hnd 5 4 (by simp) (by simp) (by decide) (hz.trans hc.symm))
      (fun hz => nodup_ne_of_ne_idx [e0, e1, e2, e3, e4, e5, e6, e7, e8] hnd 6 4 (by simp) (by simp) (by decide) (hz.trans hc.symm))
      (fun hz => nodup_ne_of_ne_idx [e0, e1, e2, e3, e4, e5, e6, e7, e8] hnd 7 4 (by simp) (by simp) (by decide) (hz.trans hc.symm))
      (fun hz => nodup_ne_of_ne_idx [e0, e1, e2, e3, e4, e5, e6, e7, e8] hnd 8 4 (by simp) (by simp) (by decide) (hz.trans hc.symm))
  · have hck : e5 = 0 := hc
    rw [hck]
    exact blankAt12 e0 e1 e2 e3 e4 e6 e7 e8
      (fun hz => nodup_ne_of_ne_idx [e0, e1, e2, e3, e4, e5, e6, e7, e8] hnd 0 5 (by simp) (by simp) (by decide) (hz.trans hc.symm))
      (fun hz => nodup_ne_of_ne_idx [e0, e1, e2, e3, e4, e5, e6, e7, e8] hnd 1 5 (by simp) (by simp) (by decide) (hz.trans hc.symm))
      (fun hz => nodup_ne_of_ne_idx [e0, e1, e2, e3, e4, e5, e6, e7, e8] hnd 2 5 (by simp) (by simp) (by decide) (hz.trans hc.symm))
      (fun hz => nodup_ne_of_ne_idx [e0, e1, e2, e3, e4, e5, e6, e7, e8] hnd 3 5 (by simp) (by simp) (by decide) (hz.trans hc.symm))
      (fun hz => nodup_ne_of_ne_idx [e0, e1, e2, e3, e4, e5, e6, e7, e8] hnd 4 5 (by simp) (by simp) (by decide) (hz.trans hc.symm))
      (fun hz => nodup_ne_of_ne_idx [e0, e1, e2, e3, e4, e5, e6, e7, e8] hnd 6 5 (by simp) (by simp) (by decide) (hz.trans hc.symm))
      (fun hz => nodup_ne_of_ne_idx [e0, e1, e2, e3, e4, e5, e6, e7, e8] hnd 7 5 (by simp) (by simp) (by decide) (hz.trans hc.symm))
      (fun hz => nodup_ne_of_ne_idx [e0, e1, e2, e3, e4, e5, e6, e7, e8] hnd 8 5 (by simp) (by simp) (by decide) (hz.trans hc.symm))
  · have hck : e6 = 0 := hc
    rw [hck]
    exact blankAt20 e0 e1 e2 e3 e4 e5 e7 e8
      (fun hz => nodup_ne_of_ne_idx [e0, e1, e2, e3, e4, e5, e6, e7, e8] hnd 0 6 (by simp) (by simp) (by decide) (hz.trans hc.symm))
      (fun hz => nodup_ne_of_ne_idx [e0, e1, e2, e3, e4, e5, e6, e7, e8] hnd 1 6 (by simp) (by simp) (by decide) (hz.trans hc.symm))
      (fun hz => nodup_ne_of_ne_idx [e0, e1, e2, e3, e4, e5, e6, e7, e8] hnd 2 6 (by simp) (by simp) (by decide) (hz.trans hc.symm))
      (fun hz => nodup_ne_of_ne_idx [e0, e1, e2, e3, e4, e5, e6, e7, e8] hnd 3 6 (by simp) (by simp) (by decide) (hz.trans hc.symm))
      (fun hz => nodup_ne_of_ne_idx [e0, e1, e2, e3, e4, e5, e6, e7, e8] hnd 4 6 (by simp) (by simp) (by decide) (hz.trans hc.symm))
      (fun hz => nodup_ne_of_ne_idx [e0, e1, e2, e3, e4, e5, e6, e7, e8] hnd 5 6 (by simp) (by simp) (by decide) (hz.trans hc.symm))
      (fun hz => nodup_ne_of_ne_idx [e0, e1, e2, e3, e4, e5, e6, e7, e8] hnd 7 6 (by simp) (by simp) (by decide) (hz.trans hc.symm))
      (fun hz => nodup_ne_of_ne_idx [e0, e1, e2, e3, e4, e5, e6, e7, e8] hnd 8 6 (by simp) (by simp) (by decide) (hz.trans hc.symm))
  · have hck : e7 = 0 := hc
    rw [hck]
    exact blankAt21 e0 e1 e2 e3 e4 e5 e6 e8
      (fun hz => nodup_ne_of_ne_idx [e0, e1, e2, e3, e4, e5, e6, e7, e8] hnd 0 7 (by simp) (by simp) (by decide) (hz.trans hc.symm))
      (fun hz => nodup_ne_of_ne_idx [e0, e1, e2, e3, e4, e5, e6, e7, e8] hnd 1 7 (by simp) (by simp) (by decide) (hz.trans hc.symm))
      (fun hz => nodup_ne_of_ne_idx [e0, e1, e2, e3, e4, e5, e6, e7, e8] hnd 2 7 (by simp) (by simp) (by decide) (hz.trans hc.symm))
      (fun hz => nodup_ne_of_ne_idx [e0, e1, e2, e3, e4, e5, e6, e7, e8] hnd 3 7 (by simp) (by simp) (by decide) (hz.trans hc.symm))
      (fun hz => nodup_ne_of_ne_idx [e0, e1, e2, e3, e4, e5, e6, e7, e8] hnd 4 7 (by simp) (by simp) (by decide) (hz.trans hc.symm))
      (fun hz => nodup_ne_of_ne_idx [e0, e1, e2, e3, e4, e5, e6, e7, e8] hnd 5 7 (by simp) (by simp) (by decide) (hz.trans hc.symm))
      (fun hz => nodup_ne_of_ne_idx [e0, e1, e2, e3, e4, e5, e6, e7, e8] hnd 6 7 (by simp) (by simp) (by decide) (hz.trans hc.symm))
      (fun hz => nodup_ne_of_ne_idx [e0, e1, e2, e3, e4, e5, e6, e7, e8] hnd 8 7 (by simp) (by simp) (by decide) (hz.trans hc.symm))
  · have hck : e8 = 0 := hc
    rw [hck]
    exact blankAt22 e0 e1 e2 e3 e4 e5 e6 e7
      (fun hz => nodup_ne_of_ne_idx [e0, e1, e2, e3, e4, e5, e6, e7, e8] hnd 0 8 (by simp) (by simp) (by decide) (hz.trans hc.symm))
      (fun hz => nodup_ne_of_ne_idx [e0, e1, e2, e3, e4, e5, e6, e7, e8] hnd 1 8 (by simp) (by simp) (by decide) (hz.trans hc.symm))
      (fun hz => nodup_ne_of_ne_idx [e0, e1, e2, e3, e4, e5, e6, e7, e8] hnd 2 8 (by simp) (by simp) (by decide) (hz.trans hc.symm))
      (fun hz => nodup_ne_of_ne_idx [e0, e1, e2, e3, e4, e5, e6, e7, e8] hnd 3 8 (by simp) (by simp) (by decide) (hz.trans hc.symm))
      (fun hz => nodup_ne_of_ne_idx [e0, e1, e2, e3, e4, e5, e6, e7, e8] hnd 4 8 (by simp) (by simp) (by decide) (hz.trans hc.symm))
      (fun hz => nodup_ne_of_ne_idx [e0, e1, e2, e3, e4, e5, e6, e7, e8] hnd 5 8 (by simp) (by simp) (by decide) (hz.trans hc.symm))
      (fun hz => nodup_ne_of_ne_idx [e0, e1, e2, e3, e4, e5, e6, e7, e8] hnd 6 8 (by simp) (by simp) (by decide) (hz.trans hc.symm))
      (fun hz => nodup_ne_of_ne_idx [e0, e1, e2, e3, e4, e5, e6, e7, e8] hnd 7 8 (by simp) (by simp) (by decide) (hz.trans hc.symm))

theorem is_solvable3_reach : ∀ (n : Nat) {b c : Board}, ShapeN 3 3 b →
    b.flatten.Perm (List.range 9) → reachF3 n b c → is_solvable3 c = is_solvable3 b := by
  intro n
  induction n with
  | zero =>
    intro b c _ _ hr
    obtain rfl : b = c := hr
    rfl
  | succ m ih =>
    rintro b c hsh hperm ⟨t, ht, hr⟩
    obtain ⟨hsht, hpermt⟩ := nb3_preserves hsh hperm ht
    rw [ih hsht hpermt hr]
    exact is_solvable3_nb hsh hperm ht

theorem to_corner : ∀ (fm : Nat) (b : Board), ShapeN 3 3 b →
    b.flatten.Perm (List.range 9) →
    ∀ x y, getBlankPos3 b = some (x, y) → 4 - x - y ≤ fm →
    ∃ n c, reachF3 n b c ∧ ShapeN 3 3 c ∧ c.flatten.Perm (List.range 9) ∧
      cell c 2 2 = 0 := by
  intro fm
  induction fm with
  | zero =>
    intro b hsh hperm x y hpos hm
    obtain ⟨hx, hy, hc⟩ := getBlankPos3_spec hpos
    have hx2 : x = 2 := by omega
    have hy2 : y = 2 := by omega
    subst hx2
    subst hy2
    exact ⟨0, b, rfl, hsh, hperm, hc⟩
  | succ f ih =>
    intro b hsh hperm x y hpos hm
    obtain ⟨hx, hy, hc⟩ := getBlankPos3_spec hpos
    by_cases hxy : x = 2 ∧ y = 2
    · obtain ⟨rfl, rfl⟩ := hxy
      exact ⟨0, b, rfl, hsh, hperm, hc⟩
    · by_cases hyl : y < 2
      · have happ : applyMove3 b Move.RIGHT = some (swapCells b x y x (y + 1)) := by
          unfold applyMove3
          rw [hpos]
          dsimp only [dirOf3]
          rw [if_pos (by omega)]
          have e1 : ((x : Int) + 0).toNat = x := by omega
          have e2 : ((y : Int) + 1).toNat = y + 1 := by omega
          rw [e1, e2]
        have hmem : swapCells b x y x (y + 1) ∈ nbBoards3 b := applyMove3_mem_nb happ
        obtain ⟨hsh2, hperm2⟩ := nb3_preserves hsh hperm hmem
        have hc2 : cell (swapCells b x y x (y + 1)) x (y + 1) = 0 := by
          rw [cell_swapCells hsh hx hy hx (by omega), if_pos ⟨rfl, rfl⟩]
          exact hc
        have hpos2 : getBlankPos3 (swapCells b x y x (y + 1)) = some (x, y + 1) :=
          blankpos_unique hsh2 hperm2 hx (by omega) hc2
        obtain ⟨n, c, hr, hshc, hpc, hcc⟩ := ih _ hsh2 hperm2 x (y + 1) hpos2 (by omega)
        exact ⟨1 + n, c, reachF3_trans 1 ⟨_, hmem, rfl⟩ hr, hshc, hpc, hcc⟩
      · have hy2 : y = 2 := by omega
        subst hy2
        have hxl : x < 2 := by
          rcases Nat.lt_or_ge x 2 with h | h
          · exact h
          · exact absurd ⟨by omega, rfl⟩ hxy
        have happ : applyMove3 b Move.DOWN = some (swapCells b x 2 (x + 1) 2) := by
          unfold applyMove3
          rw [hpos]
          dsimp only [dirOf3]
          rw [if_pos (by omega)]
          have e1 : ((x : Int) + 1).toNat = x + 1 := by omega
          have e2 : ((2 : Nat) : Int).toNat = 2 := by omega
          rw [e1]
          rw [show (((2 : Nat) : Int) + 0).toNat = 2 by omega]
        have hmem : swapCells b x 2 (x + 1) 2 ∈ nbBoards3 b := applyMove3_mem_nb happ
        obtain ⟨hsh2, hperm2⟩ := nb3_preserves hsh hperm hmem
        have hc2 : cell (swapCells b x 2 (x + 1) 2) (x + 1) 2 = 0 := by
          rw [cell_swapCells hsh hx hy (by omega) (by omega), if_pos ⟨rfl, rfl⟩]
          exact hc
        have hpos2 : getBlankPos3 (swapCells b x 2 (x + 1) 2) = some (x + 1, 2) :=
          blankpos_unique hsh2 hperm2 (by omega) (by omega) hc2
        obtain ⟨n, c, hr, hshc, hpc, hcc⟩ := ih _ hsh2 hperm2 (x + 1) 2 hpos2 (by omega)
        exact ⟨1 + n, c, reachF3_trans 1 ⟨_, hmem, rfl⟩ hr, hshc, hpc, hcc⟩

theorem even_solvable {b : Board} (hsh : ShapeN 3 3 b)
    (hperm : b.flatten.Perm (List.range 9)) (hev : is_solvable3 b = true) :
    Solvable3 b := by
  have hz : (0 : Nat) ∈ b.flatten := hperm.mem_iff.mpr (by decide)
  obtain ⟨p0, hp0⟩ := getBlankPos3_isSome hsh hz
  cases p0 with
  | mk x y =>
    obtain ⟨n1, c, hr1, hshc, hpermc, hcc⟩ := to_corner 4 b hsh hperm x y hp0 (by
      obtain ⟨hx, hy, _⟩ := getBlankPos3_spec hp0
      omega)
    have hevc : is_solvable3 c = true := by
      rw [is_solvable3_reach n1 hsh hperm hr1]
      exact hev
    obtain ⟨e0, e1, e2, e3, e4, e5, e6, e7, e8, rfl⟩ := shape3_cases hshc
    have he8 : e8 = 0 := hcc
    subst he8
    have hflat : List.flatten [[e0, e1, e2], [e3, e4, e5], [e6, e7, 0]] =
        [e0, e1, e2, e3, e4, e5, e6, e7, 0] := by simp
    rw [hflat] at hpermc
    have hpp : ([e0, e1, e2, e3, e4, e5, e6, e7] : List Nat).Perm goalTiles := by
      have h2 : (List.range 9 : List Nat).Perm (goalTiles ++ [0]) := by decide
      have h1 : (([e0, e1, e2, e3, e4, e5, e6, e7] : List Nat) ++ [0]).Perm
          (goalTiles ++ [0]) := hpermc.trans h2
      exact (List.perm_append_right_iff _).mp h1
    have hnzp : ∀ t ∈ ([e0, e1, e2, e3, e4, e5, e6, e7] : List Nat), t ≠ 0 := by
      intro t ht
      have hmem : t ∈ goalTiles := hpp.subset ht
      rcases (by simpa [goalTiles] using hmem :
        t = 1 ∨ t = 2 ∨ t = 3 ∨ t = 4 ∨ t = 5 ∨ t = 6 ∨ t = 7 ∨ t = 8) with
        rfl | rfl | rfl | rfl | rfl | rfl | rfl | rfl <;> decide
    have hz0 : e0 ≠ 0 := hnzp e0 (by simp)
    have hz1 : e1 ≠ 0 := hnzp e1 (by simp)
    have hz2 : e2 ≠ 0 := hnzp e2 (by simp)
    have hz3 : e3 ≠ 0 := hnzp e3 (by simp)
    have hz4 : e4 ≠ 0 := hnzp e4 (by simp)
    have hz5 : e5 ≠ 0 := hnzp e5 (by simp)
    have hz6 : e6 ≠ 0 := hnzp e6 (by simp)
    have hz7 : e7 ≠ 0 := hnzp e7 (by simp)
    have hfnz : flatNonzero [[e0, e1, e2], [e3, e4, e5], [e6, e7, 0]] =
        [e0, e1, e2, e3, e4, e5, e6, e7] := by
      unfold flatNonzero
      rw [hflat]
      simp [List.filter_cons, hz0, hz1, hz2, hz3, hz4, hz5, hz6, hz7]
    have hpar : invCount ([e0, e1, e2, e3, e4, e5, e6, e7] : List Nat) % 2 = 0 := by
      have hdec := of_decide_eq_true hevc
      rwa [hfnz] at hdec
    have hnd8 : ([e0, e1, e2, e3, e4, e5, e6, e7] : List Nat).Nodup :=
      hpp.nodup_iff.mpr (by decide)
    have hstar : Star3 [e0, e1, e2, e3, e4, e5, e6, e7] goalTiles :=
      sort3 8 _ _ (by simp) hnd8 hpp (by rw [hpar]; decide)
    obtain ⟨n2, hr2⟩ := realize_star hstar hpp
    have hr2' : reachF3 n2 [[e0, e1, e2], [e3, e4, e5], [e6, e7, 0]] goal3 := hr2
    have htot : reachF3 (n1 + n2) b goal3 := reachF3_trans n1 hr1 hr2'
    exact ⟨n1 + n2, (reachF3_goal_iff _ _).mp htot⟩

/-- Claim C3: `is_solvable` is computed without search from the inversion count
of the row-major flattening with the blank excluded: the 3x3 engine returns
true iff the inversion count is even; the 4x4 engine returns true iff the
parity of `3 - blank_row` equals the parity of the inversion count; and for
every 3x3 permutation board the 3x3 result coincides exactly with true
reachability of the goal state. -/
theorem c3_solvability_formula :
    (∀ b : Board, is_solvable3 b = true ↔ invCount (flatNonzero b) % 2 = 0) ∧
    (∀ b : Board, ShapeN 4 4 b → b.flatten.Perm (List.range 16) →
      (is_solvable4 b = true ↔
        (3 - blankRowLast b) % 2 = invCount (flatNonzero b) % 2)) ∧
    (∀ b : Board, ShapeN 3 3 b → b.flatten.Perm (List.range 9) →
      (is_solvable3 b = true ↔ Solvable3 b)) := by
  refine ⟨?_, ?_, ?_⟩
  · intro b
    unfold is_solvable3
    exact decide_eq_true_iff
  · intro b hsh hperm
    have hz : (0 : Nat) ∈ b.flatten := hperm.mem_iff.mpr (by decide)
    obtain ⟨p, hp⟩ := getBlankPos4_isSome hsh hz
    cases p with
    | mk x y =>
      obtain ⟨hx, hy, hc0⟩ := getBlankPos4_spec hp
      have hr : blankRowLast b = x := blankRowLast_eq hsh hperm hx hy hc0
      rw [hr]
      unfold is_solvable4
      rw [decide_eq_true_iff]
      omega
  · intro b hsh hperm
    constructor
    · exact even_solvable hsh hperm
    · rintro ⟨n, hrn⟩
      exact is_solvable3_of_reach n b hsh hperm hrn

/-- Witness for C3: the board one move from the goal satisfies the even
inversion formula and is indeed solvable; a 4x4 board with two tiles swapped
fails the 4x4 parity formula. -/
theorem c3_solvability_formula_witness :
    (is_solvable3 [[1, 2, 3], [4, 5, 6], [7, 0, 8]] = true ∧
      Solvable3 [[1, 2, 3], [4, 5, 6], [7, 0, 8]]) ∧
    is_solvable4 [[1, 2, 3, 4], [5, 6, 7, 8], [9, 10, 11, 12], [13, 15, 14, 0]] = false := by
  refine ⟨⟨by decide, ?_⟩, by decide⟩
  exact (c3_solvability_formula.2.2 [[1, 2, 3], [4, 5, 6], [7, 0, 8]] rfl
    (by decide)).mp (by decide)
